import Mathlib

/-!
# Verification of the pseudo-curses window layer (`src/cursesport.cpp`)

A shallow embedding of the window model and of the text layout engine of
`cursesport.cpp`, followed by theorems about it.

Conventions of the embedding

* A `std::string` is a list of bytes (`List Nat`, each byte a number below 256).
* C `int` values are `Int`; the sizes involved are far from the overflow range.
* A `catacurses::window` handle is an `Option WINDOW`; `none` is the null handle.
* A run that leaves defined behaviour (an index outside a `std::vector`, or a
  loop that would not finish) yields `Except.error`; a run that returns yields
  `Except.ok` with the window after the call.
* A `cursecell *` is a pair of indices (`cellptr`) into `line` and `chars`.
-/

namespace cata_cursesport

/-! ## Data model -/

/-- Ways in which a run can leave defined behaviour. -/
inductive Fault where
  | out_of_range
  | out_of_fuel
  | bad_size
deriving DecidableEq, Repr

/-- Modelled from the spec: `font_style` is declared in `cursesport.h`, which is
not part of the sources; the spec describes it as the style-flag set
bold / italic / underline. -/
structure font_style where
  bold : Bool
  italic : Bool
  underline : Bool
deriving DecidableEq, Repr

/-- One cell of a line: the UTF-8 text and the colours and style it is drawn in. -/
structure cursecell where
  ch : List Nat
  FG : Nat
  BG : Nat
  FS : font_style
deriving DecidableEq, Repr

/-- One line of a window. -/
structure curseline where
  touched : Bool
  chars : List cursecell
deriving DecidableEq, Repr

/-- The struct `WINDOW`. -/
structure WINDOW where
  x : Int
  y : Int
  width : Int
  height : Int
  FG : Nat
  BG : Nat
  FS : font_style
  inuse : Bool
  draw : Bool
  cursorx : Int
  cursory : Int
  line : List curseline
deriving DecidableEq, Repr

/-- The colour `black` of `base_color`. -/
def black : Nat := 0

/-- Modelled from the spec: the default constructor `cursecell()` is declared in
`cursesport.h`, which is not part of the sources; the spec describes the cell
it builds as "an empty Cell with default colors". -/
def cursecell.default : cursecell :=
  { ch := [], FG := black, BG := black, FS := ⟨false, false, false⟩ }

/-- A pointer to a cell of a window: the index into `line` and into `chars`. -/
structure cellptr where
  row : Nat
  col : Nat
deriving DecidableEq, Repr

/-- Reads through a cell pointer. -/
def readCell (win : WINDOW) (p : cellptr) : Except Fault cursecell :=
  match win.line[p.row]? with
  | none => .error .out_of_range
  | some l =>
    match l.chars[p.col]? with
    | none => .error .out_of_range
    | some c => .ok c

/-- Writes through a cell pointer: the cell becomes `f` of what it was. -/
def writeCell (win : WINDOW) (p : cellptr) (f : cursecell → cursecell) : Except Fault WINDOW :=
  match win.line[p.row]? with
  | none => .error .out_of_range
  | some l =>
    match l.chars[p.col]? with
    | none => .error .out_of_range
    | some c => .ok { win with line := win.line.set p.row { l with chars := l.chars.set p.col (f c) } }

/-- The statement `win->line[j].touched = true`. -/
def touchLine (win : WINDOW) (j : Int) : Except Fault WINDOW :=
  if j < 0 then .error .out_of_range
  else
    match win.line[j.toNat]? with
    | none => .error .out_of_range
    | some l => .ok { win with line := win.line.set j.toNat { l with touched := true } }

/-- The cell at row `r`, column `c`, when there is one. -/
def cellAt (win : WINDOW) (r c : Nat) : Option cursecell :=
  match win.line[r]? with
  | none => none
  | some l => l.chars[c]?

/-- The touched flag of row `r`, when there is such a row. -/
def touchedAt (win : WINDOW) (r : Nat) : Option Bool :=
  match win.line[r]? with
  | none => none
  | some l => some l.touched

/-- The grid has exactly `height` lines of exactly `width` cells. -/
def wellFormed (win : WINDOW) : Prop :=
  0 ≤ win.width ∧ 0 ≤ win.height ∧ win.line.length = win.height.toNat ∧
    ∀ l ∈ win.line, l.chars.length = win.width.toNat

instance (win : WINDOW) : Decidable (wellFormed win) := by
  unfold wellFormed; infer_instance

/-! ## The character set collaborator -/

/-- The constant `UNKNOWN_UNICODE` of `catacharset.h`. -/
def UNKNOWN_UNICODE : Nat := 0xFFFD

/-- Modelled from the spec: `UTF8_getch` and `mk_wcwidth` are defined in
`catacharset.cpp`, which is not part of the sources. They are parameters of
the embedding. `UTF8_getch bytes` is the code point decoded at the head of the
remaining input together with the number of bytes it advanced the pointer by;
the function advances by at least one byte and never past the end of the
input. `mk_wcwidth` is the "east-asian-width-aware measurement function". -/
structure Charset where
  UTF8_getch : List Nat → Nat × Nat
  mk_wcwidth : Nat → Int
  advance_pos : ∀ bytes, bytes ≠ [] → 0 < (UTF8_getch bytes).2
  advance_le : ∀ bytes, (UTF8_getch bytes).2 ≤ bytes.length

/-- Continuation bytes of a UTF-8 sequence: `left` bytes are still expected and
`ch` holds the bits read so far. The result is the code point, the number of
continuation bytes consumed and the number still missing. -/
def utf8Cont : Nat → List Nat → Nat → Nat × Nat × Nat
  | 0, _, ch => (ch, 0, 0)
  | left + 1, [], ch => (ch, 0, left + 1)
  | left + 1, b :: bs, ch =>
    if b / 64 = 2 then
      ((utf8Cont left bs (ch * 64 + b % 64)).1,
        (utf8Cont left bs (ch * 64 + b % 64)).2.1 + 1,
        (utf8Cont left bs (ch * 64 + b % 64)).2.2)
    else (UNKNOWN_UNICODE, 0, left + 1)

/-- Modelled from the spec: `UTF8_getch` is not part of the sources; this is a
standard UTF-8 decoder for sequences of one to four bytes. A malformed or
truncated sequence decodes to `UNKNOWN_UNICODE` ("an unrenderable/unknown code
point"). -/
def std_getch : List Nat → Nat × Nat
  | [] => (UNKNOWN_UNICODE, 0)
  | b :: bs =>
    if b < 0x80 then (b, 1)
    else if 0xC0 ≤ b ∧ b < 0xE0 then
      (if (utf8Cont 1 bs (b % 32)).2.2 = 0 then (utf8Cont 1 bs (b % 32)).1 else UNKNOWN_UNICODE,
        (utf8Cont 1 bs (b % 32)).2.1 + 1)
    else if 0xE0 ≤ b ∧ b < 0xF0 then
      (if (utf8Cont 2 bs (b % 16)).2.2 = 0 then (utf8Cont 2 bs (b % 16)).1 else UNKNOWN_UNICODE,
        (utf8Cont 2 bs (b % 16)).2.1 + 1)
    else if 0xF0 ≤ b ∧ b < 0xF8 then
      (if (utf8Cont 3 bs (b % 8)).2.2 = 0 then (utf8Cont 3 bs (b % 8)).1 else UNKNOWN_UNICODE,
        (utf8Cont 3 bs (b % 8)).2.1 + 1)
    else (UNKNOWN_UNICODE, 1)

/-- Modelled from the spec: `mk_wcwidth` is not part of the sources; this is the
usual terminal column width with an abridged table: 0 for NUL and for the
combining diacritical marks, -1 for the other control characters, 2 for the
East Asian wide and fullwidth ranges, and 1 otherwise. -/
def std_wcwidth (ucs : Nat) : Int :=
  if ucs = 0 then 0
  else if ucs < 0x20 ∨ (0x7F ≤ ucs ∧ ucs < 0xA0) then -1
  else if 0x300 ≤ ucs ∧ ucs ≤ 0x36F then 0
  else if (0x1100 ≤ ucs ∧ ucs ≤ 0x115F) ∨ (0x2E80 ≤ ucs ∧ ucs ≤ 0xA4CF) ∨
      (0xAC00 ≤ ucs ∧ ucs ≤ 0xD7A3) ∨ (0xF900 ≤ ucs ∧ ucs ≤ 0xFAFF) ∨
      (0xFE30 ≤ ucs ∧ ucs ≤ 0xFE6F) ∨ (0xFF00 ≤ ucs ∧ ucs ≤ 0xFF60) ∨
      (0xFFE0 ≤ ucs ∧ ucs ≤ 0xFFE6) ∨ (0x20000 ≤ ucs ∧ ucs ≤ 0x3FFFD) then 2
  else 1

/-- The character set used in the worked examples: `std_getch` and
`std_wcwidth`, with the proofs that the decoder advances by at least one byte
and stays inside the input. -/
def stdCharset : Charset :=
  { UTF8_getch := std_getch
    mk_wcwidth := std_wcwidth
    advance_pos := by
      intro bytes h
      cases bytes with
      | nil => exact absurd rfl h
      | cons b bs =>
        simp only [std_getch]
        split_ifs <;> simp
    advance_le := by
      have key : ∀ (left : Nat) (bs : List Nat) (ch : Nat),
          (utf8Cont left bs ch).2.1 ≤ bs.length := by
        intro left
        induction left with
        | zero => intro bs ch; simp [utf8Cont]
        | succ n ih =>
          intro bs ch
          cases bs with
          | nil => simp [utf8Cont]
          | cons b bs =>
            simp only [utf8Cont]
            split
            · have := ih bs (ch * 64 + b % 64)
              simp only [List.length_cons]
              omega
            · simp
      intro bytes
      cases bytes with
      | nil => simp [std_getch]
      | cons b bs =>
        simp only [std_getch, List.length_cons]
        split_ifs <;> first
          | (simp; done)
          | (simpa using key _ bs _) }

/-! ## The functions of `cursesport.cpp` -/

/-- The function `wmove_internal`: the result and the handle after the call. -/
def wmove_internal (win_ : Option WINDOW) (y x : Int) : Bool × Option WINDOW :=
  match win_ with
  | none => (false, none)
  | some win =>
    if x ≥ win.width then (false, some win)
    else if y ≥ win.height then (false, some win)
    else if y < 0 then (false, some win)
    else if x < 0 then (false, some win)
    else (true, some { win with cursorx := x, cursory := y })

/-- The function `catacurses::newwin`. `TERMX` and `TERMY` are the globals of
that name. A negative size makes `std::vector::resize` throw, which is a run
that does not return a window (`Fault.bad_size`). -/
def newwin (TERMX TERMY : Int) (nlines ncols begin_y begin_x : Int) :
    Except Fault (Option WINDOW) :=
  if begin_y < 0 ∨ begin_x < 0 then .ok none
  else
    let ncols := if ncols = 0 then TERMX - begin_x else ncols
    let nlines := if nlines = 0 then TERMY - begin_y else nlines
    if nlines < 0 ∨ ncols < 0 then .error .bad_size
    else
      .ok (some
        { x := begin_x, y := begin_y, width := ncols, height := nlines, inuse := true,
          draw := false, BG := black, FG := 8, FS := ⟨false, false, false⟩,
          cursorx := 0, cursory := 0,
          line := List.replicate nlines.toNat
            { touched := true, chars := List.replicate ncols.toNat cursecell.default } })

/-- The function `newline`: the returned `int` and the window after the call. -/
def newline (win : WINDOW) : Int × WINDOW :=
  if win.cursory < win.height - 1 then
    (1, { win with cursory := win.cursory + 1, cursorx := 0 })
  else (0, win)

/-- The function `addedchar`. -/
def addedchar (win : WINDOW) : Except Fault WINDOW := do
  let win := { win with cursorx := win.cursorx + 1 }
  let win ← touchLine win win.cursory
  if win.cursorx ≥ win.width then
    pure (newline win).2
  else
    pure win

/-- The loop of `fill`. `taken` are the bytes between `start` and `fmt`, `tmp`
the bytes from `tmpptr` on (at the head of the loop `tmpptr` equals `fmt`), and
`dlen` the display width so far. The result is the returned width, the string
assigned to `target`, and the bytes from the final `fmt` on. -/
def fillLoop (cs : Charset) : Nat → List Nat → List Nat → Int →
    Except Fault (Int × List Nat × List Nat)
  | _, taken, [], dlen => .ok (dlen, taken, [])
  | 0, _, _ :: _, _ => .error .out_of_fuel
  | fuel + 1, taken, b :: bs, dlen =>
    let ch := (cs.UTF8_getch (b :: bs)).1
    let k := (cs.UTF8_getch (b :: bs)).2
    let cw : Int := if ch = UNKNOWN_UNICODE then 1 else cs.mk_wcwidth ch
    if cw > 0 ∧ dlen > 0 then
      .ok (dlen, taken, b :: bs)
    else if cw = -1 ∧ taken = [] then
      .ok (1, [0x20], (b :: bs).drop k)
    else if cw = -1 then
      .ok (dlen, taken, b :: bs)
    else
      fillLoop cs fuel (taken ++ (b :: bs).take k) ((b :: bs).drop k) (dlen + cw)

/-- The function `fill` on the remaining input `fmt` (whose length is `len`). -/
def fill (cs : Charset) (fmt : List Nat) : Except Fault (Int × List Nat × List Nat) :=
  fillLoop cs fmt.length [] fmt 0

/-- The function `cur_cell`: `none` is the null pointer. -/
def cur_cell (win : WINDOW) : Except Fault (Option cellptr) :=
  if win.cursory ≥ win.height ∨ win.cursorx ≥ win.width then .ok none
  else if win.cursory < 0 ∨ win.cursorx < 0 then .error .out_of_range
  else
    match readCell win ⟨win.cursory.toNat, win.cursorx.toNat⟩ with
    | .error e => .error e
    | .ok _ => .ok (some ⟨win.cursory.toNat, win.cursorx.toNat⟩)

/-- The string built by `ch.assign(' ', 1)`. The call resolves to the overload
`assign(size_type count, char ch)` with `count = ' ' = 32` and `ch = char(1)`:
thirty-two bytes of value 1. -/
def assign_space_1 : List Nat := List.replicate 0x20 1

/-- The string built by `ch.assign(1, ' ')` and by `assign(" ", 1)`: one space. -/
def assign_1_space : List Nat := [0x20]

/-- The `dlen == 1` branch of `printstring`. -/
def narrowTail (win : WINDOW) : Except Fault WINDOW := do
  match ← cur_cell win with
  | none => pure win
  | some seccell =>
    let c ← readCell win seccell
    if c.ch = [] then
      writeCell win seccell (fun c => { c with ch := assign_space_1 })
    else
      pure win

/-- The `dlen == 2` branch of `printstring`: whether the function returned from
inside the branch, and the window. -/
def wideTail (win : WINDOW) (curcell : cellptr) : Except Fault (Bool × WINDOW) := do
  match ← cur_cell win with
  | none =>
    let win ← writeCell win curcell (fun c => { c with ch := assign_space_1 })
    pure (true, win)
  | some seccell =>
    let win ← writeCell win seccell
      (fun c => { c with FG := win.FG, BG := win.BG, FS := win.FS })
    let win ← writeCell win seccell (fun c => { c with ch := [] })
    let win ← addedchar win
    if win.cursorx = 1 then
      let cur ← readCell win curcell
      let win ← writeCell win seccell (fun c => { c with ch := cur.ch })
      let win ← writeCell win curcell (fun c => { c with ch := assign_1_space })
      let win ← addedchar win
      match ← cur_cell win with
      | none => pure (false, win)
      | some thicell =>
        let win ← writeCell win thicell (fun c => { c with ch := [] })
        pure (false, win)
    else
      pure (false, win)

/-- The `while( len > 0 )` loop of `printstring`; `fmt` holds the `len`
remaining bytes. -/
def printLoop (cs : Charset) : Nat → WINDOW → List Nat → Except Fault WINDOW
  | _, win, [] => .ok win
  | 0, _, _ :: _ => .error .out_of_fuel
  | fuel + 1, win, b :: bs =>
    if b = 10 then
      if (newline win).1 = 0 then .ok (newline win).2
      else printLoop cs fuel (newline win).2 bs
    else
      match cur_cell win with
      | .error e => .error e
      | .ok none => .ok win
      | .ok (some curcell) =>
        match fill cs (b :: bs) with
        | .error e => .error e
        | .ok (dlen, target, rest) =>
          match writeCell win curcell (fun c => { c with ch := target }) with
          | .error e => .error e
          | .ok win1 =>
            let r2 : Except Fault WINDOW :=
              if dlen ≥ 1 then do
                let w ← writeCell win1 curcell
                  (fun c => { c with FG := win1.FG, BG := win1.BG, FS := win1.FS })
                addedchar w
              else pure win1
            match r2 with
            | .error e => .error e
            | .ok win2 =>
              let r3 : Except Fault (Bool × WINDOW) :=
                if dlen = 1 then do
                  let w ← narrowTail win2
                  pure (false, w)
                else if dlen = 2 then wideTail win2 curcell
                else pure (false, win2)
              match r3 with
              | .error e => .error e
              | .ok (true, win3) => .ok win3
              | .ok (false, win3) =>
                if win3.cursory ≥ win3.height then .ok win3
                else printLoop cs fuel win3 rest

/-- The guard of `printstring` for a write that starts inside a wide character. -/
def startGuard (win : WINDOW) : Except Fault WINDOW :=
  if win.cursorx > 0 then
    if win.cursory < 0 then .error .out_of_range
    else
      match readCell win ⟨win.cursory.toNat, win.cursorx.toNat⟩ with
      | .error e => .error e
      | .ok c =>
        if c.ch = [] then
          writeCell win ⟨win.cursory.toNat, (win.cursorx - 1).toNat⟩
            (fun c => { c with ch := assign_1_space })
        else .ok win
  else .ok win

/-- The function `printstring`. -/
def printstring (cs : Charset) (win : WINDOW) (text : List Nat) : Except Fault WINDOW :=
  let win := { win with draw := true }
  if text.length = 0 then .ok win
  else if win.cursorx ≥ win.width ∧ (newline win).1 = 0 then .ok win
  else
    let win := if win.cursorx ≥ win.width then (newline win).2 else win
    if win.cursory ≥ win.height ∨ win.cursorx ≥ win.width then .ok win
    else
      match startGuard win with
      | .error e => .error e
      | .ok win => printLoop cs text.length win text

/-- The function `catacurses::wprintw` (the operation `write`). -/
def wprintw (cs : Charset) (win : Option WINDOW) (printbuf : List Nat) :
    Except Fault (Option WINDOW) :=
  match win with
  | none => .ok none
  | some w => (printstring cs w printbuf).map some

/-- The function `catacurses::mvwprintw` (the operation `writeAt`). -/
def mvwprintw (cs : Charset) (win : Option WINDOW) (y x : Int) (printbuf : List Nat) :
    Except Fault (Option WINDOW) :=
  if (wmove_internal win y x).1 = false then .ok (wmove_internal win y x).2
  else
    match (wmove_internal win y x).2 with
    | none => .error .out_of_range
    | some w => (printstring cs w printbuf).map some

/-- The function `catacurses::wmove`. -/
def wmove (win_ : Option WINDOW) (y x : Int) : Option WINDOW :=
  if (wmove_internal win_ y x).1 = false then (wmove_internal win_ y x).2
  else
    match (wmove_internal win_ y x).2 with
    | none => none
    | some win => some { win with cursorx := x, cursory := y }

/-- The body of the loop of `werase` for line `j`. A negative width makes
`std::vector::assign` throw (`Fault.bad_size`). -/
def eraseLine (win : WINDOW) (j : Nat) : Except Fault WINDOW :=
  match win.line[j]? with
  | none => .error .out_of_range
  | some _ =>
    if win.width < 0 then .error .bad_size
    else
      .ok { win with
        line := win.line.set j ⟨true, List.replicate win.width.toNat cursecell.default⟩ }

/-- The loop `for (int j = 0; j < win->height; j++)` of `werase`: `n` turns are
left and the next one is for line `j`. -/
def eraseLoop : Nat → Nat → WINDOW → Except Fault WINDOW
  | 0, _, win => .ok win
  | n + 1, j, win =>
    match eraseLine win j with
    | .error e => .error e
    | .ok w => eraseLoop n (j + 1) w

/-- Modelled from the spec: `handle_additional_window_clear` is defined in the
renderer, which is not part of the sources; the spec calls it an external
"extra clear" hook that is out of scope. It gets the window and leaves it as
it is. -/
def handle_additional_window_clear (win : Option WINDOW) : Option WINDOW := win

/-- The function `catacurses::werase` (the operation `erase`). -/
def werase (win_ : Option WINDOW) : Except Fault (Option WINDOW) :=
  match win_ with
  | none => .ok none
  | some win =>
    match eraseLoop win.height.toNat 0 win with
    | .error e => .error e
    | .ok w => .ok (handle_additional_window_clear (wmove (some { w with draw := true }) 0 0))

/-- The constant `A_BLINK`. -/
def A_BLINK : Nat := 0x00000800

/-- The constant `A_BOLD`. -/
def A_BOLD : Nat := 0x00002000

/-- The constant `A_ITALIC`. -/
def A_ITALIC : Nat := 0x00800000

/-- The constant `A_UNDERLINE`. -/
def A_UNDERLINE : Nat := 0x00000200

/-- The constant `A_COLOR`. -/
def A_COLOR : Nat := 0x037e0000

/-- The class `nc_color`: `attribute_value` is the bit pattern of the `int` it
wraps. -/
structure nc_color where
  attribute_value : Nat
deriving DecidableEq, Repr

/-- The function `nc_color::from_color_pair_index`, for an index that is not
negative. The mask keeps bits below 2^26 only, so the result is the same
whether or not the shift is taken modulo 2^32. -/
def nc_color.from_color_pair_index (index : Nat) : nc_color :=
  ⟨(index <<< 17) &&& A_COLOR⟩

/-- The function `nc_color::to_color_pair_index`. -/
def nc_color.to_color_pair_index (c : nc_color) : Nat :=
  (c.attribute_value &&& A_COLOR) >>> 17

/-- The function `nc_color::bold`. -/
def nc_color.bold (c : nc_color) : nc_color := ⟨c.attribute_value ||| A_BOLD⟩

/-- The function `nc_color::is_bold`. -/
def nc_color.is_bold (c : nc_color) : Bool := (c.attribute_value &&& A_BOLD) != 0

/-- The function `nc_color::blink`. -/
def nc_color.blink (c : nc_color) : nc_color := ⟨c.attribute_value ||| A_BLINK⟩

/-- The function `nc_color::is_blink`. -/
def nc_color.is_blink (c : nc_color) : Bool := (c.attribute_value &&& A_BLINK) != 0

/-- The function `nc_color::italic`. -/
def nc_color.italic (c : nc_color) : nc_color := ⟨c.attribute_value ||| A_ITALIC⟩

/-- The function `nc_color::is_italic`. -/
def nc_color.is_italic (c : nc_color) : Bool := (c.attribute_value &&& A_ITALIC) != 0

/-- The function `nc_color::underline`. -/
def nc_color.underline (c : nc_color) : nc_color := ⟨c.attribute_value ||| A_UNDERLINE⟩

/-- The function `nc_color::is_underline`. -/
def nc_color.is_underline (c : nc_color) : Bool := (c.attribute_value &&& A_UNDERLINE) != 0

/-- The struct `cata_cursesport::pairs`: one entry of the colour pair table. -/
structure pairs where
  FG : Nat
  BG : Nat
deriving DecidableEq, Repr

/-- The function `catacurses::init_pair`: the table `colorpairs` after the call.
An index outside the array is outside defined behaviour. -/
def init_pair (colorpairs : List pairs) (pair : Int) (f b : Nat) : Except Fault (List pairs) :=
  if pair < 0 then .error .out_of_range
  else
    match colorpairs[pair.toNat]? with
    | none => .error .out_of_range
    | some _ => .ok (colorpairs.set pair.toNat ⟨f, b⟩)

/-- The function `catacurses::wattron`; `colorpairs` is the global table
(`std::array<pairs, 100>`). Reading an entry outside the array is outside
defined behaviour. -/
def wattron (colorpairs : List pairs) (win_ : Option WINDOW) (attrs : nc_color) :
    Except Fault (Option WINDOW) :=
  match win_ with
  | none => .ok none
  | some win =>
    match colorpairs[attrs.to_color_pair_index]? with
    | none => .error .out_of_range
    | some p =>
      let win := { win with FG := p.FG, BG := p.BG }
      let win := if attrs.is_bold then { win with FG := win.FG + 8 } else win
      let win := if attrs.is_blink then { win with BG := win.BG + 8 } else win
      let win := if attrs.is_italic then { win with FS := { win.FS with italic := true } } else win
      let win := if attrs.is_underline then { win with FS := { win.FS with underline := true } }
        else win
      .ok (some win)

/-- The function `catacurses::wattroff`. -/
def wattroff (win_ : Option WINDOW) : Option WINDOW :=
  match win_ with
  | none => none
  | some win =>
    some { win with FG := 8, BG := black,
                    FS := { win.FS with bold := false, italic := false, underline := false } }

/-- Modelled from the spec: the line-drawing codes `LINE_XOXO`, ... and the
characters `LINE_XOXO_C`, ... that `waddch` maps them to are macros of
`cursesdef.h`, which is not part of the sources; the spec calls them "fixed
default line-drawing glyphs". They are parameters of the embedding. -/
structure LineCodes where
  LINE_XOXO : Nat
  LINE_OXOX : Nat
  LINE_XXOO : Nat
  LINE_OXXO : Nat
  LINE_OOXX : Nat
  LINE_XOOX : Nat
  LINE_XXOX : Nat
  LINE_XXXO : Nat
  LINE_XOXX : Nat
  LINE_OXXX : Nat
  LINE_XXXX : Nat
  LINE_XOXO_C : Nat
  LINE_OXOX_C : Nat
  LINE_XXOO_C : Nat
  LINE_OXXO_C : Nat
  LINE_OOXX_C : Nat
  LINE_XOOX_C : Nat
  LINE_XXOX_C : Nat
  LINE_XXXO_C : Nat
  LINE_XOXX_C : Nat
  LINE_OXXX_C : Nat
  LINE_XXXX_C : Nat

/-- The `switch` of `waddch`: the value stored in `char charcode`, as a byte. -/
def charcode (lc : LineCodes) (ch : Nat) : Nat :=
  (if ch = lc.LINE_XOXO then lc.LINE_XOXO_C
    else if ch = lc.LINE_OXOX then lc.LINE_OXOX_C
    else if ch = lc.LINE_XXOO then lc.LINE_XXOO_C
    else if ch = lc.LINE_OXXO then lc.LINE_OXXO_C
    else if ch = lc.LINE_OOXX then lc.LINE_OOXX_C
    else if ch = lc.LINE_XOOX then lc.LINE_XOOX_C
    else if ch = lc.LINE_XXOX then lc.LINE_XXOX_C
    else if ch = lc.LINE_XXXO then lc.LINE_XXXO_C
    else if ch = lc.LINE_XOXX then lc.LINE_XOXX_C
    else if ch = lc.LINE_OXXX then lc.LINE_OXXX_C
    else if ch = lc.LINE_XXXX then lc.LINE_XXXX_C
    else ch) % 256

/-- The string that `waddch` builds from `char buffer[2] = { charcode, '\0' }`:
empty when the character is the terminator itself. -/
def bufferText (lc : LineCodes) (ch : Nat) : List Nat :=
  if charcode lc ch = 0 then [] else [charcode lc ch]

/-- The function `catacurses::waddch`. With the null handle it would call
`printstring` on a null pointer, which is outside defined behaviour. -/
def waddch (cs : Charset) (lc : LineCodes) (win : Option WINDOW) (ch : Nat) :
    Except Fault (Option WINDOW) :=
  match win with
  | none => .error .out_of_range
  | some w => (printstring cs w (bufferText lc ch)).map some

/-- The function `catacurses::mvwaddch`. -/
def mvwaddch (cs : Charset) (lc : LineCodes) (win : Option WINDOW) (y x : Int) (ch : Nat) :
    Except Fault (Option WINDOW) :=
  if (wmove_internal win y x).1 = false then .ok (wmove_internal win y x).2
  else waddch cs lc (wmove_internal win y x).2 ch

/-- A loop `for (j = start; ...; j++) body(j)` that makes `n` turns. -/
def forLoop {σ : Type} (body : Int → σ → Except Fault σ) : Nat → Int → σ → Except Fault σ
  | 0, _, s => .ok s
  | n + 1, j, s =>
    match body j s with
    | .error e => .error e
    | .ok s2 => forLoop body n (j + 1) s2

/-- The function `catacurses::wborder`. The loops over the edges run from 1
while the index is below `height - 1` (`width - 1`); the calls in their bodies
do not change the size of the window, so the number of turns is fixed when the
loop starts. -/
def wborder (cs : Charset) (lc : LineCodes) (win_ : Option WINDOW)
    (ls rs ts bs tl tr bl br : Nat) : Except Fault (Option WINDOW) :=
  match win_ with
  | none => .ok none
  | some win => do
    let oldx := win.cursorx
    let oldy := win.cursory
    let w ← forLoop (fun j w => mvwaddch cs lc w j 0 (if ls ≠ 0 then ls else lc.LINE_XOXO))
      (win.height - 1 - 1).toNat 1 (some win)
    let w ← forLoop
      (fun j w => mvwaddch cs lc w j (win.width - 1) (if rs ≠ 0 then rs else lc.LINE_XOXO))
      (win.height - 1 - 1).toNat 1 w
    let w ← forLoop (fun i w => mvwaddch cs lc w 0 i (if ts ≠ 0 then ts else lc.LINE_OXOX))
      (win.width - 1 - 1).toNat 1 w
    let w ← forLoop
      (fun i w => mvwaddch cs lc w (win.height - 1) i (if bs ≠ 0 then bs else lc.LINE_OXOX))
      (win.width - 1 - 1).toNat 1 w
    let w ← mvwaddch cs lc w 0 0 (if tl ≠ 0 then tl else lc.LINE_OXXO)
    let w ← mvwaddch cs lc w 0 (win.width - 1) (if tr ≠ 0 then tr else lc.LINE_OOXX)
    let w ← mvwaddch cs lc w (win.height - 1) 0 (if bl ≠ 0 then bl else lc.LINE_XXOO)
    let w ← mvwaddch cs lc w (win.height - 1) (win.width - 1)
      (if br ≠ 0 then br else lc.LINE_XOOX)
    pure (wattroff (wmove w oldy oldx))

/-! ## Vocabulary of the statements -/

/-- The grid has `H` lines of `W` cells and the size fields say so. -/
def hasShape (win : WINDOW) (H W : Nat) : Prop :=
  win.height = (H : Int) ∧ win.width = (W : Int) ∧ win.line.length = H ∧
    ∀ l ∈ win.line, l.chars.length = W

instance (win : WINDOW) (H W : Nat) : Decidable (hasShape win H W) := by
  unfold hasShape; infer_instance

/-- The window with `f` applied to the cell at row `r`, column `c`. -/
def mapCell (win : WINDOW) (r c : Nat) (f : cursecell → cursecell) : WINDOW :=
  { win with line := win.line.modify (fun l => { l with chars := l.chars.modify f c }) r }

/-- The window with the touched flag of row `r` set. -/
def markTouched (win : WINDOW) (r : Nat) : WINDOW :=
  { win with line := win.line.modify (fun l => { l with touched := true }) r }

/-- A printable ASCII byte, 0x20 to 0x7E. -/
def printable (b : Nat) : Prop := 0x20 ≤ b ∧ b ≤ 0x7E

instance (b : Nat) : Decidable (printable b) := by
  unfold printable; infer_instance

/-- What the statements about ASCII text assume of the character set: a byte
below 0x80 decodes to itself and advances the input by one byte, a printable
ASCII character is one column wide, and the newline is a control character. -/
def asciiCharset (cs : Charset) : Prop :=
  (∀ b bs, b < 0x80 → cs.UTF8_getch (b :: bs) = (b, 1)) ∧
  (∀ b, printable b → cs.mk_wcwidth b = 1) ∧
  cs.mk_wcwidth 10 = -1

/-- The cursor points at the cell at row `Y`, column `X`. -/
def cursorAt (win : WINDOW) (Y X : Nat) : Prop :=
  win.cursory = (Y : Int) ∧ win.cursorx = (X : Int)

instance (win : WINDOW) (Y X : Nat) : Decidable (cursorAt win Y X) := by
  unfold cursorAt; infer_instance

/-- The window with the cursor placed at row `y`, column `x`. -/
def setCursor (win : WINDOW) (y x : Int) : WINDOW :=
  { win with cursory := y, cursorx := x }

/-- The fields of a window that writing text never changes. -/
def sameFrame (win win2 : WINDOW) : Prop :=
  win2.x = win.x ∧ win2.y = win.y ∧ win2.width = win.width ∧ win2.height = win.height ∧
    win2.FG = win.FG ∧ win2.BG = win.BG ∧ win2.FS = win.FS ∧ win2.inuse = win.inuse ∧
    win2.draw = win.draw

/-- What the `dlen == 1` branch does to the cell under the cursor. -/
def blankIfEmpty (c : cursecell) : cursecell :=
  if c.ch = [] then { c with ch := assign_space_1 } else c

/-- A window of 3 columns and 2 rows with earlier contents ("xyz" over "abc"),
no line touched, and the cursor at row 0, column 1. -/
def exampleWindow : WINDOW :=
  { x := 0, y := 0, width := 3, height := 2, FG := 4, BG := 1, FS := ⟨false, true, false⟩,
    inuse := true, draw := false, cursorx := 1, cursory := 0,
    line := [⟨false, [⟨[120], 8, 0, ⟨false, false, false⟩⟩, ⟨[121], 8, 0, ⟨false, false, false⟩⟩,
                      ⟨[122], 8, 0, ⟨false, false, false⟩⟩]⟩,
             ⟨false, [⟨[97], 8, 0, ⟨false, false, false⟩⟩, ⟨[98], 8, 0, ⟨false, false, false⟩⟩,
                      ⟨[99], 8, 0, ⟨false, false, false⟩⟩]⟩] }

/-- The window that `newwin` creates for 2 lines of 3 columns at the origin. -/
def exampleEmpty : WINDOW :=
  { x := 0, y := 0, width := 3, height := 2, FG := 8, BG := black,
    FS := ⟨false, false, false⟩, inuse := true, draw := false, cursorx := 0, cursory := 0,
    line := List.replicate 2 { touched := true, chars := List.replicate 3 cursecell.default } }

/-- Every cell of the window holds the empty string. -/
def allEmpty (win : WINDOW) : Prop :=
  ∀ l ∈ win.line, ∀ cell ∈ l.chars, cell.ch = []

instance (win : WINDOW) : Decidable (allEmpty win) := by
  unfold allEmpty; infer_instance

/-- A window of 2 columns and 3 rows whose cells are all empty, with the cursor
on the last column of row 0. -/
def exampleNarrow : WINDOW :=
  { x := 0, y := 0, width := 2, height := 3, FG := 8, BG := black,
    FS := ⟨false, false, false⟩, inuse := true, draw := false, cursorx := 1, cursory := 0,
    line := List.replicate 3 { touched := false, chars := List.replicate 2 cursecell.default } }

/-- The display width of a cell text that `fill` takes as one unit. -/
def unitWidth (cs : Charset) (text : List Nat) : Option Int :=
  match fill cs text with
  | .ok (dlen, target, []) => if target = text then some dlen else none
  | _ => none

/-- The window `exampleWindow` with the cursor on the last cell of row 0. -/
def exampleRowEnd : WINDOW := { exampleWindow with cursorx := 2, cursory := 0 }

/-- The window `exampleWindow` with the cursor on the last cell of the last row. -/
def exampleLastCell : WINDOW := { exampleWindow with cursorx := 2, cursory := 1 }

/-- A window of 3 columns and 2 rows, no line touched, whose row 0 starts with
the wide glyph U+4E2D followed by its empty second half; the cursor is on that
second half. -/
def exampleWideRow : WINDOW :=
  { x := 0, y := 0, width := 3, height := 2, FG := 8, BG := black,
    FS := ⟨false, false, false⟩, inuse := true, draw := true, cursorx := 1, cursory := 0,
    line := [⟨false, [⟨[0xE4, 0xB8, 0xAD], 8, 0, ⟨false, false, false⟩⟩,
                      ⟨[], 8, 0, ⟨false, false, false⟩⟩,
                      ⟨[122], 8, 0, ⟨false, false, false⟩⟩]⟩,
             ⟨false, [⟨[97], 8, 0, ⟨false, false, false⟩⟩, ⟨[98], 8, 0, ⟨false, false, false⟩⟩,
                      ⟨[99], 8, 0, ⟨false, false, false⟩⟩]⟩] }

/-- The colour pair table with every entry (0, 0). -/
def exampleColorpairs : List pairs := List.replicate 100 ⟨0, 0⟩

/-- The colours and style of `cell2` are those of `cell` or those that the
window draws with. -/
def coloursFrom (win : WINDOW) (cell cell2 : cursecell) : Prop :=
  (cell2.FG = cell.FG ∧ cell2.BG = cell.BG ∧ cell2.FS = cell.FS) ∨
    (cell2.FG = win.FG ∧ cell2.BG = win.BG ∧ cell2.FS = win.FS)

/-- The window `win2` comes from `win` by writing text: the grid keeps its
shape, the fields outside the grid and the cursor are as before, the rows
before row `Y0` are as before (cells and touched flags), and every cell has
the colours it had or the colours of the window. -/
structure Evolves (H W Y0 : Nat) (win win2 : WINDOW) : Prop where
  shape : hasShape win2 H W
  frame : sameFrame win win2
  cells_above : ∀ r c, r < Y0 → cellAt win2 r c = cellAt win r c
  touched_above : ∀ r, r < Y0 → touchedAt win2 r = touchedAt win r
  colours : ∀ r c cell2, cellAt win2 r c = some cell2 →
    ∃ cell, cellAt win r c = some cell ∧ coloursFrom win cell cell2

/-- The cursor is inside the grid, or just past the last column of the last row. -/
def cursorInRange (H W Y X : Nat) : Prop :=
  X < W ∨ (X = W ∧ Y + 1 = H)

/-- The cell has the colours and style that the window `w0` draws with. -/
def hasWinColours (w0 : WINDOW) (cell : cursecell) : Prop :=
  cell.FG = w0.FG ∧ cell.BG = w0.BG ∧ cell.FS = w0.FS

/-- The cell at row `r`, column `c` of `w` has the colours of the window `w0`. -/
def paintedAt (w0 w : WINDOW) (r c : Nat) : Prop :=
  ∀ cell, cellAt w r c = some cell → hasWinColours w0 cell

/-- The byte makes a text that `printstring` draws: it is not the terminator,
not a newline, and `fill` gives it a display width of at least 1. -/
def drawable (cs : Charset) (byte : Nat) : Prop :=
  byte ≠ 0 ∧ byte ≠ 10 ∧ ∃ d t rest, fill cs [byte] = .ok (d, t, rest) ∧ 1 ≤ d

/-- The grid of `w` has the shape `H`, `W` and `w` draws with the colours of `w0`. -/
def sameBrush (H W : Nat) (w0 w : WINDOW) : Prop :=
  hasShape w H W ∧ w.FG = w0.FG ∧ w.BG = w0.BG ∧ w.FS = w0.FS

/-- The cursor-range invariant: `0 ≤ cursory < height`, `0 ≤ cursorx ≤ width`,
and `cursorx = width` only in the last row. -/
def cursorInvariant (win : WINDOW) : Prop :=
  0 ≤ win.cursory ∧ win.cursory < win.height ∧ 0 ≤ win.cursorx ∧ win.cursorx ≤ win.width ∧
    (win.cursorx = win.width → win.cursory = win.height - 1)

instance (win : WINDOW) : Decidable (cursorInvariant win) := by
  unfold cursorInvariant; infer_instance

/-- Modelled from the spec: the values of the line-drawing macros are not part
of the sources; these are example values (codes above every character code,
characters from 0xA0 on) for the worked examples. -/
def exampleLineCodes : LineCodes :=
  { LINE_XOXO := 4194424, LINE_OXOX := 4194417, LINE_XXOO := 4194413, LINE_OXXO := 4194412,
    LINE_OOXX := 4194411, LINE_XOOX := 4194410, LINE_XXOX := 4194422, LINE_XXXO := 4194420,
    LINE_XOXX := 4194421, LINE_OXXX := 4194423, LINE_XXXX := 4194414,
    LINE_XOXO_C := 0xa0, LINE_OXOX_C := 0xa1, LINE_XXOO_C := 0xa2, LINE_OXXO_C := 0xa3,
    LINE_OOXX_C := 0xa4, LINE_XOOX_C := 0xa5, LINE_XXOX_C := 0xa6, LINE_XXXO_C := 0xa7,
    LINE_XOXX_C := 0xa8, LINE_OXXX_C := 0xa9, LINE_XXXX_C := 0xaa }

/-- The foreground and background of every cell of the window, line by line. -/
def cellColours (win : WINDOW) : List (List (Nat × Nat)) :=
  win.line.map (fun l => l.chars.map (fun c => (c.FG, c.BG)))

/-- The display width that the loop of `fill` computes for a code point (its
local `cw`). -/
def codeWidth (cs : Charset) (ch : Nat) : Int :=
  if ch = UNKNOWN_UNICODE then 1 else cs.mk_wcwidth ch

/-- Decoding the code points `codes` one after the other from the head of
`bytes` with `UTF8_getch`: the bytes that remain, when each decoded code point
is the listed one. -/
def decodeCodes (cs : Charset) : List Nat → List Nat → Option (List Nat)
  | [], bytes => some bytes
  | c :: more, bytes =>
    if bytes ≠ [] ∧ (cs.UTF8_getch bytes).1 = c then
      decodeCodes cs more (bytes.drop (cs.UTF8_getch bytes).2)
    else none

/-- The code points of a display unit and its width: no code point is a control
character, at most one has a positive width, and the width of the unit is the
sum of the widths, between 0 and 2. -/
structure unitCodes (cs : Charset) (codes : List Nat) (dlen : Int) : Prop where
  nonneg : ∀ ch ∈ codes, 0 ≤ codeWidth cs ch
  one : codes.countP (fun ch => decide (0 < codeWidth cs ch)) ≤ 1
  zero : dlen = 0 → codes.countP (fun ch => decide (0 < codeWidth cs ch)) = 0
  sum : dlen = (codes.map (codeWidth cs)).sum
  lo : 0 ≤ dlen
  hi : dlen ≤ 2

/-! ## Basic facts about the grid operations -/

theorem stdCharset_ascii : asciiCharset stdCharset := by
  refine ⟨?_, ?_, ?_⟩
  · intro b bs hb
    simp [stdCharset, std_getch, hb]
  · intro b hb
    obtain ⟨h1, h2⟩ := hb
    simp only [stdCharset, std_wcwidth]
    rw [if_neg (by omega), if_neg (by omega), if_neg (by omega), if_neg (by omega)]
  · decide

theorem wellFormed_iff_hasShape (win : WINDOW) :
    wellFormed win ↔ hasShape win win.height.toNat win.width.toNat := by
  unfold wellFormed hasShape
  constructor
  · rintro ⟨h1, h2, h3, h4⟩
    exact ⟨(Int.toNat_of_nonneg h2).symm, (Int.toNat_of_nonneg h1).symm, h3, h4⟩
  · rintro ⟨h1, h2, h3, h4⟩
    exact ⟨by omega, by omega, h3, h4⟩

theorem hasShape_wellFormed {win : WINDOW} {H W : Nat} (h : hasShape win H W) :
    wellFormed win := by
  obtain ⟨h1, h2, h3, h4⟩ := h
  refine ⟨by omega, by omega, by omega, ?_⟩
  intro l hl
  rw [h4 l hl, h2]; simp

theorem cellAt_isSome {win : WINDOW} {H W : Nat} (h : hasShape win H W) {r c : Nat}
    (hr : r < H) (hc : c < W) : ∃ cell, cellAt win r c = some cell := by
  obtain ⟨_, _, h3, h4⟩ := h
  have hr2 : r < win.line.length := by omega
  have hl : win.line[r]? = some win.line[r] := List.getElem?_eq_getElem hr2
  have hlen := h4 win.line[r] (List.getElem_mem hr2)
  have hc2 : c < (win.line[r]).chars.length := by omega
  exact ⟨(win.line[r]).chars[c], by simp [cellAt, hl, List.getElem?_eq_getElem hc2]⟩

theorem cellAt_mapCell (win : WINDOW) (r c : Nat) (f : cursecell → cursecell) (r2 c2 : Nat) :
    cellAt (mapCell win r c f) r2 c2 =
      if r2 = r ∧ c2 = c then (cellAt win r c).map f else cellAt win r2 c2 := by
  unfold cellAt mapCell
  simp only [List.getElem?_modify]
  by_cases hr : r = r2
  · subst hr
    cases hl : win.line[r]? with
    | none => simp
    | some l =>
      simp only [Option.map_eq_map, Option.map_some', if_true, List.getElem?_modify]
      by_cases hc : c = c2
      · subst hc; simp
      · have hc2 : ¬ c2 = c := fun h => hc h.symm
        simp [hc, hc2]
  · have hr2 : ¬ r2 = r := fun h => hr h.symm
    cases hl : win.line[r2]? with
    | none => simp [hr2]
    | some l => simp [hr, hr2]

theorem cellAt_markTouched (win : WINDOW) (r r2 c2 : Nat) :
    cellAt (markTouched win r) r2 c2 = cellAt win r2 c2 := by
  unfold cellAt markTouched
  simp only [List.getElem?_modify]
  cases hl : win.line[r2]? with
  | none => simp
  | some l =>
    by_cases hr : r = r2 <;> simp [hr]

theorem touchedAt_mapCell (win : WINDOW) (r c : Nat) (f : cursecell → cursecell) (r2 : Nat) :
    touchedAt (mapCell win r c f) r2 = touchedAt win r2 := by
  unfold touchedAt mapCell
  simp only [List.getElem?_modify]
  cases hl : win.line[r2]? with
  | none => simp
  | some l =>
    by_cases hr : r = r2 <;> simp [hr]

theorem touchedAt_markTouched (win : WINDOW) (r r2 : Nat) :
    touchedAt (markTouched win r) r2 =
      if r2 = r then (touchedAt win r).map (fun _ => true) else touchedAt win r2 := by
  unfold touchedAt markTouched
  simp only [List.getElem?_modify]
  by_cases hr : r = r2
  · subst hr
    cases hl : win.line[r]? <;> simp
  · have hr2 : ¬ r2 = r := fun h => hr h.symm
    cases hl : win.line[r2]? <;> simp [hr, hr2]

theorem hasShape_mapCell {win : WINDOW} {H W : Nat} (h : hasShape win H W) (r c : Nat)
    (f : cursecell → cursecell) : hasShape (mapCell win r c f) H W := by
  obtain ⟨h1, h2, h3, h4⟩ := h
  refine ⟨h1, h2, by simp [mapCell, h3], ?_⟩
  intro l hl
  simp only [mapCell] at hl
  obtain ⟨i, hi, rfl⟩ := List.getElem_of_mem hl
  have hi2 : i < win.line.length := by simpa using hi
  rw [List.getElem_modify]
  split
  · simp only [List.length_modify]
    exact h4 _ (List.getElem_mem hi2)
  · exact h4 _ (List.getElem_mem hi2)

theorem hasShape_markTouched {win : WINDOW} {H W : Nat} (h : hasShape win H W) (r : Nat) :
    hasShape (markTouched win r) H W := by
  obtain ⟨h1, h2, h3, h4⟩ := h
  refine ⟨h1, h2, by simp [markTouched, h3], ?_⟩
  intro l hl
  simp only [markTouched] at hl
  obtain ⟨i, hi, rfl⟩ := List.getElem_of_mem hl
  have hi2 : i < win.line.length := by simpa using hi
  rw [List.getElem_modify]
  split
  · exact h4 win.line[i] (List.getElem_mem hi2)
  · exact h4 _ (List.getElem_mem hi2)

theorem writeCell_eq {win : WINDOW} {H W : Nat} (h : hasShape win H W) {r c : Nat}
    (hr : r < H) (hc : c < W) (f : cursecell → cursecell) :
    writeCell win ⟨r, c⟩ f = .ok (mapCell win r c f) := by
  obtain ⟨_, _, h3, h4⟩ := h
  have hr2 : r < win.line.length := by omega
  have hl : win.line[r]? = some win.line[r] := List.getElem?_eq_getElem hr2
  have hlen := h4 win.line[r] (List.getElem_mem hr2)
  have hc2 : c < (win.line[r]).chars.length := by omega
  have hcell : (win.line[r]).chars[c]? = some (win.line[r]).chars[c] :=
    List.getElem?_eq_getElem hc2
  simp only [writeCell, hl, hcell, mapCell]
  congr 2
  rw [List.modify_eq_set_get? , List.get?_eq_getElem?, hl]
  simp only [Option.map_eq_map, Option.map_some', Option.getD_some]
  congr 2
  rw [List.modify_eq_set_get?, List.get?_eq_getElem?, hcell]
  simp

theorem readCell_eq {win : WINDOW} {r c : Nat} {cell : cursecell}
    (h : cellAt win r c = some cell) : readCell win ⟨r, c⟩ = .ok cell := by
  unfold cellAt at h
  unfold readCell
  cases hl : win.line[r]? with
  | none => simp [hl] at h
  | some l =>
    simp only [hl] at h
    simp [h]

theorem touchLine_eq {win : WINDOW} {H W : Nat} (h : hasShape win H W) {r : Nat}
    (hr : r < H) : touchLine win (r : Int) = .ok (markTouched win r) := by
  obtain ⟨_, _, h3, _⟩ := h
  have hr2 : r < win.line.length := by omega
  have hl : win.line[r]? = some win.line[r] := List.getElem?_eq_getElem hr2
  have hneg : ¬ ((r : Int) < 0) := by omega
  simp only [touchLine, hneg, if_false, Int.toNat_ofNat, hl, markTouched]
  congr 2
  rw [List.modify_eq_set_get?, List.get?_eq_getElem?, hl]
  simp

theorem cur_cell_inside {win : WINDOW} {H W Y X : Nat} (h : hasShape win H W)
    (hc : cursorAt win Y X) (hY : Y < H) (hX : X < W) :
    cur_cell win = .ok (some ⟨Y, X⟩) := by
  obtain ⟨cell, hcell⟩ := cellAt_isSome h hY hX
  obtain ⟨hy, hx⟩ := hc
  have h1 : ¬ ((Y : Int) ≥ H ∨ (X : Int) ≥ W) := by omega
  have h2 : ¬ ((Y : Int) < 0 ∨ (X : Int) < 0) := by omega
  unfold cur_cell
  rw [hy, hx, h.1, h.2.1, if_neg h1, if_neg h2]
  simp [readCell_eq hcell]

theorem cur_cell_outside {win : WINDOW}
    (h : win.cursory ≥ win.height ∨ win.cursorx ≥ win.width) : cur_cell win = .ok none := by
  simp [cur_cell, h]

theorem addedchar_eq {win : WINDOW} {H W Y X : Nat} (h : hasShape win H W)
    (hc : cursorAt win Y X) (hY : Y < H) :
    addedchar win = .ok
      (if X + 1 < W then setCursor (markTouched win Y) Y (X + 1)
       else if Y + 1 < H then setCursor (markTouched win Y) (Y + 1) 0
       else setCursor (markTouched win Y) Y (X + 1)) := by
  obtain ⟨x, y, width, height, FG, BG, FS, inuse, draw, cursorx, cursory, line⟩ := win
  obtain ⟨hy, hx⟩ := hc
  simp only at hy hx
  subst hy hx
  have hh : height = (H : Int) := h.1
  have hw : width = (W : Int) := h.2.1
  subst hh hw
  have ht : touchLine ⟨x, y, W, H, FG, BG, FS, inuse, draw, (X : Int) + 1, Y, line⟩ (Y : Int) =
      .ok (markTouched ⟨x, y, W, H, FG, BG, FS, inuse, draw, (X : Int) + 1, Y, line⟩ Y) :=
    touchLine_eq
      (show hasShape ⟨x, y, W, H, FG, BG, FS, inuse, draw, (X : Int) + 1, Y, line⟩ H W from h) hY
  simp only [addedchar, bind, Except.bind, ht, pure, Except.pure]
  simp only [markTouched, newline, setCursor]
  by_cases h1 : X + 1 < W
  · have : ¬ ((X : Int) + 1 ≥ W) := by omega
    simp [h1, this]
  · have h1b : ((X : Int) + 1 ≥ W) := by omega
    by_cases h2 : Y + 1 < H
    · have : (Y : Int) < H - 1 := by omega
      simp [h1, h1b, h2, this]
    · have : ¬ (Y : Int) < H - 1 := by omega
      simp [h1, h1b, h2, this]

theorem fill_ascii {cs : Charset} (hcs : asciiCharset cs) {b : Nat} (hb : printable b)
    (bs : List Nat) (hbs : ∀ b2 ∈ bs.head?, printable b2 ∨ b2 = 10) :
    fill cs (b :: bs) = .ok (1, [b], bs) := by
  obtain ⟨hget, hw, hnl⟩ := hcs
  have hb128 : b < 0x80 := by unfold printable at hb; omega
  have hbu : b ≠ UNKNOWN_UNICODE := by unfold printable at hb; unfold UNKNOWN_UNICODE; omega
  unfold fill
  simp only [List.length_cons, fillLoop, hget b bs hb128, hbu, if_false, hw b hb]
  simp only [gt_iff_lt, lt_self_iff_false, and_false, if_false, zero_add, List.nil_append,
    List.take_succ_cons, List.take_zero, List.drop_succ_cons, List.drop_zero]
  norm_num
  cases bs with
  | nil => simp [fillLoop]
  | cons b2 bs2 =>
    have hb2 := hbs b2 (by simp)
    have hb2lt : b2 < 0x80 := by unfold printable at hb2; omega
    have hb2u : b2 ≠ UNKNOWN_UNICODE := by unfold printable at hb2; unfold UNKNOWN_UNICODE; omega
    simp only [List.length_cons, fillLoop, hget b2 bs2 hb2lt, hb2u, if_false]
    rcases hb2 with hp | rfl
    · simp [hw b2 hp]
    · simp [hnl]

theorem cellAt_col_none {win : WINDOW} {H W : Nat} (h : hasShape win H W) (r : Nat) {c : Nat}
    (hc : W ≤ c) : cellAt win r c = none := by
  unfold cellAt
  cases hl : win.line[r]? with
  | none => rfl
  | some l =>
    have hmem : l ∈ win.line := List.getElem?_mem hl
    have := h.2.2.2 l hmem
    simp only
    exact List.getElem?_eq_none (by omega)

theorem narrowTail_spec {win : WINDOW} {H W Y X : Nat} (h : hasShape win H W)
    (hc : cursorAt win Y X) (hY : Y < H) :
    ∃ win2, narrowTail win = .ok win2 ∧ hasShape win2 H W ∧ cursorAt win2 Y X ∧
      sameFrame win win2 ∧
      (∀ r c, cellAt win2 r c =
        if r = Y ∧ c = X then (cellAt win r c).map blankIfEmpty else cellAt win r c) ∧
      (∀ r, touchedAt win2 r = touchedAt win r) := by
  have hframe : sameFrame win win := ⟨rfl, rfl, rfl, rfl, rfl, rfl, rfl, rfl, rfl⟩
  by_cases hX : X < W
  · obtain ⟨cell, hcell⟩ := cellAt_isSome h hY hX
    have hcur := cur_cell_inside h hc hY hX
    by_cases he : cell.ch = []
    · refine ⟨mapCell win Y X (fun c => { c with ch := assign_space_1 }), ?_,
        hasShape_mapCell h _ _ _, hc, hframe, ?_, ?_⟩
      · simp [narrowTail, hcur, readCell_eq hcell, he, writeCell_eq h hY hX, bind, Except.bind,
          pure, Except.pure]
      · intro r c
        rw [cellAt_mapCell]
        by_cases hrc : r = Y ∧ c = X
        · obtain ⟨rfl, rfl⟩ := hrc
          simp [hcell, blankIfEmpty, he]
        · simp [hrc]
      · intro r; rw [touchedAt_mapCell]
    · refine ⟨win, ?_, h, hc, hframe, ?_, fun _ => rfl⟩
      · simp [narrowTail, hcur, readCell_eq hcell, he, bind, Except.bind, pure, Except.pure]
      · intro r c
        by_cases hrc : r = Y ∧ c = X
        · obtain ⟨rfl, rfl⟩ := hrc
          simp [hcell, blankIfEmpty, he]
        · simp [hrc]
  · have hcur : cur_cell win = .ok none := by
      apply cur_cell_outside
      right
      rw [hc.2, h.2.1]; omega
    refine ⟨win, ?_, h, hc, hframe, ?_, fun _ => rfl⟩
    · simp [narrowTail, hcur, bind, Except.bind, pure, Except.pure]
    · intro r c
      by_cases hrc : r = Y ∧ c = X
      · obtain ⟨rfl, rfl⟩ := hrc
        simp [cellAt_col_none h r (Nat.le_of_not_lt hX)]
      · simp [hrc]

theorem sameFrame_refl (win : WINDOW) : sameFrame win win :=
  ⟨rfl, rfl, rfl, rfl, rfl, rfl, rfl, rfl, rfl⟩

theorem sameFrame_trans {a b c : WINDOW} (h1 : sameFrame a b) (h2 : sameFrame b c) :
    sameFrame a c := by
  obtain ⟨a1, a2, a3, a4, a5, a6, a7, a8, a9⟩ := h1
  obtain ⟨b1, b2, b3, b4, b5, b6, b7, b8, b9⟩ := h2
  exact ⟨b1.trans a1, b2.trans a2, b3.trans a3, b4.trans a4, b5.trans a5, b6.trans a6,
    b7.trans a7, b8.trans a8, b9.trans a9⟩

theorem touchedAt_isSome {win : WINDOW} {H W : Nat} (h : hasShape win H W) {r : Nat}
    (hr : r < H) : ∃ t, touchedAt win r = some t := by
  have hr2 : r < win.line.length := by rw [h.2.2.1]; exact hr
  exact ⟨(win.line[r]).touched, by simp [touchedAt, List.getElem?_eq_getElem hr2]⟩

theorem addedchar_spec {win : WINDOW} {H W Y X : Nat} (h : hasShape win H W)
    (hc : cursorAt win Y X) (hY : Y < H) (hX : X < W) :
    ∃ win2 Y1 X1, addedchar win = .ok win2 ∧ hasShape win2 H W ∧ cursorAt win2 Y1 X1 ∧
      sameFrame win win2 ∧
      ((X + 1 < W ∧ Y1 = Y ∧ X1 = X + 1) ∨ (X + 1 = W ∧ Y + 1 < H ∧ Y1 = Y + 1 ∧ X1 = 0) ∨
        (X + 1 = W ∧ Y + 1 = H ∧ Y1 = Y ∧ X1 = W)) ∧
      (∀ r c, cellAt win2 r c = cellAt win r c) ∧
      (∀ r, touchedAt win2 r = if r = Y then some true else touchedAt win r) := by
  have hadd := addedchar_eq h hc hY (X := X)
  have hsh := hasShape_markTouched h Y
  have hcells : ∀ r c, cellAt (markTouched win Y) r c = cellAt win r c :=
    fun r c => cellAt_markTouched win Y r c
  have htouched : ∀ r, touchedAt (markTouched win Y) r =
      if r = Y then some true else touchedAt win r := by
    intro r
    rw [touchedAt_markTouched]
    obtain ⟨t, ht⟩ := touchedAt_isSome h hY
    by_cases hr : r = Y
    · simp [hr, ht]
    · simp [hr]
  by_cases h1 : X + 1 < W
  · rw [if_pos h1] at hadd
    exact ⟨_, Y, X + 1, hadd, hsh, ⟨rfl, by simp [setCursor]⟩, sameFrame_refl _,
      Or.inl ⟨h1, rfl, rfl⟩, hcells, htouched⟩
  · rw [if_neg h1] at hadd
    by_cases h2 : Y + 1 < H
    · rw [if_pos h2] at hadd
      exact ⟨_, Y + 1, 0, hadd, hsh, ⟨by simp [setCursor], by simp [setCursor]⟩, sameFrame_refl _,
        Or.inr (Or.inl ⟨by omega, h2, rfl, rfl⟩), hcells, htouched⟩
    · rw [if_neg h2] at hadd
      have hXW : X + 1 = W := by omega
      exact ⟨_, Y, W, hadd, hsh, ⟨rfl, by simp [setCursor, ← hXW]⟩, sameFrame_refl _,
        Or.inr (Or.inr ⟨hXW, by omega, rfl, rfl⟩), hcells, htouched⟩

/-- One turn of the loop of `printstring` on a printable ASCII character, with
the cursor inside the grid. -/
theorem printLoop_ascii_step {cs : Charset} (hcs : asciiCharset cs) {win : WINDOW}
    {H W Y X : Nat} (h : hasShape win H W) (hc : cursorAt win Y X) (hY : Y < H) (hX : X < W)
    {b : Nat} (hb : printable b) (bs : List Nat)
    (hbs : ∀ b2 ∈ bs.head?, printable b2 ∨ b2 = 10) (fuel : Nat) :
    ∃ win2 Y1 X1, printLoop cs (fuel + 1) win (b :: bs) = printLoop cs fuel win2 bs ∧
      hasShape win2 H W ∧ cursorAt win2 Y1 X1 ∧ sameFrame win win2 ∧
      ((X + 1 < W ∧ Y1 = Y ∧ X1 = X + 1) ∨ (X + 1 = W ∧ Y + 1 < H ∧ Y1 = Y + 1 ∧ X1 = 0) ∨
        (X + 1 = W ∧ Y + 1 = H ∧ Y1 = Y ∧ X1 = W)) ∧
      (∀ r c, cellAt win2 r c =
        if r = Y ∧ c = X then some ⟨[b], win.FG, win.BG, win.FS⟩
        else if r = Y1 ∧ c = X1 then (cellAt win r c).map blankIfEmpty
        else cellAt win r c) ∧
      (∀ r, touchedAt win2 r = if r = Y then some true else touchedAt win r) := by
  have hb10 : b ≠ 10 := by unfold printable at hb; omega
  obtain ⟨cell, hcell⟩ := cellAt_isSome h hY hX
  -- the two writes through `curcell`
  have hs1 := hasShape_mapCell h Y X (fun c => { c with ch := [b] })
  have hw1 := writeCell_eq h hY hX (fun c => { c with ch := [b] })
  have hs2 := hasShape_mapCell hs1 Y X
    (fun c => { c with FG := win.FG, BG := win.BG, FS := win.FS })
  have hw2 := writeCell_eq hs1 hY hX
    (fun c => { c with FG := win.FG, BG := win.BG, FS := win.FS })
  have hc2 : cursorAt (mapCell (mapCell win Y X (fun c => { c with ch := [b] })) Y X
      (fun c => { c with FG := win.FG, BG := win.BG, FS := win.FS })) Y X := hc
  obtain ⟨w3, Y1, X1, hadd, hs3, hc3, hf3, hpos, hcells3, ht3⟩ := addedchar_spec hs2 hc2 hY hX
  have hY1 : Y1 < H := by omega
  obtain ⟨w4, hnar, hs4, hc4, hf4, hcells4, ht4⟩ := narrowTail_spec hs3 hc3 hY1
  have hnotbelow : ¬ (w4.cursory ≥ w4.height) := by
    rw [hc4.1, hs4.1]; omega
  refine ⟨w4, Y1, X1, ?_, hs4, hc4, sameFrame_trans hf3 hf4, hpos, ?_, ?_⟩
  · rw [printLoop]
    simp only [hb10, if_false, cur_cell_inside h hc hY hX, fill_ascii hcs hb bs hbs, hw1]
    have hone : ((1 : Int) ≥ 1) := by omega
    simp only [hone, if_true, bind, Except.bind]
    have hw2b : writeCell (mapCell win Y X (fun c => { c with ch := [b] })) ⟨Y, X⟩
        (fun c => { c with FG := (mapCell win Y X (fun c => { c with ch := [b] })).FG,
                            BG := (mapCell win Y X (fun c => { c with ch := [b] })).BG,
                            FS := (mapCell win Y X (fun c => { c with ch := [b] })).FS }) =
        .ok (mapCell (mapCell win Y X (fun c => { c with ch := [b] })) Y X
          (fun c => { c with FG := win.FG, BG := win.BG, FS := win.FS })) := hw2
    simp only [hw2b, hadd, hnar, pure, Except.pure, hnotbelow, if_false]
  · intro r c
    simp only [hcells4, hcells3, cellAt_mapCell]
    have hne : ¬ (Y1 = Y ∧ X1 = X) := by omega
    by_cases h1 : r = Y ∧ c = X
    · obtain ⟨rfl, rfl⟩ := h1
      have : ¬ (r = Y1 ∧ c = X1) := fun hh => hne ⟨hh.1.symm, hh.2.symm⟩
      simp [this, hcell]
    · by_cases h2 : r = Y1 ∧ c = X1
      · simp [h1, h2, hne]
      · simp [h1, h2]
  · intro r
    simp only [ht4, ht3, touchedAt_mapCell]

theorem idx_inj {W r c r2 c2 : Nat} (hc : c < W) (hc2 : c2 < W) :
    r * W + c = r2 * W + c2 ↔ r = r2 ∧ c = c2 := by
  constructor
  · intro h
    have hW : 0 < W := by omega
    have hm := congrArg (· % W) h
    simp only [Nat.add_comm (_ * W), Nat.add_mul_mod_self_right, Nat.mod_eq_of_lt hc,
      Nat.mod_eq_of_lt hc2] at hm
    have hd := congrArg (· / W) h
    simp only [Nat.add_comm (_ * W), Nat.add_mul_div_right _ _ hW, Nat.div_eq_of_lt hc,
      Nat.div_eq_of_lt hc2, Nat.zero_add] at hd
    exact ⟨hd, hm⟩
  · rintro ⟨rfl, rfl⟩
    rfl

theorem idx_lt {H W r c : Nat} (hr : r < H) (hc : c < W) : r * W + c < H * W := by
  have := Nat.mul_le_mul_right W (Nat.succ_le_of_lt hr)
  rw [Nat.succ_mul] at this
  omega

/-- With the cursor past the last column of the last row the loop of
`printstring` returns at once, whatever input is left. -/
theorem printLoop_at_end (cs : Charset) {win : WINDOW} {H W Y : Nat} (h : hasShape win H W)
    (hc : cursorAt win Y W) (hY : Y + 1 = H) (fmt : List Nat) (fuel : Nat)
    (hfuel : fmt.length ≤ fuel) : printLoop cs fuel win fmt = .ok win := by
  cases fmt with
  | nil => cases fuel <;> rfl
  | cons b bs =>
    cases fuel with
    | zero => simp at hfuel
    | succ fuel =>
      rw [printLoop]
      have hnl : ¬ (win.cursory < win.height - 1) := by rw [hc.1, h.1]; omega
      have hcur : cur_cell win = .ok none := by
        apply cur_cell_outside; right; rw [hc.2, h.2.1]
      by_cases hb : b = 10
      · simp [hb, newline, hnl]
      · simp [hb, hcur]

/-- The loop of `printstring` on a run `s` of printable ASCII characters that is
followed by the end of the input or by a newline, started with the cursor
inside the grid at row-major position `Y * W + X`. -/
theorem printLoop_ascii_run {cs : Charset} (hcs : asciiCharset cs) (s : List Nat) :
    (∀ b ∈ s, printable b) → ∀ (win : WINDOW) (H W Y X : Nat) (rest : List Nat) (fuel : Nat),
    hasShape win H W → cursorAt win Y X → Y < H → X < W →
    (∀ b2 ∈ rest.head?, b2 = 10) → (s ++ rest).length ≤ fuel →
    ∃ win2 Y2 X2, hasShape win2 H W ∧ cursorAt win2 Y2 X2 ∧ sameFrame win win2 ∧ Y2 < H ∧
      Y2 * W + X2 = min (Y * W + X + s.length) (H * W) ∧
      (X2 < W ∨ (X2 = W ∧ Y2 + 1 = H)) ∧
      (if Y * W + X + s.length < H * W then
          printLoop cs fuel win (s ++ rest) = printLoop cs (fuel - s.length) win2 rest
        else printLoop cs fuel win (s ++ rest) = .ok win2) ∧
      (∀ r c, r < H → c < W → cellAt win2 r c =
        if r * W + c < Y * W + X then cellAt win r c
        else if r * W + c < Y * W + X + s.length then
          (s[r * W + c - (Y * W + X)]?).map (fun b => ⟨[b], win.FG, win.BG, win.FS⟩)
        else if r * W + c = Y * W + X + s.length ∧ 0 < s.length then
          (cellAt win r c).map blankIfEmpty
        else cellAt win r c) := by
  induction s with
  | nil =>
    intro _ win H W Y X rest fuel h hc hY hX _ _
    have hp := idx_lt hY hX
    refine ⟨win, Y, X, h, hc, sameFrame_refl _, hY, ?_, Or.inl hX, ?_, ?_⟩
    · simp only [List.length_nil, Nat.add_zero]; omega
    · simp [hp]
    · intro r c _ _
      by_cases hlt : r * W + c < Y * W + X <;> simp [hlt]
  | cons b s ih =>
    intro hs win H W Y X rest fuel h hc hY hX hrest hfuel
    have hb : printable b := hs b (by simp)
    have hs2 : ∀ b2 ∈ s, printable b2 := fun b2 hb2 => hs b2 (by simp [hb2])
    have hhead : ∀ b2 ∈ (s ++ rest).head?, printable b2 ∨ b2 = 10 := by
      intro b2 hb2
      cases s with
      | nil => exact Or.inr (hrest b2 (by simpa using hb2))
      | cons b3 s3 =>
        simp only [List.cons_append, List.head?_cons, Option.mem_def, Option.some.injEq] at hb2
        exact Or.inl (hs2 b2 (by simp [← hb2]))
    obtain ⟨fuel, rfl⟩ : ∃ k, fuel = k + 1 := ⟨fuel - 1, by simp at hfuel; omega⟩
    have hfuel2 : (s ++ rest).length ≤ fuel := by simp at hfuel ⊢; omega
    obtain ⟨win1, Y1, X1, hstep, hs1, hc1, hf1, hpos, hcells1, _⟩ :=
      printLoop_ascii_step hcs h hc hY hX hb (s ++ rest) hhead fuel
    have hp := idx_lt hY hX
    have hsucc : (Y + 1) * W = Y * W + W := Nat.succ_mul Y W
    have hlen : (b :: s).length = s.length + 1 := rfl
    -- the cells of `win1` by row-major position
    have hcells1b : ∀ r c, r < H → c < W → cellAt win1 r c =
        if r * W + c = Y * W + X then some ⟨[b], win.FG, win.BG, win.FS⟩
        else if r * W + c = Y * W + X + 1 ∧ X1 < W then (cellAt win r c).map blankIfEmpty
        else cellAt win r c := by
      intro r c hr hcW
      rw [hcells1]
      have e1 : (r = Y ∧ c = X) ↔ r * W + c = Y * W + X := (idx_inj hcW hX).symm
      by_cases hrc : r * W + c = Y * W + X
      · rw [if_pos (e1.2 hrc), if_pos hrc]
      · rw [if_neg (fun hh => hrc (e1.1 hh)), if_neg hrc]
        by_cases hX1 : X1 < W
        · have e2 : (r = Y1 ∧ c = X1) ↔ r * W + c = Y1 * W + X1 := (idx_inj hcW hX1).symm
          have e3 : Y1 * W + X1 = Y * W + X + 1 := by
            rcases hpos with ⟨_, rfl, rfl⟩ | ⟨_, _, rfl, rfl⟩ | ⟨_, _, rfl, rfl⟩ <;> omega
          by_cases hrc2 : r * W + c = Y * W + X + 1
          · rw [if_pos (e2.2 (by omega)), if_pos ⟨hrc2, hX1⟩]
          · rw [if_neg (fun hh => hrc2 (by have := e2.1 hh; omega)), if_neg (fun hh => hrc2 hh.1)]
        · rw [if_neg (fun hh => hX1 (by omega)), if_neg (fun hh => hX1 hh.2)]
    rcases Nat.lt_or_ge X1 W with hX1 | hX1
    · -- the cursor is still inside the grid
      have hY1 : Y1 < H := by
        rcases hpos with ⟨_, rfl, rfl⟩ | ⟨_, _, rfl, rfl⟩ | ⟨_, _, rfl, rfl⟩ <;> omega
      have e3 : Y1 * W + X1 = Y * W + X + 1 := by
        rcases hpos with ⟨_, rfl, rfl⟩ | ⟨_, _, rfl, rfl⟩ | ⟨_, _, rfl, rfl⟩ <;> omega
      obtain ⟨win2, Y2, X2, hs2', hc2, hf2, hY2, hidx, hX2, hrun, hcells2⟩ :=
        ih hs2 win1 H W Y1 X1 rest fuel hs1 hc1 hY1 hX1 hrest hfuel2
      refine ⟨win2, Y2, X2, hs2', hc2, sameFrame_trans hf1 hf2, hY2, ?_, hX2, ?_, ?_⟩
      · rw [hidx, e3, hlen]; congr 1; omega
      · rw [e3] at hrun
        simp only [List.cons_append, hlen, hstep]
        by_cases hfit : Y * W + X + (s.length + 1) < H * W
        · rw [if_pos hfit]
          rw [if_pos (by omega)] at hrun
          have hfu : fuel + 1 - (s.length + 1) = fuel - s.length := by omega
          rw [hrun, hfu]
        · rw [if_neg hfit]
          rw [if_neg (by omega)] at hrun
          exact hrun
      · intro r c hr hcW
        rw [hcells2 r c hr hcW, e3, hlen, hf1.2.2.2.2.1, hf1.2.2.2.2.2.1, hf1.2.2.2.2.2.2.1,
          hcells1b r c hr hcW]
        have hilt := idx_lt hr hcW
        generalize r * W + c = i at hilt ⊢
        generalize Y * W + X = p at hp e3 ⊢
        rcases Nat.lt_trichotomy i p with hlt | heq | hgt
        · have a1 : i < p + 1 := by omega
          have a2 : ¬ i = p := by omega
          have a3 : ¬ (i = p + 1 ∧ X1 < W) := by omega
          rw [if_pos a1, if_neg a2, if_neg a3, if_pos hlt]
        · subst heq
          have a1 : i < i + 1 := by omega
          have a2 : ¬ i < i := by omega
          have a3 : i < i + (s.length + 1) := by omega
          simp only [a1, a2, a3, if_true, if_false, Nat.sub_self, List.getElem?_cons_zero,
            Option.map_some']
        · have a1 : ¬ i < p + 1 := by omega
          have a2 : ¬ i < p := by omega
          have a5 : ¬ i = p := by omega
          have hsub : i - p = (i - (p + 1)) + 1 := by omega
          by_cases h1 : i < p + 1 + s.length
          · have a3 : i < p + (s.length + 1) := by omega
            rw [if_neg a1, if_pos h1, if_neg a2, if_pos a3, hsub, List.getElem?_cons_succ]
          · have a3 : ¬ i < p + (s.length + 1) := by omega
            by_cases h2 : i = p + 1 + s.length ∧ 0 < s.length
            · have a4 : i = p + (s.length + 1) ∧ 0 < s.length + 1 := by omega
              have a6 : ¬ (i = p + 1 ∧ X1 < W) := by omega
              rw [if_neg a1, if_neg h1, if_pos h2, if_neg a5, if_neg a6, if_neg a2, if_neg a3,
                if_pos a4]
            · by_cases h3 : i = p + 1
              · have a4 : i = p + (s.length + 1) ∧ 0 < s.length + 1 := by omega
                have a6 : i = p + 1 ∧ X1 < W := ⟨h3, hX1⟩
                rw [if_neg a1, if_neg h1, if_neg h2, if_neg a5, if_pos a6, if_neg a2, if_neg a3,
                  if_pos a4]
              · have a4 : ¬ (i = p + (s.length + 1) ∧ 0 < s.length + 1) := by omega
                have a6 : ¬ (i = p + 1 ∧ X1 < W) := by omega
                rw [if_neg a1, if_neg h1, if_neg h2, if_neg a5, if_neg a6, if_neg a2, if_neg a3,
                  if_neg a4]
    · -- the cursor went past the last cell
      have hend : X + 1 = W ∧ Y + 1 = H ∧ Y1 = Y ∧ X1 = W := by
        rcases hpos with ⟨_, rfl, rfl⟩ | ⟨_, _, rfl, rfl⟩ | ⟨h1, h2, rfl, rfl⟩
        · omega
        · omega
        · exact ⟨h1, h2, rfl, rfl⟩
      obtain ⟨hXW, hYH, hY1e, hX1e⟩ := hend
      rw [hY1e, hX1e] at hc1
      rw [hX1e] at hcells1b
      have hHW : H * W = Y * W + X + 1 := by rw [← hYH, hsucc]; omega
      have hfin := printLoop_at_end cs hs1 hc1 hYH (s ++ rest) fuel hfuel2
      refine ⟨win1, Y, W, hs1, hc1, hf1, hY, ?_, Or.inr ⟨rfl, hYH⟩, ?_, ?_⟩
      · rw [hlen, hHW]; omega
      · rw [if_neg (by rw [hlen, hHW]; omega)]
        simp only [List.cons_append, hstep, hfin]
      · intro r c hr hcW
        rw [hcells1b r c hr hcW, hlen]
        have hilt := idx_lt hr hcW
        have a0 : ¬ W < W := by omega
        generalize r * W + c = i at hilt ⊢
        generalize Y * W + X = p at hp hHW ⊢
        rcases Nat.lt_or_ge i p with hlt | hge
        · have a2 : ¬ i = p := by omega
          simp only [hlt, a2, a0, and_false, if_true, if_false]
        · have heq : i = p := by omega
          subst heq
          have a2 : ¬ i < i := by omega
          have a3 : i < i + (s.length + 1) := by omega
          simp only [a2, a3, if_true, if_false, Nat.sub_self, List.getElem?_cons_zero,
            Option.map_some']

theorem startGuard_spec {win : WINDOW} {H W Y X : Nat} (h : hasShape win H W)
    (hc : cursorAt win Y X) (hY : Y < H) (hX : X < W) :
    ∃ win2, startGuard win = .ok win2 ∧ hasShape win2 H W ∧ cursorAt win2 Y X ∧
      sameFrame win win2 ∧
      (∀ r c, cellAt win2 r c =
        if r = Y ∧ c + 1 = X ∧ (cellAt win Y X).map (fun cell => cell.ch) = some [] then
          (cellAt win r c).map (fun cell => { cell with ch := assign_1_space })
        else cellAt win r c) ∧
      (∀ r, touchedAt win2 r = touchedAt win r) := by
  obtain ⟨cell, hcell⟩ := cellAt_isSome h hY hX
  have hy0 : ¬ (win.cursory < 0) := by rw [hc.1]; omega
  have hY' : win.cursory.toNat = Y := by rw [hc.1]; simp
  have hX' : win.cursorx.toNat = X := by rw [hc.2]; simp
  by_cases hx0 : 0 < X
  · have hxpos : win.cursorx > 0 := by rw [hc.2]; omega
    have hX1 : (win.cursorx - 1).toNat = X - 1 := by rw [hc.2]; omega
    by_cases he : cell.ch = []
    · refine ⟨mapCell win Y (X - 1) (fun c => { c with ch := assign_1_space }), ?_,
        hasShape_mapCell h _ _ _, hc, sameFrame_refl _, ?_, ?_⟩
      · simp only [startGuard, hxpos, if_true, hy0, if_false, hY', hX', readCell_eq hcell, he,
          hX1]
        exact writeCell_eq h hY (by omega) _
      · intro r c
        rw [cellAt_mapCell, hcell]
        by_cases hrc : r = Y ∧ c = X - 1
        · have : r = Y ∧ c + 1 = X ∧ Option.map (fun cell => cell.ch) (some cell) = some [] :=
            ⟨hrc.1, by omega, by simp [he]⟩
          rw [if_pos hrc, if_pos this, hrc.1, hrc.2]
        · have : ¬ (r = Y ∧ c + 1 = X ∧ Option.map (fun cell => cell.ch) (some cell) = some []) :=
            fun hh => hrc ⟨hh.1, by omega⟩
          rw [if_neg hrc, if_neg this]
      · intro r; rw [touchedAt_mapCell]
    · refine ⟨win, ?_, h, hc, sameFrame_refl _, ?_, fun _ => rfl⟩
      · simp only [startGuard, hxpos, if_true, hy0, if_false, hY', hX', readCell_eq hcell, he]
      · intro r c
        have : ¬ (r = Y ∧ c + 1 = X ∧ (cellAt win Y X).map (fun cell => cell.ch) = some []) := by
          rw [hcell]; simp [he]
        rw [if_neg this]
  · have hxpos : ¬ (win.cursorx > 0) := by rw [hc.2]; omega
    refine ⟨win, ?_, h, hc, sameFrame_refl _, ?_, fun _ => rfl⟩
    · simp only [startGuard, hxpos, if_false]
    · intro r c
      have : ¬ (r = Y ∧ c + 1 = X ∧ (cellAt win Y X).map (fun cell => cell.ch) = some []) := by
        intro hh; omega
      rw [if_neg this]

/-- How `printstring` starts when the cursor is inside the grid and the text is
not empty: the content flag is set, the guard runs, and the loop takes over. -/
theorem printstring_inside (cs : Charset) {win : WINDOW} {H W Y X : Nat}
    (h : hasShape win H W) (hc : cursorAt win Y X) (hY : Y < H) (hX : X < W)
    (text : List Nat) (ht : text ≠ []) :
    ∃ wg, printstring cs win text = printLoop cs text.length wg text ∧ hasShape wg H W ∧
      cursorAt wg Y X ∧ sameFrame { win with draw := true } wg ∧
      (∀ r c, cellAt wg r c =
        if r = Y ∧ c + 1 = X ∧ (cellAt win Y X).map (fun cell => cell.ch) = some [] then
          (cellAt win r c).map (fun cell => { cell with ch := assign_1_space })
        else cellAt win r c) ∧
      (∀ r, touchedAt wg r = touchedAt win r) := by
  have h' : hasShape { win with draw := true } H W := h
  have hc' : cursorAt { win with draw := true } Y X := hc
  obtain ⟨wg, hg, hsg, hcg, hfg, hcellsg, htg⟩ := startGuard_spec h' hc' hY hX
  refine ⟨wg, ?_, hsg, hcg, hfg, hcellsg, htg⟩
  have hlen : ¬ (text.length = 0) := by
    intro h0; exact ht (List.length_eq_zero.mp h0)
  have hxw : ¬ (win.cursorx ≥ win.width) := by rw [hc.2, h.2.1]; omega
  have hyh : ¬ (win.cursory ≥ win.height ∨ win.cursorx ≥ win.width) := by
    rw [hc.1, hc.2, h.1, h.2.1]; omega
  have hyh2 : ¬ (win.cursory ≥ win.height) := by rw [hc.1, h.1]; omega
  simp only [printstring, hlen, if_false, hxw, false_and, hyh2, or_self, hg]

theorem idx_div_mod {W r c : Nat} (hc : c < W) : (r * W + c) / W = r ∧ (r * W + c) % W = c := by
  have hW : 0 < W := by omega
  constructor
  · rw [Nat.add_comm, Nat.add_mul_div_right _ _ hW, Nat.div_eq_of_lt hc, Nat.zero_add]
  · rw [Nat.add_comm, Nat.add_mul_mod_self_right, Nat.mod_eq_of_lt hc]

theorem div_mod_idx {W H i : Nat} (hi : i < H * W) :
    i / W < H ∧ i % W < W ∧ (i / W) * W + i % W = i := by
  have hW : 0 < W := by
    rcases Nat.eq_zero_or_pos W with h0 | h0
    · subst h0; simp at hi
    · exact h0
  refine ⟨?_, Nat.mod_lt _ hW, ?_⟩
  · exact Nat.div_lt_of_lt_mul (by rw [Nat.mul_comm]; exact hi)
  · rw [Nat.mul_comm]; exact Nat.div_add_mod i W

theorem allEmpty_cellAt {win : WINDOW} (h : allEmpty win) {r c : Nat} {cell : cursecell}
    (hcell : cellAt win r c = some cell) : cell.ch = [] := by
  unfold cellAt at hcell
  cases hl : win.line[r]? with
  | none => simp [hl] at hcell
  | some l =>
    simp only [hl] at hcell
    exact h l (List.getElem?_mem hl) cell (List.getElem?_mem hcell)

theorem eraseLoop_spec (n : Nat) : ∀ (j : Nat) (win : WINDOW) (H W : Nat),
    hasShape win H W → j + n ≤ H →
    ∃ w2, eraseLoop n j win = .ok w2 ∧ hasShape w2 H W ∧ sameFrame win w2 ∧
      w2.cursorx = win.cursorx ∧ w2.cursory = win.cursory ∧
      (∀ r, w2.line[r]? =
        if j ≤ r ∧ r < j + n then
          some { touched := true, chars := List.replicate W cursecell.default }
        else win.line[r]?) := by
  induction n with
  | zero =>
    intro j win H W h _
    refine ⟨win, rfl, h, sameFrame_refl _, rfl, rfl, ?_⟩
    intro r
    rw [if_neg (by omega)]
  | succ n ih =>
    intro j win H W h hj
    have hjlt : j < win.line.length := by rw [h.2.2.1]; omega
    have hl : win.line[j]? = some win.line[j] := List.getElem?_eq_getElem hjlt
    have hw0 : ¬ (win.width < 0) := by rw [h.2.1]; omega
    have hwn : win.width.toNat = W := by rw [h.2.1]; simp
    have hline : eraseLine win j = .ok { win with
        line := win.line.set j ⟨true, List.replicate W cursecell.default⟩ } := by
      simp only [eraseLine, hl, hw0, if_false, hwn]
    have hs1 : hasShape { win with
        line := win.line.set j ⟨true, List.replicate W cursecell.default⟩ } H W := by
      refine ⟨h.1, h.2.1, by simp [h.2.2.1], ?_⟩
      intro l hlmem
      simp only at hlmem
      rcases List.mem_or_eq_of_mem_set hlmem with hm | rfl
      · exact h.2.2.2 l hm
      · simp
    obtain ⟨w2, hrun, hs2, hf2, hx2, hy2, hlines⟩ := ih (j + 1) _ H W hs1 (by omega)
    refine ⟨w2, ?_, hs2, hf2, hx2, hy2, ?_⟩
    · simp only [eraseLoop, hline, hrun]
    · intro r
      rw [hlines r]
      by_cases h1 : j + 1 ≤ r ∧ r < j + 1 + n
      · rw [if_pos h1, if_pos (by omega)]
      · rw [if_neg h1]
        by_cases h2 : r = j
        · subst h2
          rw [if_pos (by omega)]
          simp [List.getElem?_set, hjlt]
        · rw [if_neg (by omega)]
          simp only
          rw [List.getElem?_set_ne (fun hh => h2 hh.symm)]

theorem or_mask_and (a m k : Nat) (h : m &&& k = 0) : (a ||| m) &&& k = a &&& k := by
  rw [Nat.and_comm, Nat.and_or_distrib_left, Nat.and_comm k m, h, Nat.or_zero, Nat.and_comm]

theorem or_and_same (a m : Nat) : (a ||| m) &&& m = m := by
  apply Nat.eq_of_testBit_eq
  intro i
  simp only [Nat.testBit_and, Nat.testBit_or]
  cases a.testBit i <;> cases m.testBit i <;> rfl

theorem coloursFrom_refl (win : WINDOW) (cell : cursecell) : coloursFrom win cell cell :=
  Or.inl ⟨rfl, rfl, rfl⟩

theorem Evolves.refl {win : WINDOW} {H W : Nat} (h : hasShape win H W) (Y0 : Nat) :
    Evolves H W Y0 win win :=
  ⟨h, sameFrame_refl win, fun _ _ _ => rfl, fun _ _ => rfl,
    fun _ _ cell2 hc => ⟨cell2, hc, coloursFrom_refl win cell2⟩⟩

theorem Evolves.trans {a b c : WINDOW} {H W Y0 : Nat} (h1 : Evolves H W Y0 a b)
    (h2 : Evolves H W Y0 b c) : Evolves H W Y0 a c := by
  refine ⟨h2.shape, sameFrame_trans h1.frame h2.frame, ?_, ?_, ?_⟩
  · intro r col hr
    rw [h2.cells_above r col hr, h1.cells_above r col hr]
  · intro r hr
    rw [h2.touched_above r hr, h1.touched_above r hr]
  · intro r col cell2 hcell2
    obtain ⟨cell1, hcell1, hcol2⟩ := h2.colours r col cell2 hcell2
    obtain ⟨cell0, hcell0, hcol1⟩ := h1.colours r col cell1 hcell1
    refine ⟨cell0, hcell0, ?_⟩
    obtain ⟨_, _, _, _, fFG, fBG, fFS, _, _⟩ := h1.frame
    rcases hcol2 with ⟨e1, e2, e3⟩ | ⟨e1, e2, e3⟩
    · rcases hcol1 with ⟨g1, g2, g3⟩ | ⟨g1, g2, g3⟩
      · exact Or.inl ⟨e1.trans g1, e2.trans g2, e3.trans g3⟩
      · exact Or.inr ⟨e1.trans g1, e2.trans g2, e3.trans g3⟩
    · exact Or.inr ⟨e1.trans fFG, e2.trans fBG, e3.trans fFS⟩

theorem Evolves.mono {a b : WINDOW} {H W Y0 Y1 : Nat} (h : Evolves H W Y0 a b)
    (hle : Y1 ≤ Y0) : Evolves H W Y1 a b :=
  ⟨h.shape, h.frame, fun r c hr => h.cells_above r c (Nat.lt_of_lt_of_le hr hle),
    fun r hr => h.touched_above r (Nat.lt_of_lt_of_le hr hle), h.colours⟩

theorem evolves_mapCell {win : WINDOW} {H W : Nat} (h : hasShape win H W) {Y0 r : Nat}
    (c : Nat) (f : cursecell → cursecell) (hr : Y0 ≤ r)
    (hf : ∀ cell, coloursFrom win cell (f cell)) :
    Evolves H W Y0 win (mapCell win r c f) := by
  refine ⟨hasShape_mapCell h r c f, sameFrame_refl win, ?_, ?_, ?_⟩
  · intro r2 c2 hr2
    rw [cellAt_mapCell, if_neg (by omega)]
  · intro r2 _
    rw [touchedAt_mapCell]
  · intro r2 c2 cell2 hcell2
    rw [cellAt_mapCell] at hcell2
    by_cases hrc : r2 = r ∧ c2 = c
    · rw [if_pos hrc] at hcell2
      obtain ⟨rfl, rfl⟩ := hrc
      cases hcell : cellAt win r2 c2 with
      | none => rw [hcell] at hcell2; simp at hcell2
      | some cell =>
        rw [hcell] at hcell2
        simp only [Option.map_some', Option.some.injEq] at hcell2
        exact ⟨cell, rfl, hcell2 ▸ hf cell⟩
    · rw [if_neg hrc] at hcell2
      exact ⟨cell2, hcell2, coloursFrom_refl win cell2⟩

theorem evolves_markTouched {win : WINDOW} {H W : Nat} (h : hasShape win H W) {Y0 r : Nat}
    (hr : Y0 ≤ r) : Evolves H W Y0 win (markTouched win r) := by
  refine ⟨hasShape_markTouched h r, sameFrame_refl win, ?_, ?_, ?_⟩
  · intro r2 c2 _
    rw [cellAt_markTouched]
  · intro r2 hr2
    rw [touchedAt_markTouched, if_neg (by omega)]
  · intro r2 c2 cell2 hcell2
    rw [cellAt_markTouched] at hcell2
    exact ⟨cell2, hcell2, coloursFrom_refl win cell2⟩

theorem evolves_setCursor {win : WINDOW} {H W : Nat} (h : hasShape win H W) (Y0 : Nat)
    (y x : Int) : Evolves H W Y0 win (setCursor win y x) :=
  ⟨h, sameFrame_refl win, fun _ _ _ => rfl, fun _ _ => rfl,
    fun _ _ cell2 hc => ⟨cell2, hc, coloursFrom_refl win cell2⟩⟩

/-- What `addedchar` does for any cursor position in a row of the grid. -/
theorem addedchar_gen {win : WINDOW} {H W Y X : Nat} (h : hasShape win H W)
    (hc : cursorAt win Y X) (hY : Y < H) :
    ∃ win2 Y2 X2, addedchar win = .ok win2 ∧ cursorAt win2 Y2 X2 ∧ Evolves H W Y win win2 ∧
      Y ≤ Y2 ∧ Y2 < H ∧ (X < W → cursorInRange H W Y2 X2) ∧
      (∀ r c, cellAt win2 r c = cellAt win r c) ∧
      touchedAt win2 Y = some true := by
  have hadd := addedchar_eq h hc hY (X := X)
  have hsh := hasShape_markTouched h Y
  have hev : ∀ y x, Evolves H W Y win (setCursor (markTouched win Y) y x) := fun y x =>
    (evolves_markTouched h (le_refl Y)).trans (evolves_setCursor hsh Y y x)
  have hcells : ∀ y x r c, cellAt (setCursor (markTouched win Y) y x) r c = cellAt win r c :=
    fun _ _ r c => cellAt_markTouched win Y r c
  have htouched : ∀ y x, touchedAt (setCursor (markTouched win Y) y x) Y = some true := by
    intro y x
    obtain ⟨t, ht⟩ := touchedAt_isSome h hY
    show touchedAt (markTouched win Y) Y = some true
    rw [touchedAt_markTouched, if_pos rfl, ht]; rfl
  by_cases h1 : X + 1 < W
  · rw [if_pos h1] at hadd
    exact ⟨_, Y, X + 1, hadd, ⟨rfl, by simp [setCursor]⟩, hev _ _, le_refl _, hY,
      fun _ => Or.inl h1, hcells _ _, htouched _ _⟩
  · rw [if_neg h1] at hadd
    by_cases h2 : Y + 1 < H
    · rw [if_pos h2] at hadd
      exact ⟨_, Y + 1, 0, hadd, ⟨by simp [setCursor], by simp [setCursor]⟩, hev _ _,
        Nat.le_succ _, h2, fun hX => Or.inl (by omega), hcells _ _, htouched _ _⟩
    · rw [if_neg h2] at hadd
      exact ⟨_, Y, X + 1, hadd, ⟨rfl, by simp [setCursor]⟩, hev _ _, le_refl _, hY,
        fun hX => Or.inr ⟨by omega, by omega⟩, hcells _ _, htouched _ _⟩

/-- What the `dlen == 1` branch does, as a step of a write. -/
theorem narrowTail_gen {win : WINDOW} {H W Y X : Nat} (h : hasShape win H W)
    (hc : cursorAt win Y X) (hY : Y < H) :
    ∃ win2, narrowTail win = .ok win2 ∧ cursorAt win2 Y X ∧ Evolves H W Y win win2 := by
  obtain ⟨win2, hrun, hs2, hc2, hf2, hcells, ht⟩ := narrowTail_spec h hc hY
  refine ⟨win2, hrun, hc2, hs2, hf2, ?_, ?_, ?_⟩
  · intro r c hr
    rw [hcells, if_neg (by omega)]
  · intro r _
    exact ht r
  · intro r c cell2 hcell2
    rw [hcells] at hcell2
    by_cases hrc : r = Y ∧ c = X
    · rw [if_pos hrc] at hcell2
      cases hcell : cellAt win r c with
      | none => rw [hcell] at hcell2; simp at hcell2
      | some cell =>
        rw [hcell] at hcell2
        simp only [Option.map_some', Option.some.injEq] at hcell2
        refine ⟨cell, rfl, Or.inl ?_⟩
        rw [← hcell2]
        unfold blankIfEmpty
        split_ifs <;> exact ⟨rfl, rfl, rfl⟩
    · rw [if_neg hrc] at hcell2
      exact ⟨cell2, hcell2, coloursFrom_refl win cell2⟩

theorem coloursFrom_text (win : WINDOW) (t : List Nat) (cell : cursecell) :
    coloursFrom win cell { cell with ch := t } :=
  Or.inl ⟨rfl, rfl, rfl⟩

theorem coloursFrom_window (win : WINDOW) (cell : cursecell) :
    coloursFrom win cell { cell with FG := win.FG, BG := win.BG, FS := win.FS } :=
  Or.inr ⟨rfl, rfl, rfl⟩

/-- What the `dlen == 2` branch does, as a step of a write; `curcell` points
into the grid at a row that is not below the cursor. -/
theorem wideTail_gen {win : WINDOW} {H W Y X Yc Xc : Nat} (h : hasShape win H W)
    (hc : cursorAt win Y X) (hY : Y < H) (hYc : Yc ≤ Y) (hXc : Xc < W) :
    ∃ stop win2 Y2 X2, wideTail win ⟨Yc, Xc⟩ = .ok (stop, win2) ∧ cursorAt win2 Y2 X2 ∧
      Evolves H W Yc win win2 ∧ Y ≤ Y2 ∧ Y2 < H ∧
      (2 ≤ W → cursorInRange H W Y X → cursorInRange H W Y2 X2) := by
  have hYcH : Yc < H := by omega
  by_cases hX : X < W
  · -- the second cell exists
    have hcur := cur_cell_inside h hc hY hX
    have hw1 := writeCell_eq h hY hX (fun c => { c with FG := win.FG, BG := win.BG, FS := win.FS })
    have he1 : Evolves H W Yc win (mapCell win Y X
        (fun c => { c with FG := win.FG, BG := win.BG, FS := win.FS })) :=
      evolves_mapCell h X _ hYc (coloursFrom_window win)
    have hw2 := writeCell_eq he1.shape hY hX (fun c => { c with ch := [] })
    have he2 : Evolves H W Yc (mapCell win Y X
        (fun c => { c with FG := win.FG, BG := win.BG, FS := win.FS }))
          (mapCell (mapCell win Y X
            (fun c => { c with FG := win.FG, BG := win.BG, FS := win.FS })) Y X
            (fun c => { c with ch := [] })) :=
      evolves_mapCell he1.shape X _ hYc (coloursFrom_text _ [])
    have hc2 : cursorAt (mapCell (mapCell win Y X
        (fun c => { c with FG := win.FG, BG := win.BG, FS := win.FS })) Y X
        (fun c => { c with ch := [] })) Y X := hc
    obtain ⟨w3, Y3, X3, hadd3, hc3, he3, hY3, hY3H, hr3, _, _⟩ :=
      addedchar_gen he2.shape hc2 hY
    have he03 : Evolves H W Yc win w3 := (he1.trans he2).trans (he3.mono hYc)
    by_cases hx1 : X3 = 1
    · -- the glyph is moved to the first cell of the next line
      have hcx : w3.cursorx = 1 := by rw [hc3.2, hx1]; rfl
      obtain ⟨cur, hcurcell⟩ := cellAt_isSome he3.shape hYcH hXc
      have hread := readCell_eq hcurcell
      have hw4 := writeCell_eq he3.shape hY hX (fun c => { c with ch := cur.ch })
      have he4 : Evolves H W Yc w3 (mapCell w3 Y X (fun c => { c with ch := cur.ch })) :=
        evolves_mapCell he3.shape X _ hYc (coloursFrom_text _ _)
      have hw5 := writeCell_eq he4.shape hYcH hXc (fun c => { c with ch := assign_1_space })
      have he5 : Evolves H W Yc (mapCell w3 Y X (fun c => { c with ch := cur.ch }))
          (mapCell (mapCell w3 Y X (fun c => { c with ch := cur.ch })) Yc Xc
            (fun c => { c with ch := assign_1_space })) :=
        evolves_mapCell he4.shape Xc _ (le_refl Yc) (coloursFrom_text _ _)
      have hc5 : cursorAt (mapCell (mapCell w3 Y X (fun c => { c with ch := cur.ch })) Yc Xc
          (fun c => { c with ch := assign_1_space })) Y3 X3 := hc3
      obtain ⟨w6, Y6, X6, hadd6, hc6, he6, hY6, hY6H, hr6, _, _⟩ :=
        addedchar_gen he5.shape hc5 hY3H
      have he06 : Evolves H W Yc win w6 :=
        ((he03.trans he4).trans he5).trans (he6.mono (by omega))
      have hrange : 2 ≤ W → cursorInRange H W Y X → cursorInRange H W Y6 X6 :=
        fun hW _ => hr6 (by omega)
      by_cases hX6 : X6 < W
      · have hcur6 := cur_cell_inside he6.shape hc6 hY6H hX6
        have hw7 := writeCell_eq he6.shape hY6H hX6 (fun c => { c with ch := [] })
        have he7 : Evolves H W Yc w6 (mapCell w6 Y6 X6 (fun c => { c with ch := [] })) :=
          evolves_mapCell he6.shape X6 _ (by omega) (coloursFrom_text _ _)
        refine ⟨false, mapCell w6 Y6 X6 (fun c => { c with ch := [] }), Y6, X6, ?_,
          (show cursorAt (mapCell w6 Y6 X6 (fun c => { c with ch := [] })) Y6 X6 from hc6),
          he06.trans he7, by omega, hY6H, hrange⟩
        simp only [wideTail, bind, Except.bind, hcur, hw1, hw2, hadd3, hcx, if_true, hread, hw4,
          hw5, hadd6, hcur6, hw7, pure, Except.pure]
      · have hcur6 : cur_cell w6 = .ok none := by
          apply cur_cell_outside; right; rw [hc6.2, he6.shape.2.1]; omega
        refine ⟨false, w6, Y6, X6, ?_, hc6, he06, by omega, hY6H, hrange⟩
        simp only [wideTail, bind, Except.bind, hcur, hw1, hw2, hadd3, hcx, if_true, hread, hw4,
          hw5, hadd6, hcur6, pure, Except.pure]
    · have hcx : ¬ (w3.cursorx = 1) := by rw [hc3.2]; omega
      refine ⟨false, w3, Y3, X3, ?_, hc3, he03, hY3, hY3H, fun _ _ => hr3 hX⟩
      simp only [wideTail, bind, Except.bind, hcur, hw1, hw2, hadd3, hcx, if_false, pure,
        Except.pure]
  · -- the glyph was written into the last cell
    have hcur : cur_cell win = .ok none := by
      apply cur_cell_outside; right; rw [hc.2, h.2.1]; omega
    have hw := writeCell_eq h hYcH hXc (fun c => { c with ch := assign_space_1 })
    refine ⟨true, mapCell win Yc Xc (fun c => { c with ch := assign_space_1 }), Y, X, ?_,
      (show cursorAt (mapCell win Yc Xc (fun c => { c with ch := assign_space_1 })) Y X from hc),
      evolves_mapCell h Xc _ (le_refl Yc) (coloursFrom_text _ _), le_refl _, hY, fun _ hr => hr⟩
    simp only [wideTail, bind, Except.bind, hcur, hw, pure, Except.pure]

/-- The loop of `fill` returns when the fuel covers the input, and a call that
starts a unit consumes at least one byte. -/
theorem fillLoop_total (cs : Charset) : ∀ (fuel : Nat) (taken tmp : List Nat) (dlen : Int),
    tmp.length ≤ fuel →
    ∃ d t rest, fillLoop cs fuel taken tmp dlen = .ok (d, t, rest) ∧
      rest.length ≤ tmp.length ∧
      (taken = [] → dlen ≤ 0 → tmp ≠ [] → rest.length < tmp.length) := by
  intro fuel
  induction fuel with
  | zero =>
    intro taken tmp dlen hlen
    cases tmp with
    | nil => exact ⟨dlen, taken, [], by simp [fillLoop], le_refl _, fun _ _ hne => absurd rfl hne⟩
    | cons b bs => simp at hlen
  | succ fuel ih =>
    intro taken tmp dlen hlen
    cases tmp with
    | nil => exact ⟨dlen, taken, [], by simp [fillLoop], le_refl _, fun _ _ hne => absurd rfl hne⟩
    | cons b bs =>
      have hk1 := cs.advance_pos (b :: bs) (by simp)
      have hk2 := cs.advance_le (b :: bs)
      have hdrop : ((b :: bs).drop (cs.UTF8_getch (b :: bs)).2).length < (b :: bs).length := by
        rw [List.length_drop]; simp only [List.length_cons] at hk2 ⊢; omega
      simp only [fillLoop]
      generalize (if (cs.UTF8_getch (b :: bs)).1 = UNKNOWN_UNICODE then (1 : Int)
        else cs.mk_wcwidth (cs.UTF8_getch (b :: bs)).1) = cw
      by_cases c1 : cw > 0 ∧ dlen > 0
      · rw [if_pos c1]
        exact ⟨_, _, _, rfl, le_refl _, fun _ hd _ => by omega⟩
      · rw [if_neg c1]
        by_cases c2 : cw = -1 ∧ taken = []
        · rw [if_pos c2]
          exact ⟨_, _, _, rfl, Nat.le_of_lt hdrop, fun _ _ _ => hdrop⟩
        · rw [if_neg c2]
          by_cases c3 : cw = -1
          · rw [if_pos c3]
            exact ⟨_, _, _, rfl, le_refl _, fun ht _ _ => absurd ⟨c3, ht⟩ c2⟩
          · rw [if_neg c3]
            obtain ⟨d, t, rest, hrun, hle, _⟩ :=
              ih (taken ++ (b :: bs).take (cs.UTF8_getch (b :: bs)).2)
                ((b :: bs).drop (cs.UTF8_getch (b :: bs)).2) (dlen + cw)
                (by simp only [List.length_cons] at hlen hdrop; omega)
            exact ⟨d, t, rest, hrun, by omega, fun _ _ _ => by omega⟩

/-- The function `fill` returns on every input that is not empty, and leaves
less input than it got. -/
theorem fill_total (cs : Charset) (fmt : List Nat) (hne : fmt ≠ []) :
    ∃ d t rest, fill cs fmt = .ok (d, t, rest) ∧ rest.length < fmt.length := by
  obtain ⟨d, t, rest, hrun, _, hlt⟩ := fillLoop_total cs fmt.length [] fmt 0 (le_refl _)
  exact ⟨d, t, rest, hrun, hlt rfl (le_refl _) hne⟩

/-- One turn of the loop of `printstring` on a display unit (the next byte is
not a newline), with the cursor inside the grid: the turn returns or hands a
well-formed window to the next turn. -/
theorem printLoop_step (cs : Charset) {win : WINDOW} {H W Y X : Nat} (h : hasShape win H W)
    (hc : cursorAt win Y X) (hY : Y < H) (hX : X < W) {b : Nat} {bs : List Nat} (hb : b ≠ 10)
    {d : Int} {t rest : List Nat} (hfill : fill cs (b :: bs) = .ok (d, t, rest)) (fuel : Nat) :
    ∃ stop win3 Y3 X3,
      printLoop cs (fuel + 1) win (b :: bs) =
        (if stop = true then .ok win3 else printLoop cs fuel win3 rest) ∧
      cursorAt win3 Y3 X3 ∧ Evolves H W Y win win3 ∧ Y ≤ Y3 ∧ Y3 < H ∧
      (2 ≤ W → cursorInRange H W Y3 X3) ∧
      (1 ≤ d → ∀ cell, cellAt win3 Y X = some cell →
        cell.FG = win.FG ∧ cell.BG = win.BG ∧ cell.FS = win.FS) := by
  have hcur := cur_cell_inside h hc hY hX
  have hw1 := writeCell_eq h hY hX (fun c => { c with ch := t })
  have he1 : Evolves H W Y win (mapCell win Y X (fun c => { c with ch := t })) :=
    evolves_mapCell h X _ (le_refl Y) (coloursFrom_text _ _)
  have hc1 : cursorAt (mapCell win Y X (fun c => { c with ch := t })) Y X := hc
  by_cases hd : 1 ≤ d
  · -- the unit is drawn: colours, then the cursor moves on
    have hw2 : writeCell (mapCell win Y X (fun c => { c with ch := t })) ⟨Y, X⟩
        (fun c => { c with FG := (mapCell win Y X (fun c => { c with ch := t })).FG,
                            BG := (mapCell win Y X (fun c => { c with ch := t })).BG,
                            FS := (mapCell win Y X (fun c => { c with ch := t })).FS }) =
        .ok (mapCell (mapCell win Y X (fun c => { c with ch := t })) Y X
          (fun c => { c with FG := win.FG, BG := win.BG, FS := win.FS })) :=
      writeCell_eq he1.shape hY hX _
    have he2 : Evolves H W Y (mapCell win Y X (fun c => { c with ch := t }))
        (mapCell (mapCell win Y X (fun c => { c with ch := t })) Y X
          (fun c => { c with FG := win.FG, BG := win.BG, FS := win.FS })) :=
      evolves_mapCell he1.shape X _ (le_refl Y)
        (coloursFrom_window (mapCell win Y X (fun c => { c with ch := t })))
    have hc2 : cursorAt (mapCell (mapCell win Y X (fun c => { c with ch := t })) Y X
        (fun c => { c with FG := win.FG, BG := win.BG, FS := win.FS })) Y X := hc
    -- the cell under the old cursor now has the colours of the window
    have hcol2 : ∀ cell, cellAt (mapCell (mapCell win Y X (fun c => { c with ch := t })) Y X
        (fun c => { c with FG := win.FG, BG := win.BG, FS := win.FS })) Y X = some cell →
        cell.FG = win.FG ∧ cell.BG = win.BG ∧ cell.FS = win.FS := by
      intro cell hcell
      obtain ⟨cell0, hcell0⟩ := cellAt_isSome h hY hX
      simp only [cellAt_mapCell, and_self, if_true, hcell0, Option.map_some',
        Option.some.injEq] at hcell
      rw [← hcell]
      exact ⟨rfl, rfl, rfl⟩
    obtain ⟨w3, Y3, X3, hadd3, hc3, he3, hY3, hY3H, hr3, _, _⟩ :=
      addedchar_gen he2.shape hc2 hY
    have he03 : Evolves H W Y win w3 := (he1.trans he2).trans he3
    have hge : d ≥ 1 := hd
    -- colours are kept by everything that follows
    have hkeep : ∀ w4, Evolves H W Y w3 w4 → ∀ cell, cellAt w4 Y X = some cell →
        cell.FG = win.FG ∧ cell.BG = win.BG ∧ cell.FS = win.FS := by
      intro w4 he4 cell hcell
      obtain ⟨cell2, hcell2, hcol⟩ := (he3.trans he4).colours Y X cell hcell
      obtain ⟨e1, e2, e3⟩ := hcol2 cell2 hcell2
      rcases hcol with ⟨g1, g2, g3⟩ | ⟨g1, g2, g3⟩
      · exact ⟨g1.trans e1, g2.trans e2, g3.trans e3⟩
      · exact ⟨g1, g2, g3⟩
    by_cases hd1 : d = 1
    · obtain ⟨w4, hnar, hc4, he4⟩ := narrowTail_gen he3.shape hc3 hY3H
      have hnb : ¬ (w4.cursory ≥ w4.height) := by rw [hc4.1, he4.shape.1]; omega
      refine ⟨false, w4, Y3, X3, ?_, hc4, he03.trans (he4.mono hY3), hY3, hY3H,
        fun _ => hr3 hX, fun _ => hkeep w4 (he4.mono hY3)⟩
      subst hd1
      have h11 : ((1 : Int) ≥ 1) := le_refl _
      rw [printLoop]
      simp only [hb, if_false, hcur, hfill, hw1, h11, if_true, bind, Except.bind, hw2, hadd3,
        eq_self, hnar, pure, Except.pure, hnb, Bool.false_eq_true]
    · by_cases hd2 : d = 2
      · obtain ⟨stop, w4, Y4, X4, hwide, hc4, he4, hY4, hY4H, hr4⟩ :=
          wideTail_gen he3.shape hc3 hY3H hY3 hX
        have hnb : ¬ (w4.cursory ≥ w4.height) := by rw [hc4.1, he4.shape.1]; omega
        refine ⟨stop, w4, Y4, X4, ?_, hc4, he03.trans he4, by omega, hY4H,
          fun hW => hr4 hW (hr3 hX), fun _ => hkeep w4 he4⟩
        subst hd2
        have h21 : ((2 : Int) ≥ 1) := by omega
        rw [printLoop]
        simp only [hb, if_false, hcur, hfill, hw1, h21, if_true, bind, Except.bind, hw2, hadd3,
          hd1, eq_self, hwide]
        cases stop
        · simp only [hnb, if_false, Bool.false_eq_true]
        · simp only [if_true]
      · have hnb : ¬ (w3.cursory ≥ w3.height) := by rw [hc3.1, he3.shape.1]; omega
        refine ⟨false, w3, Y3, X3, ?_, hc3, he03, hY3, hY3H, fun _ => hr3 hX,
          fun _ => hkeep w3 (Evolves.refl he3.shape Y)⟩
        rw [printLoop]
        simp only [hb, if_false, hcur, hfill, hw1, hge, if_true, bind, Except.bind, hw2, hadd3,
          hd1, hd2, pure, Except.pure, hnb, Bool.false_eq_true]
  · -- a unit of width 0: only the text of the cell changes
    have hge : ¬ (d ≥ 1) := hd
    have hd1 : ¬ (d = 1) := by omega
    have hd2 : ¬ (d = 2) := by omega
    have hnb : ¬ ((mapCell win Y X (fun c => { c with ch := t })).cursory ≥
        (mapCell win Y X (fun c => { c with ch := t })).height) := by
      rw [hc1.1, he1.shape.1]; omega
    refine ⟨false, mapCell win Y X (fun c => { c with ch := t }), Y, X, ?_, hc1, he1, le_refl _,
      hY, fun _ => Or.inl hX, fun hd' => absurd hd' hd⟩
    rw [printLoop]
    simp only [hb, if_false, hcur, hfill, hw1, hge, hd1, hd2, pure, Except.pure, hnb,
      Bool.false_eq_true]

/-- The loop of `printstring` on any input, from any cursor position in a row
of a well-formed window: it returns, the window stays well-formed, only rows
from the cursor row on are written, and the cursor stays in a row of the grid
(and in range, when the width is at least 2). -/
theorem printLoop_gen (cs : Charset) (H W : Nat) : ∀ (fuel : Nat) (fmt : List Nat)
    (win : WINDOW) (Y X : Nat), hasShape win H W → cursorAt win Y X → Y < H →
    fmt.length ≤ fuel →
    ∃ win2 Y2 X2, printLoop cs fuel win fmt = .ok win2 ∧ cursorAt win2 Y2 X2 ∧
      Evolves H W Y win win2 ∧ Y ≤ Y2 ∧ Y2 < H ∧
      (2 ≤ W → cursorInRange H W Y X → cursorInRange H W Y2 X2) := by
  intro fuel
  induction fuel with
  | zero =>
    intro fmt win Y X h hc hY hlen
    cases fmt with
    | nil => exact ⟨win, Y, X, rfl, hc, Evolves.refl h Y, le_refl _, hY, fun _ hr => hr⟩
    | cons b bs => simp at hlen
  | succ fuel ih =>
    intro fmt win Y X h hc hY hlen
    cases fmt with
    | nil => exact ⟨win, Y, X, rfl, hc, Evolves.refl h Y, le_refl _, hY, fun _ hr => hr⟩
    | cons b bs =>
      have hlen2 : bs.length ≤ fuel := by simp only [List.length_cons] at hlen; omega
      by_cases hb : b = 10
      · -- a newline
        by_cases hnl : Y + 1 < H
        · have hlt : win.cursory < win.height - 1 := by rw [hc.1, h.1]; omega
          have hnew : newline win = (1, setCursor win ((Y + 1 : Nat) : Int) 0) := by
            simp only [newline, hlt, if_true, setCursor]
            rw [hc.1]
            push_cast
            rfl
          have hc1 : cursorAt (setCursor win ((Y + 1 : Nat) : Int) 0) (Y + 1) 0 := ⟨rfl, rfl⟩
          obtain ⟨win2, Y2, X2, hrun, hc2, he2, hY2, hY2H, hr2⟩ :=
            ih bs (setCursor win ((Y + 1 : Nat) : Int) 0) (Y + 1) 0 h hc1 hnl hlen2
          refine ⟨win2, Y2, X2, ?_, hc2,
            (evolves_setCursor h Y _ _).trans (he2.mono (Nat.le_succ Y)), by omega, hY2H,
            fun hW _ => hr2 hW (Or.inl (by omega))⟩
          rw [printLoop]
          simp only [hb, if_true, hnew]
          exact hrun
        · have hlt : ¬ (win.cursory < win.height - 1) := by rw [hc.1, h.1]; omega
          refine ⟨win, Y, X, ?_, hc, Evolves.refl h Y, le_refl _, hY, fun _ hr => hr⟩
          rw [printLoop]
          simp only [hb, if_true, newline, hlt, if_false]
      · by_cases hX : X < W
        · obtain ⟨d, t, rest, hfill, hrest⟩ := fill_total cs (b :: bs) (by simp)
          have hrest2 : rest.length ≤ fuel := by simp only [List.length_cons] at hrest; omega
          obtain ⟨stop, win3, Y3, X3, hstep, hc3, he3, hY3, hY3H, hr3, _⟩ :=
            printLoop_step cs h hc hY hX hb hfill fuel
          cases stop with
          | true =>
            refine ⟨win3, Y3, X3, ?_, hc3, he3, hY3, hY3H, fun hW _ => hr3 hW⟩
            rw [hstep]; rfl
          | false =>
            obtain ⟨win4, Y4, X4, hrun, hc4, he4, hY4, hY4H, hr4⟩ :=
              ih rest win3 Y3 X3 he3.shape hc3 hY3H hrest2
            refine ⟨win4, Y4, X4, ?_, hc4, he3.trans (he4.mono hY3), by omega, hY4H,
              fun hW _ => hr4 hW (hr3 hW)⟩
            rw [hstep]
            simp only [Bool.false_eq_true, if_false]
            exact hrun
        · have hcur : cur_cell win = .ok none := by
            apply cur_cell_outside; right; rw [hc.2, h.2.1]; omega
          refine ⟨win, Y, X, ?_, hc, Evolves.refl h Y, le_refl _, hY, fun _ hr => hr⟩
          rw [printLoop]
          simp only [hb, if_false, hcur]

/-- The guard at the start of `printstring`, as a step of a write. -/
theorem startGuard_gen {win : WINDOW} {H W Y X : Nat} (h : hasShape win H W)
    (hc : cursorAt win Y X) (hY : Y < H) (hX : X < W) :
    ∃ win2, startGuard win = .ok win2 ∧ cursorAt win2 Y X ∧ Evolves H W Y win win2 := by
  obtain ⟨win2, hrun, hs2, hc2, hf2, hcells, ht⟩ := startGuard_spec h hc hY hX
  refine ⟨win2, hrun, hc2, hs2, hf2, ?_, ?_, ?_⟩
  · intro r c hr
    rw [hcells, if_neg (by omega)]
  · intro r _
    exact ht r
  · intro r c cell2 hcell2
    rw [hcells] at hcell2
    by_cases hrc : r = Y ∧ c + 1 = X ∧
        (cellAt win Y X).map (fun cell => cell.ch) = some []
    · rw [if_pos hrc] at hcell2
      cases hcell : cellAt win r c with
      | none => rw [hcell] at hcell2; simp at hcell2
      | some cell =>
        rw [hcell] at hcell2
        simp only [Option.map_some', Option.some.injEq] at hcell2
        exact ⟨cell, rfl, hcell2 ▸ coloursFrom_text win _ cell⟩
    · rw [if_neg hrc] at hcell2
      exact ⟨cell2, hcell2, coloursFrom_refl win cell2⟩

/-- The function `printstring` on any text, from any cursor position in a row
of a well-formed window: it returns; apart from the content flag the result
comes from the window by writes to rows from the cursor row on. -/
theorem printstring_gen (cs : Charset) {win : WINDOW} {H W Y X : Nat} (h : hasShape win H W)
    (hc : cursorAt win Y X) (hY : Y < H) (text : List Nat) :
    ∃ win2 Y2 X2, printstring cs win text = .ok win2 ∧ cursorAt win2 Y2 X2 ∧
      Evolves H W Y { win with draw := true } win2 ∧ Y ≤ Y2 ∧ Y2 < H ∧
      (2 ≤ W → cursorInRange H W Y X → cursorInRange H W Y2 X2) := by
  have h' : hasShape { win with draw := true } H W := h
  have hc' : cursorAt { win with draw := true } Y X := hc
  by_cases htext : text.length = 0
  · refine ⟨{ win with draw := true }, Y, X, ?_, hc', Evolves.refl h' Y, le_refl _, hY,
      fun _ hr => hr⟩
    simp only [printstring, htext, if_true]
  · have hne : text ≠ [] := fun hh => htext (by rw [hh]; rfl)
    by_cases hX : X < W
    · obtain ⟨wg, hstart, hsg, hcg, _, _, _⟩ := printstring_inside cs h hc hY hX text hne
      obtain ⟨wg2, hg2, hcg2, heg⟩ := startGuard_gen h' hc' hY hX
      -- both descriptions of the guard name the same window
      have hxw : ¬ (win.cursorx ≥ win.width) := by rw [hc.2, h.2.1]; omega
      have hyh : ¬ (win.cursory ≥ win.height) := by rw [hc.1, h.1]; omega
      have hrun : printstring cs win text = printLoop cs text.length wg2 text := by
        simp only [printstring, htext, if_false, hxw, false_and, hyh, or_self, hg2]
      obtain ⟨win2, Y2, X2, hloop, hc2, he2, hY2, hY2H, hr2⟩ :=
        printLoop_gen cs H W text.length text wg2 Y X heg.shape hcg2 hY (le_refl _)
      exact ⟨win2, Y2, X2, hrun.trans hloop, hc2, heg.trans he2, hY2, hY2H, hr2⟩
    · have hxw : win.cursorx ≥ win.width := by rw [hc.2, h.2.1]; omega
      by_cases hnl : Y + 1 < H
      · have hlt : win.cursory < win.height - 1 := by rw [hc.1, h.1]; omega
        have hnew : newline { win with draw := true } =
            (1, setCursor { win with draw := true } ((Y + 1 : Nat) : Int) 0) := by
          simp only [newline, hlt, if_true, setCursor]
          rw [hc.1]
          push_cast
          rfl
        have hs1 : hasShape (setCursor { win with draw := true } ((Y + 1 : Nat) : Int) 0) H W := h
        have hc1 : cursorAt (setCursor { win with draw := true } ((Y + 1 : Nat) : Int) 0)
            (Y + 1) 0 := ⟨rfl, rfl⟩
        have he1 : Evolves H W Y { win with draw := true }
            (setCursor { win with draw := true } ((Y + 1 : Nat) : Int) 0) :=
          evolves_setCursor h' Y _ _
        have h10 : ¬ ((1 : Int) = 0) := by omega
        by_cases hW : 0 < W
        · obtain ⟨wg2, hg2, hcg2, heg⟩ := startGuard_gen hs1 hc1 hnl hW
          obtain ⟨win2, Y2, X2, hloop, hc2, he2, hY2, hY2H, hr2⟩ :=
            printLoop_gen cs H W text.length text wg2 (Y + 1) 0 heg.shape hcg2 hnl (le_refl _)
          refine ⟨win2, Y2, X2, ?_, hc2, he1.trans ((heg.trans he2).mono (Nat.le_succ Y)),
            by omega, hY2H, fun hW2 _ => hr2 hW2 (Or.inl (by omega))⟩
          have hyh : ¬ ((setCursor { win with draw := true } ((Y + 1 : Nat) : Int) 0).cursory ≥
              (setCursor { win with draw := true } ((Y + 1 : Nat) : Int) 0).height ∨
              (setCursor { win with draw := true } ((Y + 1 : Nat) : Int) 0).cursorx ≥
              (setCursor { win with draw := true } ((Y + 1 : Nat) : Int) 0).width) := by
            rw [hc1.1, hc1.2, hs1.1, hs1.2.1]; omega
          simp only [printstring, htext, if_false, hxw, true_and, hnew, h10, if_true, hyh, hg2]
          exact hloop
        · refine ⟨setCursor { win with draw := true } ((Y + 1 : Nat) : Int) 0, Y + 1, 0, ?_, hc1,
            he1, Nat.le_succ Y, hnl, fun hW2 _ => absurd (by omega) hW⟩
          have hyh : ((setCursor { win with draw := true } ((Y + 1 : Nat) : Int) 0).cursory ≥
              (setCursor { win with draw := true } ((Y + 1 : Nat) : Int) 0).height ∨
              (setCursor { win with draw := true } ((Y + 1 : Nat) : Int) 0).cursorx ≥
              (setCursor { win with draw := true } ((Y + 1 : Nat) : Int) 0).width) := by
            right; rw [hc1.2, hs1.2.1]; omega
          simp only [printstring, htext, if_false, hxw, true_and, hnew, h10, if_true, hyh]
      · have hlt : ¬ (win.cursory < win.height - 1) := by rw [hc.1, h.1]; omega
        refine ⟨{ win with draw := true }, Y, X, ?_, hc', Evolves.refl h' Y, le_refl _, hY,
          fun _ hr => hr⟩
        simp only [printstring, htext, if_false, hxw, true_and, newline, hlt, if_true]

/-- Writing a text whose first display unit has a width of at least 1, with the
cursor inside the grid: the cell under the cursor ends with the colours of the
window, and every cell that had them keeps them. -/
theorem printstring_first_unit (cs : Charset) {win : WINDOW} {H W Y X : Nat}
    (h : hasShape win H W) (hc : cursorAt win Y X) (hY : Y < H) (hX : X < W)
    {b : Nat} {bs : List Nat} (hb : b ≠ 10) {d : Int} {t rest : List Nat}
    (hfill : fill cs (b :: bs) = .ok (d, t, rest)) (hd : 1 ≤ d) {win2 : WINDOW}
    (hrun : printstring cs win (b :: bs) = .ok win2) : paintedAt win win2 Y X := by
  have h' : hasShape { win with draw := true } H W := h
  have hc' : cursorAt { win with draw := true } Y X := hc
  obtain ⟨wg2, hg2, hcg2, heg⟩ := startGuard_gen h' hc' hY hX
  have hxw : ¬ (win.cursorx ≥ win.width) := by rw [hc.2, h.2.1]; omega
  have hyh : ¬ (win.cursory ≥ win.height) := by rw [hc.1, h.1]; omega
  have hlen : ¬ (bs.length + 1 = 0) := by omega
  have hrun2 : printstring cs win (b :: bs) = printLoop cs (bs.length + 1) wg2 (b :: bs) := by
    simp only [printstring, List.length_cons, hlen, if_false, hxw, false_and, hyh, or_self, hg2]
  obtain ⟨stop, win3, Y3, X3, hstep, hc3, he3, hY3, hY3H, _, hcol⟩ :=
    printLoop_step cs heg.shape hcg2 hY hX hb hfill bs.length
  have hcol3 : ∀ cell, cellAt win3 Y X = some cell → hasWinColours win cell := by
    intro cell hcell
    obtain ⟨e1, e2, e3⟩ := hcol hd cell hcell
    exact ⟨e1.trans heg.frame.2.2.2.2.1, e2.trans heg.frame.2.2.2.2.2.1,
      e3.trans heg.frame.2.2.2.2.2.2.1⟩
  rw [hrun2, hstep] at hrun
  cases stop with
  | true =>
    simp only [if_true, Except.ok.injEq] at hrun
    rw [← hrun]
    exact hcol3
  | false =>
    simp only [Bool.false_eq_true, if_false] at hrun
    obtain ⟨d2, t2, rest2, hfill2, hrest⟩ := fill_total cs (b :: bs) (by simp)
    rw [hfill] at hfill2
    simp only [Except.ok.injEq, Prod.mk.injEq] at hfill2
    obtain ⟨_, _, rfl⟩ := hfill2
    obtain ⟨win4, _, _, hloop, _, he4, _, _, _⟩ :=
      printLoop_gen cs H W bs.length rest win3 Y3 X3 he3.shape hc3 hY3H
        (by simp only [List.length_cons] at hrest; omega)
    rw [hloop] at hrun
    simp only [Except.ok.injEq] at hrun
    subst hrun
    intro cell hcell
    obtain ⟨cell3, hcell3, hcolr⟩ := he4.colours Y X cell hcell
    obtain ⟨e1, e2, e3⟩ := hcol3 cell3 hcell3
    obtain ⟨_, _, _, _, f1, f2, f3, _, _⟩ := heg.trans he3 |>.frame
    rcases hcolr with ⟨g1, g2, g3⟩ | ⟨g1, g2, g3⟩
    · exact ⟨g1.trans e1, g2.trans e2, g3.trans e3⟩
    · exact ⟨g1.trans f1, g2.trans f2, g3.trans f3⟩

/-- One call of `mvwaddch` with coordinates inside the grid of a well-formed
window: it returns, the window stays well-formed and keeps its drawing colours,
the cursor lands in a row of the grid, cells that had the colours of the
window keep them, and the addressed cell gets them when the glyph is drawn. -/
theorem mvwaddch_inrange (cs : Charset) (lc : LineCodes) {w w0 : WINDOW} {H W : Nat}
    (hb : sameBrush H W w0 w) {yn xn : Nat} (hy : yn < H) (hx : xn < W) (ch : Nat) :
    ∃ w2 Y2 X2, mvwaddch cs lc (some w) (yn : Int) (xn : Int) ch = .ok (some w2) ∧
      sameBrush H W w0 w2 ∧ cursorAt w2 Y2 X2 ∧ Y2 < H ∧ (2 ≤ W → cursorInRange H W Y2 X2) ∧
      (∀ r c, paintedAt w0 w r c → paintedAt w0 w2 r c) ∧
      (drawable cs (charcode lc ch) → paintedAt w0 w2 yn xn) := by
  obtain ⟨hs, hFG, hBG, hFS⟩ := hb
  have a1 : ¬ ((xn : Int) ≥ w.width) := by rw [hs.2.1]; omega
  have a2 : ¬ ((yn : Int) ≥ w.height) := by rw [hs.1]; omega
  have a3 : ¬ ((yn : Int) < 0) := by omega
  have a4 : ¬ ((xn : Int) < 0) := by omega
  have hmove : wmove_internal (some w) (yn : Int) (xn : Int) =
      (true, some { w with cursorx := (xn : Int), cursory := (yn : Int) }) := by
    simp only [wmove_internal, a1, a2, a3, a4, if_false]
  have hs1 : hasShape { w with cursorx := (xn : Int), cursory := (yn : Int) } H W := hs
  have hc1 : cursorAt { w with cursorx := (xn : Int), cursory := (yn : Int) } yn xn := ⟨rfl, rfl⟩
  obtain ⟨w2, Y2, X2, hrun, hc2, he2, _, hY2H, hr2⟩ :=
    printstring_gen cs hs1 hc1 hy (bufferText lc ch)
  obtain ⟨_, _, _, _, f1, f2, f3, _, _⟩ := he2.frame
  have hcall : mvwaddch cs lc (some w) (yn : Int) (xn : Int) ch = .ok (some w2) := by
    simp only [mvwaddch, hmove, Bool.true_eq_false, if_false, waddch, hrun, Except.map]
  refine ⟨w2, Y2, X2, hcall, ⟨he2.shape, f1.trans hFG, f2.trans hBG, f3.trans hFS⟩, hc2, hY2H,
    fun hW => hr2 hW (Or.inl hx), ?_, ?_⟩
  · intro r c hp cell hcell
    obtain ⟨cell1, hcell1, hcol⟩ := he2.colours r c cell hcell
    obtain ⟨e1, e2, e3⟩ := hp cell1 hcell1
    rcases hcol with ⟨g1, g2, g3⟩ | ⟨g1, g2, g3⟩
    · exact ⟨g1.trans e1, g2.trans e2, g3.trans e3⟩
    · exact ⟨g1.trans hFG, g2.trans hBG, g3.trans hFS⟩
  · rintro ⟨hne0, hne10, d, t, rest, hfill, hd⟩
    have htext : bufferText lc ch = [charcode lc ch] := by simp [bufferText, hne0]
    rw [htext] at hrun
    have hp := printstring_first_unit cs hs1 hc1 hy hx hne10 hfill hd hrun
    intro cell hcell
    obtain ⟨e1, e2, e3⟩ := hp cell hcell
    exact ⟨e1.trans hFG, e2.trans hBG, e3.trans hFS⟩

/-- A loop of `mvwaddch` calls along an edge: `n` turns, the turn with index
`start + i` addresses the cell at row `ys i`, column `xs i` inside the grid. -/
theorem forLoop_mvwaddch (cs : Charset) (lc : LineCodes) (w0 : WINDOW) (H W : Nat)
    (yc xc : Int → Int) (ch : Nat) (ys xs : Nat → Nat) :
    ∀ (n : Nat) (start : Int) (k : Nat) (w : WINDOW),
    (∀ i, i < n → yc (start + i) = ((ys (k + i) : Nat) : Int) ∧
      xc (start + i) = ((xs (k + i) : Nat) : Int) ∧ ys (k + i) < H ∧ xs (k + i) < W) →
    sameBrush H W w0 w →
    ∃ w2, forLoop (fun j s => mvwaddch cs lc s (yc j) (xc j) ch) n start (some w) =
        .ok (some w2) ∧ sameBrush H W w0 w2 ∧
      (∀ r c, paintedAt w0 w r c → paintedAt w0 w2 r c) ∧
      (drawable cs (charcode lc ch) → ∀ i, i < n → paintedAt w0 w2 (ys (k + i)) (xs (k + i))) := by
  intro n
  induction n with
  | zero =>
    intro start k w _ hb
    exact ⟨w, rfl, hb, fun _ _ hp => hp, fun _ i hi => absurd hi (Nat.not_lt_zero i)⟩
  | succ n ih =>
    intro start k w hpos hb
    obtain ⟨e1, e2, hy, hx⟩ := hpos 0 (Nat.succ_pos n)
    simp only [Nat.cast_zero, add_zero, Nat.add_zero] at e1 e2 hy hx
    obtain ⟨w1, _, _, hcall, hb1, _, _, _, hkeep1, hdraw1⟩ :=
      mvwaddch_inrange cs lc hb hy hx ch
    have hpos2 : ∀ i, i < n → yc (start + 1 + i) = ((ys (k + 1 + i) : Nat) : Int) ∧
        xc (start + 1 + i) = ((xs (k + 1 + i) : Nat) : Int) ∧ ys (k + 1 + i) < H ∧
        xs (k + 1 + i) < W := by
      intro i hi
      have := hpos (i + 1) (by omega)
      have e : start + ((i + 1 : Nat) : Int) = start + 1 + (i : Int) := by push_cast; ring
      have e2 : k + (i + 1) = k + 1 + i := by omega
      rw [e, e2] at this
      exact this
    obtain ⟨w2, hloop, hb2, hkeep2, hdraw2⟩ := ih (start + 1) (k + 1) w1 hpos2 hb1
    refine ⟨w2, ?_, hb2, fun r c hp => hkeep2 r c (hkeep1 r c hp), ?_⟩
    · simp only [forLoop, e1, e2, hcall]
      exact hloop
    · intro hd i hi
      cases i with
      | zero => exact hkeep2 _ _ (hdraw1 hd)
      | succ i =>
        have := hdraw2 hd i (by omega)
        have e2 : k + (i + 1) = k + 1 + i := by omega
        rw [e2]
        exact this

/-- The eight stages of `wborder` on a well-formed window with at least one
row and one column: they return a well-formed window `w8`, the result of
`wborder` is `w8` after the closing `wmove` and `wattroff`, and each edge or
corner whose glyph is drawn has the colours the window had before the call. -/
theorem wborder_spec (cs : Charset) (lc : LineCodes) {win : WINDOW} {H W : Nat}
    (h : hasShape win H W) (hH : 1 ≤ H) (hW : 1 ≤ W) (ls rs ts bs tl tr bl br : Nat) :
    ∃ w8 Y8 X8,
      wborder cs lc (some win) ls rs ts bs tl tr bl br =
        .ok (wattroff (wmove (some w8) win.cursory win.cursorx)) ∧
      sameBrush H W win w8 ∧ cursorAt w8 Y8 X8 ∧ Y8 < H ∧ (2 ≤ W → cursorInRange H W Y8 X8) ∧
      (drawable cs (charcode lc (if ls ≠ 0 then ls else lc.LINE_XOXO)) →
        ∀ j, 1 ≤ j → j + 1 < H → paintedAt win w8 j 0) ∧
      (drawable cs (charcode lc (if rs ≠ 0 then rs else lc.LINE_XOXO)) →
        ∀ j, 1 ≤ j → j + 1 < H → paintedAt win w8 j (W - 1)) ∧
      (drawable cs (charcode lc (if ts ≠ 0 then ts else lc.LINE_OXOX)) →
        ∀ i, 1 ≤ i → i + 1 < W → paintedAt win w8 0 i) ∧
      (drawable cs (charcode lc (if bs ≠ 0 then bs else lc.LINE_OXOX)) →
        ∀ i, 1 ≤ i → i + 1 < W → paintedAt win w8 (H - 1) i) ∧
      (drawable cs (charcode lc (if tl ≠ 0 then tl else lc.LINE_OXXO)) →
        paintedAt win w8 0 0) ∧
      (drawable cs (charcode lc (if tr ≠ 0 then tr else lc.LINE_OOXX)) →
        paintedAt win w8 0 (W - 1)) ∧
      (drawable cs (charcode lc (if bl ≠ 0 then bl else lc.LINE_XXOO)) →
        paintedAt win w8 (H - 1) 0) ∧
      (drawable cs (charcode lc (if br ≠ 0 then br else lc.LINE_XOOX)) →
        paintedAt win w8 (H - 1) (W - 1)) := by
  have hb0 : sameBrush H W win win := ⟨h, rfl, rfl, rfl⟩
  have hrows : (win.height - 1 - 1).toNat = H - 2 := by rw [h.1]; omega
  have hcols : (win.width - 1 - 1).toNat = W - 2 := by rw [h.2.1]; omega
  have hlastcol : win.width - 1 = ((W - 1 : Nat) : Int) := by rw [h.2.1]; omega
  have hlastrow : win.height - 1 = ((H - 1 : Nat) : Int) := by rw [h.1]; omega
  have hcast : ∀ i : Nat, (1 : Int) + (i : Int) = ((0 + i + 1 : Nat) : Int) := by
    intro i; push_cast; ring
  -- left edge
  obtain ⟨w1, hl1, hb1, _, hd1⟩ := forLoop_mvwaddch cs lc win H W (fun j => j) (fun _ => 0)
    (if ls ≠ 0 then ls else lc.LINE_XOXO) (fun i => i + 1) (fun _ => 0) (H - 2) 1 0 win
    (fun i hi => ⟨hcast i, rfl, by beta_reduce; omega, by beta_reduce; omega⟩) hb0
  -- right edge
  obtain ⟨w2, hl2, hb2, hk2, hd2⟩ := forLoop_mvwaddch cs lc win H W (fun j => j)
    (fun _ => win.width - 1) (if rs ≠ 0 then rs else lc.LINE_XOXO) (fun i => i + 1)
    (fun _ => W - 1) (H - 2) 1 0 w1
    (fun i hi => ⟨hcast i, hlastcol, by beta_reduce; omega, by beta_reduce; omega⟩) hb1
  -- top edge
  obtain ⟨w3, hl3, hb3, hk3, hd3⟩ := forLoop_mvwaddch cs lc win H W (fun _ => 0) (fun i => i)
    (if ts ≠ 0 then ts else lc.LINE_OXOX) (fun _ => 0) (fun i => i + 1) (W - 2) 1 0 w2
    (fun i hi => ⟨rfl, hcast i, by beta_reduce; omega, by beta_reduce; omega⟩) hb2
  -- bottom edge
  obtain ⟨w4, hl4, hb4, hk4, hd4⟩ := forLoop_mvwaddch cs lc win H W (fun _ => win.height - 1)
    (fun i => i) (if bs ≠ 0 then bs else lc.LINE_OXOX) (fun _ => H - 1) (fun i => i + 1)
    (W - 2) 1 0 w3
    (fun i hi => ⟨hlastrow, hcast i, by beta_reduce; omega, by beta_reduce; omega⟩) hb3
  -- the four corners
  obtain ⟨w5, _, _, hc5, hb5, _, _, _, hk5, hd5⟩ :=
    mvwaddch_inrange cs lc hb4 (show 0 < H by omega) (show 0 < W by omega)
      (if tl ≠ 0 then tl else lc.LINE_OXXO)
  obtain ⟨w6, _, _, hc6, hb6, _, _, _, hk6, hd6⟩ :=
    mvwaddch_inrange cs lc hb5 (show 0 < H by omega) (show W - 1 < W by omega)
      (if tr ≠ 0 then tr else lc.LINE_OOXX)
  obtain ⟨w7, _, _, hc7, hb7, _, _, _, hk7, hd7⟩ :=
    mvwaddch_inrange cs lc hb6 (show H - 1 < H by omega) (show 0 < W by omega)
      (if bl ≠ 0 then bl else lc.LINE_XXOO)
  obtain ⟨w8, Y8, X8, hc8, hb8, hcur8, hY8, hr8, hk8, hd8⟩ :=
    mvwaddch_inrange cs lc hb7 (show H - 1 < H by omega) (show W - 1 < W by omega)
      (if br ≠ 0 then br else lc.LINE_XOOX)
  have hk48 : ∀ r c, paintedAt win w4 r c → paintedAt win w8 r c :=
    fun r c hp => hk8 r c (hk7 r c (hk6 r c (hk5 r c hp)))
  refine ⟨w8, Y8, X8, ?_, hb8, hcur8, hY8, hr8, ?_, ?_, ?_, ?_, ?_, ?_, ?_, hd8⟩
  · simp only [Nat.cast_zero, Nat.cast_ofNat] at hc5 hc6 hc7 hc8
    rw [← hlastcol] at hc6 hc8
    rw [← hlastrow] at hc7 hc8
    simp only [wborder, bind, Except.bind, hrows, hcols, hl1, hl2, hl3, hl4, hc5, hc6, hc7, hc8,
      pure, Except.pure]
  · intro hd j hj1 hj2
    have := hd1 hd (j - 1) (by omega)
    have e : 0 + (j - 1) + 1 = j := by omega
    simp only [e] at this
    exact hk48 _ _ (hk4 _ _ (hk3 _ _ (hk2 _ _ this)))
  · intro hd j hj1 hj2
    have := hd2 hd (j - 1) (by omega)
    have e : 0 + (j - 1) + 1 = j := by omega
    simp only [e] at this
    exact hk48 _ _ (hk4 _ _ (hk3 _ _ this))
  · intro hd i hi1 hi2
    have := hd3 hd (i - 1) (by omega)
    have e : 0 + (i - 1) + 1 = i := by omega
    simp only [e] at this
    exact hk48 _ _ (hk4 _ _ this)
  · intro hd i hi1 hi2
    have := hd4 hd (i - 1) (by omega)
    have e : 0 + (i - 1) + 1 = i := by omega
    simp only [e] at this
    exact hk48 _ _ this
  · intro hd
    exact hk8 _ _ (hk7 _ _ (hk6 _ _ (hd5 hd)))
  · intro hd
    exact hk8 _ _ (hk7 _ _ (hd6 hd))
  · intro hd
    exact hk8 _ _ (hd7 hd)

theorem cursorInvariant_of_range {w : WINDOW} {H W Y X : Nat} (h : hasShape w H W)
    (hc : cursorAt w Y X) (hY : Y < H) (hr : cursorInRange H W Y X) : cursorInvariant w := by
  unfold cursorInvariant
  rw [hc.1, hc.2, h.1, h.2.1]
  rcases hr with hlt | ⟨rfl, hend⟩
  · refine ⟨by omega, by omega, by omega, by omega, fun hh => by omega⟩
  · refine ⟨by omega, by omega, by omega, by omega, fun _ => by omega⟩

theorem range_of_cursorInvariant {w : WINDOW} {H W : Nat} (h : hasShape w H W)
    (hinv : cursorInvariant w) :
    ∃ Y X, cursorAt w Y X ∧ Y < H ∧ cursorInRange H W Y X := by
  obtain ⟨h1, h2, h3, h4, h5⟩ := hinv
  rw [h.1] at h2 h5
  rw [h.2.1] at h4 h5
  refine ⟨w.cursory.toNat, w.cursorx.toNat, ⟨(Int.toNat_of_nonneg h1).symm,
    (Int.toNat_of_nonneg h3).symm⟩, by omega, ?_⟩
  by_cases hx : w.cursorx = (W : Int)
  · have := h5 hx
    exact Or.inr ⟨by omega, by omega⟩
  · exact Or.inl (by omega)

/-- The closing `wmove` and `wattroff` of `wborder` keep the grid and put the
cursor back when the old position is inside the grid. -/
theorem wborder_closing (w8 : WINDOW) (oldy oldx : Int) :
    ∃ w9, wattroff (wmove (some w8) oldy oldx) = some w9 ∧ w9.line = w8.line ∧
      w9.width = w8.width ∧ w9.height = w8.height ∧ w9.FG = 8 ∧ w9.BG = black ∧
      ((0 ≤ oldx ∧ oldx < w8.width ∧ 0 ≤ oldy ∧ oldy < w8.height) →
        w9.cursorx = oldx ∧ w9.cursory = oldy) ∧
      (¬ (0 ≤ oldx ∧ oldx < w8.width ∧ 0 ≤ oldy ∧ oldy < w8.height) →
        w9.cursorx = w8.cursorx ∧ w9.cursory = w8.cursory) := by
  by_cases hin : 0 ≤ oldx ∧ oldx < w8.width ∧ 0 ≤ oldy ∧ oldy < w8.height
  · have a1 : ¬ (oldx ≥ w8.width) := by omega
    have a2 : ¬ (oldy ≥ w8.height) := by omega
    have a3 : ¬ (oldy < 0) := by omega
    have a4 : ¬ (oldx < 0) := by omega
    have hok : wmove_internal (some w8) oldy oldx =
        (true, some { w8 with cursorx := oldx, cursory := oldy }) := by
      simp only [wmove_internal, a1, a2, a3, a4, if_false]
    have hres : wattroff (wmove (some w8) oldy oldx) =
        some { w8 with cursorx := oldx, cursory := oldy, FG := 8, BG := black,
                       FS := { w8.FS with bold := false, italic := false, underline := false } } := by
      simp only [wmove, hok, wattroff]
      rfl
    exact ⟨_, hres, rfl, rfl, rfl, rfl, rfl, fun _ => ⟨rfl, rfl⟩, fun hn => absurd hin hn⟩
  · have hfail : wmove_internal (some w8) oldy oldx = (false, some w8) := by
      simp only [wmove_internal]
      split_ifs <;> first | rfl | (exfalso; omega)
    have hres : wattroff (wmove (some w8) oldy oldx) =
        some { w8 with FG := 8, BG := black,
                       FS := { w8.FS with bold := false, italic := false, underline := false } } := by
      simp only [wmove, hfail, wattroff]
      rfl
    exact ⟨_, hres, rfl, rfl, rfl, rfl, rfl, fun hy => absurd hy hin, fun _ => ⟨rfl, rfl⟩⟩

/-- On a non-null well-formed window of width and height at least 2, when each
of the eight glyphs (a glyph 0 replaced by its default) is a character that
`printstring` draws, `wborder` returns and every cell on the perimeter carries
the foreground, background and style that the window had when `wborder` was
called; the window's own foreground and background are reset (to 8 and black)
when the call ends. -/
theorem wborder_perimeter_colours (cs : Charset) (lc : LineCodes) (win : WINDOW)
    (h w : Nat) (hwin : hasShape win h w) (hw : 2 ≤ w) (hh : 2 ≤ h)
    (ls rs ts bs tl tr bl br : Nat)
    (hls : drawable cs (charcode lc (if ls ≠ 0 then ls else lc.LINE_XOXO)))
    (hrs : drawable cs (charcode lc (if rs ≠ 0 then rs else lc.LINE_XOXO)))
    (hts : drawable cs (charcode lc (if ts ≠ 0 then ts else lc.LINE_OXOX)))
    (hbs : drawable cs (charcode lc (if bs ≠ 0 then bs else lc.LINE_OXOX)))
    (htl : drawable cs (charcode lc (if tl ≠ 0 then tl else lc.LINE_OXXO)))
    (htr : drawable cs (charcode lc (if tr ≠ 0 then tr else lc.LINE_OOXX)))
    (hbl : drawable cs (charcode lc (if bl ≠ 0 then bl else lc.LINE_XXOO)))
    (hbr : drawable cs (charcode lc (if br ≠ 0 then br else lc.LINE_XOOX))) :
    ∃ win2, wborder cs lc (some win) ls rs ts bs tl tr bl br = .ok (some win2) ∧
      (∀ r c, r < h → c < w → (r = 0 ∨ r = h - 1 ∨ c = 0 ∨ c = w - 1) →
        ∃ cell, cellAt win2 r c = some cell ∧
          cell.FG = win.FG ∧ cell.BG = win.BG ∧ cell.FS = win.FS) ∧
      win2.FG = 8 ∧ win2.BG = black := by
  obtain ⟨w8, _, _, hrun, hb8, _, _, _, p1, p2, p3, p4, p5, p6, p7, p8⟩ :=
    wborder_spec cs lc hwin (by omega) (by omega) ls rs ts bs tl tr bl br
  obtain ⟨w9, hclose, hline, _, _, hFG, hBG, _, _⟩ :=
    wborder_closing w8 win.cursory win.cursorx
  have hcells : ∀ r c, cellAt w9 r c = cellAt w8 r c := by
    intro r c; simp only [cellAt, hline]
  refine ⟨w9, by rw [hrun, hclose], ?_, hFG, hBG⟩
  intro r c hr hc hper
  obtain ⟨cell, hcell⟩ := cellAt_isSome hb8.1 hr hc
  have hp : paintedAt win w8 r c := by
    by_cases hr0 : r = 0
    · subst hr0
      by_cases hc0 : c = 0
      · subst hc0; exact p5 htl
      · by_cases hcl : c = w - 1
        · subst hcl; exact p6 htr
        · exact p3 hts c (by omega) (by omega)
    · by_cases hrl : r = h - 1
      · subst hrl
        by_cases hc0 : c = 0
        · subst hc0; exact p7 hbl
        · by_cases hcl : c = w - 1
          · subst hcl; exact p8 hbr
          · exact p4 hbs c (by omega) (by omega)
      · by_cases hc0 : c = 0
        · subst hc0; exact p1 hls r (by omega) (by omega)
        · have hcl : c = w - 1 := by omega
          subst hcl; exact p2 hrs r (by omega) (by omega)
  exact ⟨cell, (hcells r c).trans hcell, hp cell hcell⟩

/-- The function `wmove_internal` either fails and leaves the window as it is, or
succeeds for a position inside the grid and sets the cursor. -/
theorem wmove_internal_cases (win : WINDOW) (y x : Int) :
    wmove_internal (some win) y x = (false, some win) ∨
      ((0 ≤ x ∧ x < win.width ∧ 0 ≤ y ∧ y < win.height) ∧
        wmove_internal (some win) y x = (true, some { win with cursorx := x, cursory := y })) := by
  by_cases hin : 0 ≤ x ∧ x < win.width ∧ 0 ≤ y ∧ y < win.height
  · have a1 : ¬ (x ≥ win.width) := by omega
    have a2 : ¬ (y ≥ win.height) := by omega
    have a3 : ¬ (y < 0) := by omega
    have a4 : ¬ (x < 0) := by omega
    exact Or.inr ⟨hin, by simp only [wmove_internal, a1, a2, a3, a4, if_false]⟩
  · refine Or.inl ?_
    simp only [wmove_internal]
    split_ifs <;> first | rfl | (exfalso; omega)

/-- A window with the cursor set to a position inside the grid satisfies the
cursor-range invariant. -/
theorem cursorInvariant_inside {win : WINDOW} {y x : Int}
    (hin : 0 ≤ x ∧ x < win.width ∧ 0 ≤ y ∧ y < win.height) :
    cursorInvariant { win with cursorx := x, cursory := y } := by
  unfold cursorInvariant
  refine ⟨hin.2.2.1, hin.2.2.2, hin.1, ?_, ?_⟩
  · show x ≤ win.width
    omega
  · intro hx
    have hx2 : x = win.width := hx
    omega

/-- Writing a text keeps the shape of the grid and the cursor-range invariant. -/
theorem printstring_invariant (cs : Charset) {win : WINDOW} {H W : Nat} (h : hasShape win H W)
    (hW : 2 ≤ W) (hinv : cursorInvariant win) (text : List Nat) :
    ∃ win2, printstring cs win text = .ok win2 ∧ hasShape win2 H W ∧ cursorInvariant win2 := by
  obtain ⟨Y, X, hc, hY, hr⟩ := range_of_cursorInvariant h hinv
  obtain ⟨win2, Y2, X2, hrun, hc2, he, _, hY2, hr2⟩ := printstring_gen cs h hc hY text
  exact ⟨win2, hrun, he.shape, cursorInvariant_of_range he.shape hc2 hY2 (hr2 hW hr)⟩

/-- The function `werase` keeps the shape of the grid and leaves the cursor at
(0,0). -/
theorem werase_invariant {win : WINDOW} {H W : Nat} (h : hasShape win H W) (hW : 1 ≤ W)
    (hH : 1 ≤ H) :
    ∃ win2, werase (some win) = .ok (some win2) ∧ hasShape win2 H W ∧ cursorInvariant win2 := by
  have hhn : win.height.toNat = H := by rw [h.1]; simp
  obtain ⟨w2, hrun, hs2, _, _, _, _⟩ := eraseLoop_spec H 0 win H W h (by omega)
  have hin : (0 : Int) ≤ 0 ∧ (0 : Int) < w2.width ∧ (0 : Int) ≤ 0 ∧ (0 : Int) < w2.height := by
    rw [hs2.2.1, hs2.1]; omega
  have hmove : wmove (some { w2 with draw := true }) 0 0 =
      some { w2 with draw := true, cursorx := 0, cursory := 0 } := by
    have a1 : ¬ ((0 : Int) ≥ w2.width) := by omega
    have a2 : ¬ ((0 : Int) ≥ w2.height) := by omega
    simp [wmove, wmove_internal, a1, a2]
  refine ⟨{ w2 with draw := true, cursorx := 0, cursory := 0 }, ?_, hs2, ?_⟩
  · simp only [werase, hhn, hrun, hmove, handle_additional_window_clear]
  · exact cursorInvariant_inside (show (0 : Int) ≤ 0 ∧ (0 : Int) < ({ w2 with draw := true } : WINDOW).width ∧
      (0 : Int) ≤ 0 ∧ (0 : Int) < ({ w2 with draw := true } : WINDOW).height from hin)

theorem codeWidth_range (cs : Charset)
    (hw : ∀ ch, -1 ≤ cs.mk_wcwidth ch ∧ cs.mk_wcwidth ch ≤ 2) (ch : Nat) :
    -1 ≤ codeWidth cs ch ∧ codeWidth cs ch ≤ 2 := by
  unfold codeWidth
  split_ifs
  · omega
  · exact hw ch

theorem decodeCodes_append (cs : Charset) (ch : Nat) : ∀ (codes : List Nat) (bytes tmp : List Nat),
    decodeCodes cs codes bytes = some tmp → tmp ≠ [] → (cs.UTF8_getch tmp).1 = ch →
    decodeCodes cs (codes ++ [ch]) bytes = some (tmp.drop (cs.UTF8_getch tmp).2) := by
  intro codes
  induction codes with
  | nil =>
    intro bytes tmp h hne hch
    simp only [decodeCodes, Option.some.injEq] at h
    subst h
    simp only [List.nil_append, decodeCodes, ne_eq, hne, not_false_eq_true, hch, and_self,
      if_true]
  | cons c more ih =>
    intro bytes tmp h hne hch
    simp only [List.cons_append, decodeCodes] at h ⊢
    by_cases hc : bytes ≠ [] ∧ (cs.UTF8_getch bytes).1 = c
    · rw [if_pos hc] at h ⊢
      exact ih _ tmp h hne hch
    · rw [if_neg hc] at h
      exact absurd h (by simp)

/-- The loop of `fill` once the unit holds a code point: it returns, the unit
and the remaining input make up the input, and the code points taken into the
unit are no control characters, with at most one of a positive width. -/
theorem fillLoop_unit (cs : Charset) (hw : ∀ ch, -1 ≤ cs.mk_wcwidth ch ∧ cs.mk_wcwidth ch ≤ 2)
    (fmt0 : List Nat) : ∀ (fuel : Nat) (taken tmp : List Nat) (dlen : Int) (codes : List Nat),
    tmp.length ≤ fuel → taken ≠ [] → taken ++ tmp = fmt0 →
    decodeCodes cs codes fmt0 = some tmp → unitCodes cs codes dlen →
    ∃ d t r codes2, fillLoop cs fuel taken tmp dlen = .ok (d, t, r) ∧ t ++ r = fmt0 ∧
      decodeCodes cs codes2 fmt0 = some r ∧ codes <+: codes2 ∧ unitCodes cs codes2 d ∧
      (r = [] ∨ codeWidth cs (cs.UTF8_getch r).1 = -1 ∨
        (0 < codeWidth cs (cs.UTF8_getch r).1 ∧ 0 < d)) := by
  intro fuel
  induction fuel with
  | zero =>
    intro taken tmp dlen codes hlen _ happ hdec hu
    cases tmp with
    | nil =>
      exact ⟨dlen, taken, [], codes, by simp [fillLoop], happ, hdec, List.prefix_refl _, hu,
        Or.inl rfl⟩
    | cons b bs => simp at hlen
  | succ fuel ih =>
    intro taken tmp dlen codes hlen hne happ hdec hu
    cases tmp with
    | nil =>
      exact ⟨dlen, taken, [], codes, by simp [fillLoop], happ, hdec, List.prefix_refl _, hu,
        Or.inl rfl⟩
    | cons b bs =>
      have hk1 := cs.advance_pos (b :: bs) (by simp)
      have hk2 := cs.advance_le (b :: bs)
      have hdrop : ((b :: bs).drop (cs.UTF8_getch (b :: bs)).2).length < (b :: bs).length := by
        rw [List.length_drop]; simp only [List.length_cons] at hk2 ⊢; omega
      have hrange := codeWidth_range cs hw (cs.UTF8_getch (b :: bs)).1
      simp only [fillLoop]
      generalize hcw : (if (cs.UTF8_getch (b :: bs)).1 = UNKNOWN_UNICODE then (1 : Int)
        else cs.mk_wcwidth (cs.UTF8_getch (b :: bs)).1) = cw
      have hcw2 : codeWidth cs (cs.UTF8_getch (b :: bs)).1 = cw := hcw
      rw [hcw2] at hrange
      by_cases c1 : cw > 0 ∧ dlen > 0
      · rw [if_pos c1]
        exact ⟨_, _, _, codes, rfl, happ, hdec, List.prefix_refl _, hu,
          Or.inr (Or.inr ⟨by rw [hcw2]; exact c1.1, c1.2⟩)⟩
      · rw [if_neg c1]
        have c2 : ¬ (cw = -1 ∧ taken = []) := fun hh => hne hh.2
        rw [if_neg c2]
        by_cases c3 : cw = -1
        · rw [if_pos c3]
          exact ⟨_, _, _, codes, rfl, happ, hdec, List.prefix_refl _, hu,
            Or.inr (Or.inl (by rw [hcw2]; exact c3))⟩
        · rw [if_neg c3]
          have hu2 : unitCodes cs (codes ++ [(cs.UTF8_getch (b :: bs)).1]) (dlen + cw) := by
            have hlo := hu.lo
            have hhi := hu.hi
            refine ⟨?_, ?_, ?_, ?_, by omega, ?_⟩
            · intro ch hch
              rcases List.mem_append.1 hch with hm | hm
              · exact hu.nonneg ch hm
              · simp only [List.mem_singleton] at hm
                rw [hm, hcw2]; omega
            · rw [List.countP_append]
              by_cases hpos : 0 < cw
              · have hd0 : dlen = 0 := by omega
                rw [hu.zero hd0]
                simp [List.countP_cons, hcw2, hpos]
              · have := hu.one
                simp [List.countP_cons, hcw2, hpos]
                exact this
            · intro hz
              have hd0 : dlen = 0 := by omega
              have hc0 : ¬ (0 < cw) := by omega
              rw [List.countP_append, hu.zero hd0]
              simp [List.countP_cons, hcw2, hc0]
            · rw [List.map_append, List.sum_append, ← hu.sum]
              simp [hcw2]
            · by_cases hpos : 0 < cw
              · have hd0 : dlen = 0 := by omega
                omega
              · omega
          obtain ⟨d, t, r, codes2, hrun, happ2, hdec2, hpre, hu3, hstop⟩ :=
            ih (taken ++ (b :: bs).take (cs.UTF8_getch (b :: bs)).2)
              ((b :: bs).drop (cs.UTF8_getch (b :: bs)).2) (dlen + cw)
              (codes ++ [(cs.UTF8_getch (b :: bs)).1])
              (by simp only [List.length_cons] at hlen hdrop; omega)
              (by simp [hne])
              (by rw [List.append_assoc, List.take_append_drop]; exact happ)
              (decodeCodes_append cs _ codes fmt0 (b :: bs) hdec (by simp) rfl)
              hu2
          exact ⟨d, t, r, codes2, hrun, happ2, hdec2,
            (List.prefix_append codes _).trans hpre, hu3, hstop⟩

/-! ## The claims -/

/-- C1: on a non-null window, `move` (`wmove_internal`) reports success exactly
when `0 ≤ x < width` and `0 ≤ y < height`; on success the window is the old one
with the cursor at `(x, y)`; on failure the window is unchanged, and `writeAt`
(`mvwprintw`) with the same coordinates and any text returns the window
unchanged (cursor, cells, touched flags and content flag). -/
theorem C1_move_succeeds_iff_in_range (cs : Charset) (win : WINDOW) (y x : Int)
    (text : List Nat) :
    ((wmove_internal (some win) y x).1 = true ↔
        (0 ≤ x ∧ x < win.width ∧ 0 ≤ y ∧ y < win.height)) ∧
      ((0 ≤ x ∧ x < win.width ∧ 0 ≤ y ∧ y < win.height) →
        wmove_internal (some win) y x = (true, some { win with cursorx := x, cursory := y })) ∧
      (¬ (0 ≤ x ∧ x < win.width ∧ 0 ≤ y ∧ y < win.height) →
        wmove_internal (some win) y x = (false, some win) ∧
        mvwprintw cs (some win) y x text = .ok (some win)) := by
  by_cases h1 : x ≥ win.width
  · have hn : ¬ (0 ≤ x ∧ x < win.width ∧ 0 ≤ y ∧ y < win.height) := by omega
    simp [wmove_internal, mvwprintw, h1, hn]
  · by_cases h2 : y ≥ win.height
    · have hn : ¬ (0 ≤ x ∧ x < win.width ∧ 0 ≤ y ∧ y < win.height) := by omega
      simp [wmove_internal, mvwprintw, h1, h2, hn]
    · by_cases h3 : y < 0
      · have hn : ¬ (0 ≤ x ∧ x < win.width ∧ 0 ≤ y ∧ y < win.height) := by omega
        simp [wmove_internal, mvwprintw, h1, h2, h3, hn]
      · by_cases h4 : x < 0
        · have hn : ¬ (0 ≤ x ∧ x < win.width ∧ 0 ≤ y ∧ y < win.height) := by omega
          simp [wmove_internal, mvwprintw, h1, h2, h3, h4, hn]
        · have hp : 0 ≤ x ∧ x < win.width ∧ 0 ≤ y ∧ y < win.height := by omega
          simp [wmove_internal, h1, h2, h3, h4, hp]

/-- The statement of C1 at `exampleWindow` with the out-of-range row 5. -/
theorem C1_witness :
    ((wmove_internal (some exampleWindow) 5 1).1 = true ↔
        (0 ≤ (1 : Int) ∧ (1 : Int) < exampleWindow.width ∧ 0 ≤ (5 : Int) ∧
          (5 : Int) < exampleWindow.height)) ∧
      ((0 ≤ (1 : Int) ∧ (1 : Int) < exampleWindow.width ∧ 0 ≤ (5 : Int) ∧
          (5 : Int) < exampleWindow.height) →
        wmove_internal (some exampleWindow) 5 1 =
          (true, some { exampleWindow with cursorx := 1, cursory := 5 })) ∧
      (¬ (0 ≤ (1 : Int) ∧ (1 : Int) < exampleWindow.width ∧ 0 ≤ (5 : Int) ∧
          (5 : Int) < exampleWindow.height) →
        wmove_internal (some exampleWindow) 5 1 = (false, some exampleWindow) ∧
        mvwprintw stdCharset (some exampleWindow) 5 1 [72, 105] = .ok (some exampleWindow)) :=
  C1_move_succeeds_iff_in_range stdCharset exampleWindow 5 1 [72, 105]

/-- C2: on a non-null window, `write(handle, "")` returns the window with the
content flag set and every other field as it was: the cursor, the text and
colours of every cell and the touched flag of every line. -/
theorem C2_empty_write_sets_only_draw (cs : Charset) (win : WINDOW) :
    wprintw cs (some win) [] = .ok (some { win with draw := true }) ∧
      printstring cs win [] = .ok { win with draw := true } := by
  constructor <;> simp [wprintw, printstring, Except.map]

/-- C3 (amended): writing "ABCDE" into a newly created window of 3 columns and
2 rows returns with row 0 = 'A','B','C', row 1 = 'D','E' followed by a cell
that is no longer empty, and the cursor at row 1, column 2. In general, for a
window whose cells are all empty and a string of `n < width * height` printable
ASCII characters written from (0,0): the cell at row-major position `k < n`
holds `s[k]`, every cell at a row-major position greater than `n` still holds
the empty string, the cell at position `n` (the one under the cursor after the
write) is not empty when `n ≥ 1`, and the cursor is at row `n / width`, column
`n % width`. -/
theorem C3_ascii_write_on_empty_window (cs : Charset) (hcs : asciiCharset cs) :
    (∀ (TERMX TERMY : Int) (win0 : WINDOW), newwin TERMX TERMY 2 3 0 0 = .ok (some win0) →
      ∃ win2, printstring cs win0 [65, 66, 67, 68, 69] = .ok win2 ∧
        (cellAt win2 0 0).map (fun cell => cell.ch) = some [65] ∧
        (cellAt win2 0 1).map (fun cell => cell.ch) = some [66] ∧
        (cellAt win2 0 2).map (fun cell => cell.ch) = some [67] ∧
        (cellAt win2 1 0).map (fun cell => cell.ch) = some [68] ∧
        (cellAt win2 1 1).map (fun cell => cell.ch) = some [69] ∧
        (∃ cell, cellAt win2 1 2 = some cell ∧ cell.ch ≠ []) ∧
        win2.cursory = 1 ∧ win2.cursorx = 2) ∧
    (∀ (win : WINDOW) (h w : Nat) (s : List Nat), hasShape win h w → cursorAt win 0 0 →
      allEmpty win → (∀ b ∈ s, printable b) → s.length < w * h →
      ∃ win2, printstring cs win s = .ok win2 ∧
        (∀ k (hk : k < s.length),
          (cellAt win2 (k / w) (k % w)).map (fun cell => cell.ch) = some [s[k]]) ∧
        (∀ r c, r < h → c < w → s.length < r * w + c →
          (cellAt win2 r c).map (fun cell => cell.ch) = some []) ∧
        (0 < s.length →
          ∃ cell, cellAt win2 (s.length / w) (s.length % w) = some cell ∧ cell.ch ≠ []) ∧
        win2.cursory = ((s.length / w : Nat) : Int) ∧
        win2.cursorx = ((s.length % w : Nat) : Int)) := by
  have gen : ∀ (win : WINDOW) (h w : Nat) (s : List Nat), hasShape win h w → cursorAt win 0 0 →
      allEmpty win → (∀ b ∈ s, printable b) → s.length < w * h →
      ∃ win2, printstring cs win s = .ok win2 ∧
        (∀ k (hk : k < s.length),
          (cellAt win2 (k / w) (k % w)).map (fun cell => cell.ch) = some [s[k]]) ∧
        (∀ r c, r < h → c < w → s.length < r * w + c →
          (cellAt win2 r c).map (fun cell => cell.ch) = some []) ∧
        (0 < s.length →
          ∃ cell, cellAt win2 (s.length / w) (s.length % w) = some cell ∧ cell.ch ≠ []) ∧
        win2.cursory = ((s.length / w : Nat) : Int) ∧
        win2.cursorx = ((s.length % w : Nat) : Int) := by
    intro win h w s hwin hcur hempty hs hlen
    have hcomm : w * h = h * w := Nat.mul_comm w h
    rw [hcomm] at hlen
    have hw : 0 < w := by
      rcases Nat.eq_zero_or_pos w with h0 | h0
      · subst h0; simp at hlen
      · exact h0
    have hh : 0 < h := by
      rcases Nat.eq_zero_or_pos h with h0 | h0
      · subst h0; simp at hlen
      · exact h0
    cases s with
    | nil =>
      refine ⟨{ win with draw := true }, by simp [printstring], ?_, ?_, ?_, ?_, ?_⟩
      · intro k hk; simp at hk
      · intro r c hr hc _
        obtain ⟨cell, hcell⟩ := cellAt_isSome hwin hr hc
        have hcell' : cellAt { win with draw := true } r c = some cell := hcell
        rw [hcell']
        simp [allEmpty_cellAt hempty hcell]
      · intro h0; simp at h0
      · simp only [List.length_nil, Nat.zero_div]; exact hcur.1
      · simp only [List.length_nil, Nat.zero_mod]; exact hcur.2
    | cons b s0 =>
      obtain ⟨wg, hstart, hsg, hcg, hfg, hcellsg, _⟩ :=
        printstring_inside cs hwin hcur hh hw (b :: s0) (by simp)
      have hcellsg' : ∀ r c, cellAt wg r c = cellAt win r c := by
        intro r c
        rw [hcellsg, if_neg (by omega)]
      obtain ⟨win2, Y2, X2, _, hc2, _, hY2, hidx, hX2, hrun, hcells⟩ :=
        printLoop_ascii_run hcs (b :: s0) hs wg h w 0 0 [] (b :: s0).length hsg hcg hh hw
          (by simp) (by simp)
      simp only [Nat.zero_mul, Nat.zero_add, Nat.add_zero, List.append_nil, Nat.sub_zero,
        Nat.not_lt_zero, if_false] at hidx hrun hcells
      rw [if_pos hlen] at hrun
      rw [Nat.min_eq_left (Nat.le_of_lt hlen)] at hidx
      have hres : printstring cs win (b :: s0) = .ok win2 := by
        rw [hstart, hrun]
        cases (b :: s0).length - (b :: s0).length <;> rfl
      have hX2' : X2 < w := by
        rcases hX2 with hlt | ⟨rfl, hend⟩
        · exact hlt
        · exfalso
          have : (Y2 + 1) * X2 = Y2 * X2 + X2 := Nat.succ_mul _ _
          rw [hend] at this
          omega
      obtain ⟨e1, e2⟩ := idx_div_mod (r := Y2) hX2'
      rw [hidx] at e1 e2
      refine ⟨win2, hres, ?_, ?_, ?_, ?_, ?_⟩
      · intro k hk
        obtain ⟨d1, d2, d3⟩ := div_mod_idx (Nat.lt_trans hk hlen)
        rw [hcells _ _ d1 d2, d3, if_pos hk, List.getElem?_eq_getElem hk]
        rfl
      · intro r c hr hc hgt
        obtain ⟨cell, hcell⟩ := cellAt_isSome hwin hr hc
        rw [hcells r c hr hc, if_neg (by omega), if_neg (by omega), hcellsg', hcell]
        simp [allEmpty_cellAt hempty hcell]
      · intro _
        obtain ⟨d1, d2, d3⟩ := div_mod_idx hlen
        obtain ⟨cell, hcell⟩ := cellAt_isSome hwin d1 d2
        refine ⟨blankIfEmpty cell, ?_, ?_⟩
        · rw [hcells _ _ d1 d2, d3, if_neg (by omega), if_pos ⟨rfl, by simp⟩, hcellsg', hcell]
          rfl
        · simp [blankIfEmpty, allEmpty_cellAt hempty hcell, assign_space_1]
      · rw [e1]; exact hc2.1
      · rw [e2]; exact hc2.2
  refine ⟨?_, gen⟩
  intro TERMX TERMY win0 hnew
  have hwin0 : win0 = exampleEmpty := by
    simp [newwin] at hnew
    rw [← hnew]
    rfl
  subst hwin0
  obtain ⟨win2, hres, hk, _, hn, hy, hx⟩ := gen exampleEmpty 2 3 [65, 66, 67, 68, 69]
    (by decide) (by decide) (by decide) (by decide) (by decide)
  exact ⟨win2, hres, hk 0 (by decide), hk 1 (by decide), hk 2 (by decide), hk 3 (by decide),
    hk 4 (by decide), hn (by decide), hy, hx⟩

/-- The amended statement of C3 for the standard character set: "ABCDE" written
into the newly created window of 3 columns and 2 rows. -/
theorem C3_witness :
    asciiCharset stdCharset ∧
    ∃ win2, printstring stdCharset exampleEmpty [65, 66, 67, 68, 69] = .ok win2 ∧
      (cellAt win2 0 0).map (fun cell => cell.ch) = some [65] ∧
      (cellAt win2 0 1).map (fun cell => cell.ch) = some [66] ∧
      (cellAt win2 0 2).map (fun cell => cell.ch) = some [67] ∧
      (cellAt win2 1 0).map (fun cell => cell.ch) = some [68] ∧
      (cellAt win2 1 1).map (fun cell => cell.ch) = some [69] ∧
      (∃ cell, cellAt win2 1 2 = some cell ∧ cell.ch ≠ []) ∧
      win2.cursory = 1 ∧ win2.cursorx = 2 :=
  ⟨stdCharset_ascii,
    (C3_ascii_write_on_empty_window stdCharset stdCharset_ascii).1 80 24 exampleEmpty rfl⟩

/-- C3 (as stated) fails: after writing "ABCDE" into a newly created window of
3 columns and 2 rows, the third cell of row 1 does not hold the empty string. -/
theorem C3_counterexample :
    ∃ win2, newwin 80 24 2 3 0 0 = .ok (some exampleEmpty) ∧
      printstring stdCharset exampleEmpty [65, 66, 67, 68, 69] = .ok win2 ∧
      (cellAt win2 1 2).map (fun cell => cell.ch) = some assign_space_1 ∧
      (cellAt win2 1 2).map (fun cell => cell.ch) ≠ some [] :=
  ⟨_, rfl, rfl, rfl, by decide⟩

/-- C4: on a well-formed window of width `w` and height `h` with the cursor at
`(y, x)` inside the grid, writing a string `s` of printable ASCII characters
returns; with `p = y * w + x`, every cell at row-major position `p + k` for
`k < min (length s) (w * h - p)` then holds exactly the one-character text
`s[k]` with the foreground, background and style of the window; the cursor ends
at row `(p + n) / w`, column `(p + n) % w` when `p + n < w * h`, and otherwise
the rest of the string is dropped and the cursor ends at row `h - 1`, column `w`. -/
theorem C4_ascii_write_fills_cells (cs : Charset) (hcs : asciiCharset cs) (win : WINDOW)
    (h w y x : Nat) (hwin : hasShape win h w) (hcur : cursorAt win y x) (hy : y < h)
    (hx : x < w) (s : List Nat) (hs : ∀ b ∈ s, printable b) :
    ∃ win2, printstring cs win s = .ok win2 ∧
      (∀ k (hk : k < s.length), k < w * h - (y * w + x) →
        cellAt win2 ((y * w + x + k) / w) ((y * w + x + k) % w) =
          some ⟨[s[k]], win.FG, win.BG, win.FS⟩) ∧
      (y * w + x + s.length < w * h →
        win2.cursory = (((y * w + x + s.length) / w : Nat) : Int) ∧
        win2.cursorx = (((y * w + x + s.length) % w : Nat) : Int)) ∧
      (w * h ≤ y * w + x + s.length →
        win2.cursory = ((h - 1 : Nat) : Int) ∧ win2.cursorx = (w : Int)) := by
  have hp := idx_lt hy hx
  have hcomm : w * h = h * w := Nat.mul_comm w h
  rw [hcomm]
  cases s with
  | nil =>
    refine ⟨{ win with draw := true }, by simp [printstring], ?_, ?_, ?_⟩
    · intro k hk; simp at hk
    · intro _
      obtain ⟨e1, e2⟩ := idx_div_mod (r := y) hx
      simp only [List.length_nil, Nat.add_zero, e1, e2]
      exact hcur
    · intro hle; simp at hle; omega
  | cons b s0 =>
    obtain ⟨wg, hstart, hsg, hcg, hfg, _, _⟩ :=
      printstring_inside cs hwin hcur hy hx (b :: s0) (by simp)
    obtain ⟨win2, Y2, X2, _, hc2, _, hY2, hidx, hX2, hrun, hcells⟩ :=
      printLoop_ascii_run hcs (b :: s0) hs wg h w y x [] (b :: s0).length hsg hcg hy hx
        (by simp) (by simp)
    have hres : printstring cs win (b :: s0) = .ok win2 := by
      rw [hstart]
      by_cases hfit : y * w + x + (b :: s0).length < h * w
      · rw [if_pos hfit, List.append_nil] at hrun
        rw [hrun]
        cases (b :: s0).length - (b :: s0).length <;> rfl
      · rw [if_neg hfit, List.append_nil] at hrun
        exact hrun
    refine ⟨win2, hres, ?_, ?_, ?_⟩
    · intro k hk hk2
      have hi : y * w + x + k < h * w := by omega
      obtain ⟨d1, d2, d3⟩ := div_mod_idx hi
      rw [hcells _ _ d1 d2, d3]
      have a1 : ¬ (y * w + x + k < y * w + x) := by omega
      have a2 : y * w + x + k < y * w + x + (b :: s0).length := by omega
      have a3 : y * w + x + k - (y * w + x) = k := by omega
      rw [if_neg a1, if_pos a2, a3, List.getElem?_eq_getElem hk, hfg.2.2.2.2.1,
        hfg.2.2.2.2.2.1, hfg.2.2.2.2.2.2.1]
      rfl
    · intro hfit
      rw [Nat.min_eq_left (Nat.le_of_lt hfit)] at hidx
      have hX2' : X2 < w := by
        rcases hX2 with hlt | ⟨rfl, hend⟩
        · exact hlt
        · exfalso
          have : (Y2 + 1) * X2 = Y2 * X2 + X2 := Nat.succ_mul _ _
          rw [hend] at this
          omega
      obtain ⟨e1, e2⟩ := idx_div_mod (r := Y2) hX2'
      rw [← hidx, e1, e2]
      exact hc2
    · intro hle
      rw [Nat.min_eq_right hle] at hidx
      rcases hX2 with hlt | ⟨rfl, hend⟩
      · have := idx_lt hY2 hlt
        omega
      · have : Y2 = h - 1 := by omega
        rw [← this]
        exact hc2

/-- The statement of C4 at `exampleWindow` for the text "Hi". -/
theorem C4_witness :
    (hasShape exampleWindow 2 3 ∧ cursorAt exampleWindow 0 1 ∧ ∀ b ∈ [72, 105], printable b) ∧
    ∃ win2, printstring stdCharset exampleWindow [72, 105] = .ok win2 ∧
      (∀ k (hk : k < [72, 105].length), k < 3 * 2 - (0 * 3 + 1) →
        cellAt win2 ((0 * 3 + 1 + k) / 3) ((0 * 3 + 1 + k) % 3) =
          some ⟨[[72, 105][k]], exampleWindow.FG, exampleWindow.BG, exampleWindow.FS⟩) ∧
      (0 * 3 + 1 + [72, 105].length < 3 * 2 →
        win2.cursory = (((0 * 3 + 1 + [72, 105].length) / 3 : Nat) : Int) ∧
        win2.cursorx = (((0 * 3 + 1 + [72, 105].length) % 3 : Nat) : Int)) ∧
      (3 * 2 ≤ 0 * 3 + 1 + [72, 105].length →
        win2.cursory = ((2 - 1 : Nat) : Int) ∧ win2.cursorx = (3 : Int)) :=
  ⟨⟨by decide, by decide, by decide⟩,
    C4_ascii_write_fills_cells stdCharset stdCharset_ascii exampleWindow 2 3 0 1
      (by decide) (by decide) (by decide) (by decide) [72, 105] (by decide)⟩

/-- C5: on a well-formed window with the cursor at `(y, x)`, `y < height - 1`
and `x < width`, writing `a ++ "\n"` for a string `a` of printable ASCII
characters with `length a < width - x` returns; the cells `(y, x + i)` hold
`a[i]` (in the colours and style of the window) for every `i < length a`, and
the cursor ends at row `y + 1`, column 0. -/
theorem C5_text_then_newline (cs : Charset) (hcs : asciiCharset cs) (win : WINDOW)
    (h w y x : Nat) (hwin : hasShape win h w) (hcur : cursorAt win y x) (hy : y + 1 < h)
    (hx : x < w) (a : List Nat) (ha : ∀ b ∈ a, printable b) (hlen : a.length < w - x) :
    ∃ win2, printstring cs win (a ++ [10]) = .ok win2 ∧
      (∀ i (hi : i < a.length),
        cellAt win2 y (x + i) = some ⟨[a[i]], win.FG, win.BG, win.FS⟩) ∧
      win2.cursory = ((y + 1 : Nat) : Int) ∧ win2.cursorx = 0 := by
  have hy' : y < h := by omega
  obtain ⟨wg, hstart, hsg, hcg, hfg, _, _⟩ :=
    printstring_inside cs hwin hcur hy' hx (a ++ [10]) (by simp)
  obtain ⟨win2, Y2, X2, hs2, hc2, hf2, hY2, hidx, hX2, hrun, hcells⟩ :=
    printLoop_ascii_run hcs a ha wg h w y x [10] (a ++ [10]).length hsg hcg hy' hx
      (by simp) (le_refl _)
  have hxn : x + a.length < w := by omega
  have hfit : y * w + x + a.length < h * w := by
    have := idx_lt hy' hxn
    omega
  rw [if_pos hfit] at hrun
  rw [Nat.min_eq_left (Nat.le_of_lt hfit)] at hidx
  have hX2' : X2 < w := by
    rcases hX2 with hlt | ⟨rfl, hend⟩
    · exact hlt
    · exfalso
      have : (Y2 + 1) * X2 = Y2 * X2 + X2 := Nat.succ_mul _ _
      rw [hend] at this
      omega
  obtain ⟨rfl, rfl⟩ : Y2 = y ∧ X2 = x + a.length :=
    (idx_inj hX2' hxn).1 (by omega)
  have hfu : (a ++ [10]).length - a.length = 0 + 1 := by simp
  have hnl : win2.cursory < win2.height - 1 := by rw [hc2.1, hs2.1]; omega
  refine ⟨{ win2 with cursory := win2.cursory + 1, cursorx := 0 }, ?_, ?_, ?_, rfl⟩
  · rw [hstart, hrun, hfu, printLoop]
    simp [newline, hnl, printLoop]
  · intro i hi
    have hcell := hcells Y2 (x + i) hY2 (by omega)
    have a1 : ¬ (Y2 * w + (x + i) < Y2 * w + x) := by omega
    have a2 : Y2 * w + (x + i) < Y2 * w + x + a.length := by omega
    have a3 : Y2 * w + (x + i) - (Y2 * w + x) = i := by omega
    rw [if_neg a1, if_pos a2, a3, List.getElem?_eq_getElem hi, hfg.2.2.2.2.1,
      hfg.2.2.2.2.2.1, hfg.2.2.2.2.2.2.1] at hcell
    exact hcell
  · show win2.cursory + 1 = _
    rw [hc2.1]; push_cast; rfl

/-- The statement of C5 at `exampleWindow` for the text "H\n". -/
theorem C5_witness :
    (hasShape exampleWindow 2 3 ∧ cursorAt exampleWindow 0 1 ∧ 0 + 1 < 2 ∧ 1 < 3 ∧
      (∀ b ∈ [72], printable b) ∧ [72].length < 3 - 1) ∧
    ∃ win2, printstring stdCharset exampleWindow ([72] ++ [10]) = .ok win2 ∧
      (∀ i (hi : i < [72].length),
        cellAt win2 0 (1 + i) =
          some ⟨[[72][i]], exampleWindow.FG, exampleWindow.BG, exampleWindow.FS⟩) ∧
      win2.cursory = ((0 + 1 : Nat) : Int) ∧ win2.cursorx = 0 :=
  ⟨⟨by decide, by decide, by decide, by decide, by decide, by decide⟩,
    C5_text_then_newline stdCharset stdCharset_ascii exampleWindow 2 3 0 1
      (by decide) (by decide) (by decide) (by decide) [72] (by decide) (by decide)⟩

/-- C6 (failing input): the window holds no wide glyph, so the wide-glyph
invariant holds; after writing the wide glyph U+4E2D from the last column of
row 0 the glyph sits in column 0 of row 1 and its right-hand neighbour still
holds the old text "b" instead of the empty string, while the cell at column 2
was emptied. -/
theorem C6_moved_glyph_keeps_old_neighbour :
    (∀ l ∈ exampleRowEnd.line, ∀ cell ∈ l.chars, unitWidth stdCharset cell.ch ≠ some 2) ∧
    unitWidth stdCharset [0xE4, 0xB8, 0xAD] = some 2 ∧
    ∃ win2, printstring stdCharset exampleRowEnd [0xE4, 0xB8, 0xAD] = .ok win2 ∧
      (cellAt win2 1 0).map (fun cell => cell.ch) = some [0xE4, 0xB8, 0xAD] ∧
      (cellAt win2 1 1).map (fun cell => cell.ch) = some [98] ∧
      (cellAt win2 1 2).map (fun cell => cell.ch) = some [] :=
  ⟨by decide, by decide, _, rfl, rfl, rfl, rfl⟩

/-- C7: in a window of width exactly 2 and height at least 2 whose cells are all
empty, with the cursor on the last column of a row `y` that is not the last
row, writing a single glyph of display width 2 returns with the whole glyph in
column 0 of row `y + 1`, a single space in the last cell of row `y`, and the
empty string in column 1 of row `y + 1`. -/
theorem C7_wide_glyph_moves_to_next_row (cs : Charset) (win : WINDOW) (h y : Nat)
    (glyph : List Nat) (hwin : hasShape win h 2) (hcur : cursorAt win y 1) (hy : y + 1 < h)
    (hempty : allEmpty win) (hne : glyph ≠ []) (hnl : glyph.head? ≠ some 10)
    (hwide : fill cs glyph = .ok (2, glyph, [])) :
    ∃ win2, printstring cs win glyph = .ok win2 ∧
      (cellAt win2 (y + 1) 0).map (fun cell => cell.ch) = some glyph ∧
      (cellAt win2 y 1).map (fun cell => cell.ch) = some [0x20] ∧
      (cellAt win2 (y + 1) 1).map (fun cell => cell.ch) = some [] := by
  have hy' : y < h := by omega
  obtain ⟨wg, hstart, hsg, hcg, hfg, hcellsg, _⟩ :=
    printstring_inside cs hwin hcur hy' (by omega : 1 < 2) glyph hne
  obtain ⟨b, bs, rfl⟩ : ∃ b bs, glyph = b :: bs := by
    cases glyph with
    | nil => exact absurd rfl hne
    | cons b bs => exact ⟨b, bs, rfl⟩
  have hb10 : b ≠ 10 := by
    intro hb; apply hnl; simp [hb]
  -- the glyph goes into the cell under the cursor
  have hs1 := hasShape_mapCell hsg y 1 (fun c => { c with ch := b :: bs })
  have hw1 := writeCell_eq hsg hy' (by omega : 1 < 2) (fun c => { c with ch := b :: bs })
  have hs2 := hasShape_mapCell hs1 y 1
    (fun c => { c with FG := wg.FG, BG := wg.BG, FS := wg.FS })
  have hw2 : writeCell (mapCell wg y 1 (fun c => { c with ch := b :: bs })) ⟨y, 1⟩
      (fun c => { c with FG := (mapCell wg y 1 (fun c => { c with ch := b :: bs })).FG,
                          BG := (mapCell wg y 1 (fun c => { c with ch := b :: bs })).BG,
                          FS := (mapCell wg y 1 (fun c => { c with ch := b :: bs })).FS }) =
      .ok (mapCell (mapCell wg y 1 (fun c => { c with ch := b :: bs })) y 1
        (fun c => { c with FG := wg.FG, BG := wg.BG, FS := wg.FS })) :=
    writeCell_eq hs1 hy' (by omega : 1 < 2) _
  have hc2 : cursorAt (mapCell (mapCell wg y 1 (fun c => { c with ch := b :: bs })) y 1
      (fun c => { c with FG := wg.FG, BG := wg.BG, FS := wg.FS })) y 1 := hcg
  obtain ⟨w3, Y3, X3, hadd3, hs3, hc3, hf3, hpos3, hcells3, _⟩ :=
    addedchar_spec hs2 hc2 hy' (by omega : 1 < 2)
  obtain ⟨rfl, rfl⟩ : Y3 = y + 1 ∧ X3 = 0 := by omega
  -- the second cell: first cell of the next row
  have hcur3 := cur_cell_inside hs3 hc3 hy (by omega : 0 < 2)
  have hs4 := hasShape_mapCell hs3 (y + 1) 0
    (fun c => { c with FG := w3.FG, BG := w3.BG, FS := w3.FS })
  have hw4 := writeCell_eq hs3 hy (by omega : 0 < 2)
    (fun c => { c with FG := w3.FG, BG := w3.BG, FS := w3.FS })
  have hs5 := hasShape_mapCell hs4 (y + 1) 0 (fun c => { c with ch := [] })
  have hw5 := writeCell_eq hs4 hy (by omega : 0 < 2) (fun c => { c with ch := [] })
  have hc5 : cursorAt (mapCell (mapCell w3 (y + 1) 0
      (fun c => { c with FG := w3.FG, BG := w3.BG, FS := w3.FS })) (y + 1) 0
      (fun c => { c with ch := [] })) (y + 1) 0 := hc3
  obtain ⟨w6, Y6, X6, hadd6, hs6, hc6, hf6, hpos6, hcells6, _⟩ :=
    addedchar_spec hs5 hc5 hy (by omega : 0 < 2)
  obtain ⟨rfl, rfl⟩ : Y6 = y + 1 ∧ X6 = 1 := by omega
  have hx6 : w6.cursorx = 1 := hc6.2
  -- the glyph is moved to the first cell of the next row
  have hread6 : readCell w6 ⟨y, 1⟩ = .ok ⟨b :: bs, wg.FG, wg.BG, wg.FS⟩ := by
    apply readCell_eq
    obtain ⟨cell, hcell⟩ := cellAt_isSome hsg hy' (by omega : 1 < 2)
    simp [hcells6, hcells3, cellAt_mapCell, hcell]
  have hs7 := hasShape_mapCell hs6 (y + 1) 0 (fun c => { c with ch := b :: bs })
  have hw7 := writeCell_eq hs6 hy (by omega : 0 < 2) (fun c => { c with ch := b :: bs })
  have hs8 := hasShape_mapCell hs7 y 1 (fun c => { c with ch := assign_1_space })
  have hw8 := writeCell_eq hs7 hy' (by omega : 1 < 2) (fun c => { c with ch := assign_1_space })
  have hc8 : cursorAt (mapCell (mapCell w6 (y + 1) 0 (fun c => { c with ch := b :: bs })) y 1
      (fun c => { c with ch := assign_1_space })) (y + 1) 1 := hc6
  obtain ⟨w9, Y9, X9, hadd9, hs9, hc9, hf9, hpos9, hcells9, _⟩ :=
    addedchar_spec hs8 hc8 hy (by omega : 1 < 2)
  -- the cells of interest in `w9`
  obtain ⟨cellA, hcellA⟩ := cellAt_isSome hsg hy (by omega : 0 < 2)
  obtain ⟨cellB, hcellB⟩ := cellAt_isSome hsg hy' (by omega : 1 < 2)
  obtain ⟨cellC, hcellC⟩ := cellAt_isSome hwin hy (by omega : 1 < 2)
  have hC : cellAt wg (y + 1) 1 = some cellC := by
    rw [hcellsg, if_neg (by omega), hcellC]
  have hA9 : (cellAt w9 (y + 1) 0).map (fun cell => cell.ch) = some (b :: bs) := by
    simp [hcells9, hcells6, hcells3, cellAt_mapCell, hcellA]
  have hB9 : (cellAt w9 y 1).map (fun cell => cell.ch) = some [0x20] := by
    simp [hcells9, hcells6, hcells3, cellAt_mapCell, hcellB, assign_1_space]
  have hC9 : (cellAt w9 (y + 1) 1).map (fun cell => cell.ch) = some [] := by
    simp [hcells9, hcells6, hcells3, cellAt_mapCell, hC, allEmpty_cellAt hempty hcellC]
  have h21 : ((2 : Int) ≥ 1) := by omega
  have h22 : ¬ ((2 : Int) = 1) := by omega
  have hrun : printstring cs win (b :: bs) =
      (match cur_cell w9 with
        | .error e => .error e
        | .ok none => .ok w9
        | .ok (some thicell) =>
          match writeCell w9 thicell (fun c => { c with ch := [] }) with
          | .error e => .error e
          | .ok w10 => if w10.cursory ≥ w10.height then .ok w10 else .ok w10) := by
    rw [hstart, List.length_cons, printLoop]
    simp only [hb10, if_false, cur_cell_inside hsg hcg hy' (by omega : 1 < 2), hwide, hw1, h21,
      if_true, bind, Except.bind, hw2, hadd3, h22, wideTail, hcur3, hw4, hw5, hadd6, hx6,
      hread6, hw7, hw8, hadd9, pure, Except.pure]
    cases hcc : cur_cell w9 with
    | error e => rfl
    | ok o =>
      cases o with
      | none =>
        simp only []
        have : ¬ (w9.cursory ≥ w9.height) := by rw [hc9.1, hs9.1]; omega
        rw [if_neg this]
        cases bs.length <;> rfl
      | some thicell =>
        simp only []
        cases hww : writeCell w9 thicell (fun c => { c with ch := [] }) with
        | error e => rfl
        | ok w10 =>
          simp only []
          split_ifs
          · rfl
          · cases bs.length <;> rfl
  rw [hrun]
  rcases hpos9 with ⟨hlt, _, _⟩ | ⟨_, hlt, rfl, rfl⟩ | ⟨_, hend, rfl, rfl⟩
  · omega
  · have hlt' : y + 2 < h := by omega
    have hcur9 := cur_cell_inside hs9 hc9 hlt' (by omega : 0 < 2)
    have hw10 := writeCell_eq hs9 hlt' (by omega : 0 < 2) (fun c => { c with ch := [] })
    simp only [hcur9, hw10, ite_self]
    refine ⟨_, rfl, ?_, ?_, ?_⟩
    · rw [cellAt_mapCell, if_neg (by omega)]; exact hA9
    · rw [cellAt_mapCell, if_neg (by omega)]; exact hB9
    · rw [cellAt_mapCell, if_neg (by omega)]; exact hC9
  · have hcur9 : cur_cell w9 = .ok none := by
      apply cur_cell_outside; right; rw [hc9.2, hs9.2.1]
    simp only [hcur9]
    exact ⟨_, rfl, hA9, hB9, hC9⟩

/-- The statement of C7 at `exampleNarrow` for the wide glyph U+4E2D. -/
theorem C7_witness :
    (hasShape exampleNarrow 3 2 ∧ cursorAt exampleNarrow 0 1 ∧ 0 + 1 < 3 ∧
      allEmpty exampleNarrow ∧ [0xE4, 0xB8, 0xAD] ≠ [] ∧
      [0xE4, 0xB8, 0xAD].head? ≠ some 10 ∧
      fill stdCharset [0xE4, 0xB8, 0xAD] = .ok (2, [0xE4, 0xB8, 0xAD], [])) ∧
    ∃ win2, printstring stdCharset exampleNarrow [0xE4, 0xB8, 0xAD] = .ok win2 ∧
      (cellAt win2 (0 + 1) 0).map (fun cell => cell.ch) = some [0xE4, 0xB8, 0xAD] ∧
      (cellAt win2 0 1).map (fun cell => cell.ch) = some [0x20] ∧
      (cellAt win2 (0 + 1) 1).map (fun cell => cell.ch) = some [] :=
  ⟨⟨by decide, by decide, by decide, by decide, by decide, by decide, rfl⟩,
    C7_wide_glyph_moves_to_next_row stdCharset exampleNarrow 3 0 [0xE4, 0xB8, 0xAD]
      (by decide) (by decide) (by decide) (by decide) (by decide) (by decide) rfl⟩

/-- C8 (failing input): with the cursor on the last cell of the window, writing
the wide glyph U+4E2D leaves that cell holding thirty-two bytes of value 1, not
a single space. -/
theorem C8_last_cell_holds_thirty_two_bytes :
    ∃ win2, printstring stdCharset exampleLastCell [0xE4, 0xB8, 0xAD] = .ok win2 ∧
      (cellAt win2 1 2).map (fun cell => cell.ch) = some (List.replicate 32 1) ∧
      (cellAt win2 1 2).map (fun cell => cell.ch) ≠ some [0x20] :=
  ⟨_, rfl, rfl, by decide⟩

/-- C9 (failing input): writing "\n" with the cursor on the second half of a
wide glyph changes the text of the cell at row 0, column 0 from the glyph to a
space, and the touched flag of row 0 is still false afterwards. -/
theorem C9_changed_line_left_untouched :
    touchedAt exampleWideRow 0 = some false ∧
    (cellAt exampleWideRow 0 0).map (fun cell => cell.ch) = some [0xE4, 0xB8, 0xAD] ∧
    ∃ win2, printstring stdCharset exampleWideRow [10] = .ok win2 ∧
      (cellAt win2 0 0).map (fun cell => cell.ch) = some [0x20] ∧
      touchedAt win2 0 = some false :=
  ⟨rfl, rfl, _, rfl, rfl, rfl⟩

/-- C10: on a non-null well-formed window of width and height at least 1,
`erase` returns; afterwards every line is touched and holds `width` default
cells (empty text, default colours), the content flag is set, the cursor is at
(0,0), and the width, height and origin are as before. -/
theorem C10_erase_resets_window (win : WINDOW) (h w : Nat) (hwin : hasShape win h w)
    (hw : 1 ≤ w) (hh : 1 ≤ h) :
    ∃ win2, werase (some win) = .ok (some win2) ∧
      win2.line = List.replicate h
        { touched := true, chars := List.replicate w cursecell.default } ∧
      (∀ r c, r < h → c < w → cellAt win2 r c = some cursecell.default) ∧
      (∀ r, r < h → touchedAt win2 r = some true) ∧
      win2.draw = true ∧ win2.cursorx = 0 ∧ win2.cursory = 0 ∧
      win2.width = win.width ∧ win2.height = win.height ∧
      win2.x = win.x ∧ win2.y = win.y := by
  have hhn : win.height.toNat = h := by rw [hwin.1]; simp
  obtain ⟨w2, hrun, hs2, hf2, _, _, hlines⟩ := eraseLoop_spec h 0 win h w hwin (by omega)
  have hline : w2.line = List.replicate h
      { touched := true, chars := List.replicate w cursecell.default } := by
    apply List.ext_getElem?
    intro r
    rw [hlines r]
    by_cases hr : r < h
    · rw [if_pos (by omega)]
      simp [List.getElem?_replicate, hr]
    · rw [if_neg (by omega)]
      simp only [List.getElem?_replicate, hr, if_false]
      exact List.getElem?_eq_none (by rw [hwin.2.2.1]; omega)
  have hmove : wmove (some { w2 with draw := true }) 0 0 =
      some { w2 with draw := true, cursorx := 0, cursory := 0 } := by
    have a1 : ¬ ((0 : Int) ≥ w2.width) := by rw [hs2.2.1]; omega
    have a2 : ¬ ((0 : Int) ≥ w2.height) := by rw [hs2.1]; omega
    simp [wmove, wmove_internal, a1, a2]
  refine ⟨{ w2 with draw := true, cursorx := 0, cursory := 0 }, ?_, hline, ?_, ?_, rfl, rfl,
    rfl, hf2.2.2.1, hf2.2.2.2.1, hf2.1, hf2.2.1⟩
  · simp only [werase, hhn, hrun, hmove, handle_additional_window_clear]
  · intro r c hr hc
    simp only [cellAt, hline, List.getElem?_replicate, hr, hc, if_true]
  · intro r hr
    simp only [touchedAt, hline, List.getElem?_replicate, hr, if_true]

/-- The statement of C10 at `exampleWindow`. -/
theorem C10_witness :
    (hasShape exampleWindow 2 3 ∧ 1 ≤ 3 ∧ 1 ≤ 2) ∧
    ∃ win2, werase (some exampleWindow) = .ok (some win2) ∧
      win2.line = List.replicate 2
        { touched := true, chars := List.replicate 3 cursecell.default } ∧
      (∀ r c, r < 2 → c < 3 → cellAt win2 r c = some cursecell.default) ∧
      (∀ r, r < 2 → touchedAt win2 r = some true) ∧
      win2.draw = true ∧ win2.cursorx = 0 ∧ win2.cursory = 0 ∧
      win2.width = exampleWindow.width ∧ win2.height = exampleWindow.height ∧
      win2.x = exampleWindow.x ∧ win2.y = exampleWindow.y :=
  ⟨⟨by decide, by decide, by decide⟩,
    C10_erase_resets_window exampleWindow 2 3 (by decide) (by decide) (by decide)⟩

/-- C11 (amended): for every non-null window and every attribute value whose
pair index lies inside the colour pair table (0..99), `applyAttribute`
(`wattron`) returns and leaves the cursor and the cells as they were;
`resetAttribute` (`wattroff`) after it gives foreground 8, background black and
the bold, italic and underline flags cleared, which is what `resetAttribute`
alone gives on this and on any other window state; a second `resetAttribute`
changes nothing; `resetAttribute` changes neither the cursor nor any cell. -/
theorem C11_reset_attribute_is_fixed (colorpairs : List pairs) (hlen : colorpairs.length = 100)
    (win : WINDOW) (a : nc_color) (ha : a.to_color_pair_index < 100) :
    ∃ w1, wattron colorpairs (some win) a = .ok (some w1) ∧
      w1.cursorx = win.cursorx ∧ w1.cursory = win.cursory ∧ w1.line = win.line ∧
      wattroff (some w1) =
        some { win with FG := 8, BG := black, FS := ⟨false, false, false⟩ } ∧
      wattroff (some win) =
        some { win with FG := 8, BG := black, FS := ⟨false, false, false⟩ } ∧
      (∀ other : WINDOW, ∃ w2, wattroff (some other) = some w2 ∧ w2.FG = 8 ∧ w2.BG = black ∧
        w2.FS = ⟨false, false, false⟩ ∧ w2.cursorx = other.cursorx ∧
        w2.cursory = other.cursory ∧ w2.line = other.line) ∧
      wattroff (wattroff (some w1)) = wattroff (some w1) := by
  have hp : a.to_color_pair_index < colorpairs.length := by rw [hlen]; exact ha
  have hget : colorpairs[a.to_color_pair_index]? = some colorpairs[a.to_color_pair_index] :=
    List.getElem?_eq_getElem hp
  refine ⟨_, by simp only [wattron, hget]; rfl, ?_, ?_, ?_, ?_, ?_, ?_, ?_⟩
  · split_ifs <;> rfl
  · split_ifs <;> rfl
  · split_ifs <;> rfl
  · simp only [wattroff]
    split_ifs <;> rfl
  · rfl
  · intro other
    exact ⟨_, rfl, rfl, rfl, rfl, rfl, rfl, rfl⟩
  · simp only [wattroff]

/-- The amended statement of C11 at `exampleWindow` for the bold attribute of pair 3. -/
theorem C11_witness :
    (exampleColorpairs.length = 100 ∧
      (nc_color.from_color_pair_index 3).bold.to_color_pair_index < 100) ∧
    ∃ w1, wattron exampleColorpairs (some exampleWindow) (nc_color.from_color_pair_index 3).bold =
        .ok (some w1) ∧
      w1.cursorx = exampleWindow.cursorx ∧ w1.cursory = exampleWindow.cursory ∧
      w1.line = exampleWindow.line ∧
      wattroff (some w1) =
        some { exampleWindow with FG := 8, BG := black, FS := ⟨false, false, false⟩ } ∧
      wattroff (some exampleWindow) =
        some { exampleWindow with FG := 8, BG := black, FS := ⟨false, false, false⟩ } ∧
      (∀ other : WINDOW, ∃ w2, wattroff (some other) = some w2 ∧ w2.FG = 8 ∧ w2.BG = black ∧
        w2.FS = ⟨false, false, false⟩ ∧ w2.cursorx = other.cursorx ∧
        w2.cursory = other.cursory ∧ w2.line = other.line) ∧
      wattroff (wattroff (some w1)) = wattroff (some w1) :=
  ⟨⟨by decide, by decide⟩,
    C11_reset_attribute_is_fixed exampleColorpairs (by decide) exampleWindow
      (nc_color.from_color_pair_index 3).bold (by decide)⟩

/-- C11 (as stated) fails: the attribute value built by
`from_color_pair_index(128)` carries the pair index 128, and `applyAttribute`
with it reads `colorpairs[128]` outside the table of 100 pairs. -/
theorem C11_counterexample :
    (nc_color.from_color_pair_index 128).to_color_pair_index = 128 ∧
    exampleColorpairs.length = 100 ∧
    wattron exampleColorpairs (some exampleWindow) (nc_color.from_color_pair_index 128) =
      .error .out_of_range :=
  ⟨by decide, by decide, rfl⟩

/-- C12 (failing input): the pair index 64 lies in the table's range, but
`from_color_pair_index(64)` is the attribute value 0 (bit 23 is not part of
`A_COLOR`), the same as for the index 0, and `to_color_pair_index` of it is 0;
over the whole range 0..99 the round trip gives `i % 64`. -/
theorem C12_round_trip_loses_bit_six :
    (64 : Nat) < 100 ∧
    nc_color.from_color_pair_index 64 = nc_color.from_color_pair_index 0 ∧
    (nc_color.from_color_pair_index 64).to_color_pair_index = 0 ∧
    ∀ i, i < 100 → (nc_color.from_color_pair_index i).to_color_pair_index = i % 64 := by
  decide

/-- C13: each of the setters bold, blink, italic and underline makes its own
predicate true, leaves the other three predicates and the pair index as they
were, and is idempotent, for every attribute value; and all four predicates
are false on `from_color_pair_index i` for every index `i` (in particular for
0 ≤ i < 100). -/
theorem C13_style_bits_independent :
    (∀ a : nc_color,
      (a.bold.is_bold = true ∧ a.bold.is_blink = a.is_blink ∧
        a.bold.is_italic = a.is_italic ∧ a.bold.is_underline = a.is_underline ∧
        a.bold.to_color_pair_index = a.to_color_pair_index ∧ a.bold.bold = a.bold) ∧
      (a.blink.is_blink = true ∧ a.blink.is_bold = a.is_bold ∧
        a.blink.is_italic = a.is_italic ∧ a.blink.is_underline = a.is_underline ∧
        a.blink.to_color_pair_index = a.to_color_pair_index ∧ a.blink.blink = a.blink) ∧
      (a.italic.is_italic = true ∧ a.italic.is_bold = a.is_bold ∧
        a.italic.is_blink = a.is_blink ∧ a.italic.is_underline = a.is_underline ∧
        a.italic.to_color_pair_index = a.to_color_pair_index ∧ a.italic.italic = a.italic) ∧
      (a.underline.is_underline = true ∧ a.underline.is_bold = a.is_bold ∧
        a.underline.is_blink = a.is_blink ∧ a.underline.is_italic = a.is_italic ∧
        a.underline.to_color_pair_index = a.to_color_pair_index ∧
        a.underline.underline = a.underline)) ∧
    (∀ i : Nat,
      (nc_color.from_color_pair_index i).is_bold = false ∧
      (nc_color.from_color_pair_index i).is_blink = false ∧
      (nc_color.from_color_pair_index i).is_italic = false ∧
      (nc_color.from_color_pair_index i).is_underline = false) := by
  constructor
  · intro a
    simp only [nc_color.bold, nc_color.blink, nc_color.italic, nc_color.underline,
      nc_color.is_bold, nc_color.is_blink, nc_color.is_italic, nc_color.is_underline,
      nc_color.to_color_pair_index, or_and_same, Nat.or_assoc, Nat.or_self,
      or_mask_and _ A_BOLD A_BLINK (by decide), or_mask_and _ A_BOLD A_ITALIC (by decide),
      or_mask_and _ A_BOLD A_UNDERLINE (by decide), or_mask_and _ A_BOLD A_COLOR (by decide),
      or_mask_and _ A_BLINK A_BOLD (by decide), or_mask_and _ A_BLINK A_ITALIC (by decide),
      or_mask_and _ A_BLINK A_UNDERLINE (by decide), or_mask_and _ A_BLINK A_COLOR (by decide),
      or_mask_and _ A_ITALIC A_BOLD (by decide), or_mask_and _ A_ITALIC A_BLINK (by decide),
      or_mask_and _ A_ITALIC A_UNDERLINE (by decide), or_mask_and _ A_ITALIC A_COLOR (by decide),
      or_mask_and _ A_UNDERLINE A_BOLD (by decide), or_mask_and _ A_UNDERLINE A_BLINK (by decide),
      or_mask_and _ A_UNDERLINE A_ITALIC (by decide),
      or_mask_and _ A_UNDERLINE A_COLOR (by decide)]
    decide
  · intro i
    have hB : A_COLOR &&& A_BOLD = 0 := by decide
    have hK : A_COLOR &&& A_BLINK = 0 := by decide
    have hI : A_COLOR &&& A_ITALIC = 0 := by decide
    have hU : A_COLOR &&& A_UNDERLINE = 0 := by decide
    simp [nc_color.from_color_pair_index, nc_color.is_bold, nc_color.is_blink,
      nc_color.is_italic, nc_color.is_underline, Nat.and_assoc, hB, hK, hI, hU]

/-- C14: for every non-null window and every attribute value `a` whose pair
index `p` lies in 0..99, `applyAttribute` (`wattron`) returns with foreground
`colorpairs[p].FG`, plus 8 exactly when `a` is bold, background
`colorpairs[p].BG`, plus 8 exactly when `a` is blink, the italic (underline)
flag true if `a` is italic (underline) and as before otherwise; the bold flag,
the cursor and every cell are as before. -/
theorem C14_apply_attribute (colorpairs : List pairs) (hlen : colorpairs.length = 100)
    (win : WINDOW) (a : nc_color) (p : Nat) (hp : a.to_color_pair_index = p) (hp100 : p < 100) :
    ∃ w1 entry, colorpairs[p]? = some entry ∧ wattron colorpairs (some win) a = .ok (some w1) ∧
      w1.FG = (if a.is_bold then entry.FG + 8 else entry.FG) ∧
      w1.BG = (if a.is_blink then entry.BG + 8 else entry.BG) ∧
      w1.FS.italic = (if a.is_italic then true else win.FS.italic) ∧
      w1.FS.underline = (if a.is_underline then true else win.FS.underline) ∧
      w1.FS.bold = win.FS.bold ∧
      w1.cursorx = win.cursorx ∧ w1.cursory = win.cursory ∧ w1.line = win.line ∧
      w1.width = win.width ∧ w1.height = win.height ∧ w1.draw = win.draw := by
  have hlt : p < colorpairs.length := by rw [hlen]; exact hp100
  have hget : colorpairs[p]? = some colorpairs[p] := List.getElem?_eq_getElem hlt
  simp only [wattron, hp, hget]
  generalize a.is_bold = b1
  generalize a.is_blink = b2
  generalize a.is_italic = b3
  generalize a.is_underline = b4
  cases b1 <;> cases b2 <;> cases b3 <;> cases b4 <;>
    exact ⟨_, _, rfl, rfl, rfl, rfl, rfl, rfl, rfl, rfl, rfl, rfl, rfl, rfl, rfl⟩

/-- The statement of C14 at `exampleWindow` for the bold attribute of pair 3. -/
theorem C14_witness :
    (exampleColorpairs.length = 100 ∧
      (nc_color.from_color_pair_index 3).bold.to_color_pair_index = 3 ∧ 3 < 100) ∧
    ∃ w1 entry, exampleColorpairs[3]? = some entry ∧
      wattron exampleColorpairs (some exampleWindow) (nc_color.from_color_pair_index 3).bold =
        .ok (some w1) ∧
      w1.FG = (if (nc_color.from_color_pair_index 3).bold.is_bold then entry.FG + 8
        else entry.FG) ∧
      w1.BG = (if (nc_color.from_color_pair_index 3).bold.is_blink then entry.BG + 8
        else entry.BG) ∧
      w1.FS.italic = (if (nc_color.from_color_pair_index 3).bold.is_italic then true
        else exampleWindow.FS.italic) ∧
      w1.FS.underline = (if (nc_color.from_color_pair_index 3).bold.is_underline then true
        else exampleWindow.FS.underline) ∧
      w1.FS.bold = exampleWindow.FS.bold ∧
      w1.cursorx = exampleWindow.cursorx ∧ w1.cursory = exampleWindow.cursory ∧
      w1.line = exampleWindow.line ∧
      w1.width = exampleWindow.width ∧ w1.height = exampleWindow.height ∧
      w1.draw = exampleWindow.draw :=
  ⟨⟨by decide, by decide, by decide⟩,
    C14_apply_attribute exampleColorpairs (by decide) exampleWindow
      (nc_color.from_color_pair_index 3).bold 3 (by decide) (by decide)⟩

/-- C15: on a non-null well-formed window whose cursor lies inside the grid,
`border` returns for every choice of the eight glyphs (a glyph 0 is unset) and
the cursor afterwards is where it was before the call. -/
theorem C15_border_restores_cursor (cs : Charset) (lc : LineCodes) (win : WINDOW)
    (h w y x : Nat) (hwin : hasShape win h w) (hcur : cursorAt win y x) (hy : y < h)
    (hx : x < w) (ls rs ts bs tl tr bl br : Nat) :
    ∃ win2, wborder cs lc (some win) ls rs ts bs tl tr bl br = .ok (some win2) ∧
      win2.cursorx = win.cursorx ∧ win2.cursory = win.cursory := by
  obtain ⟨w8, _, _, hrun, hb8, _, _, _, _⟩ :=
    wborder_spec cs lc hwin (by omega) (by omega) ls rs ts bs tl tr bl br
  obtain ⟨w9, hclose, _, _, _, _, _, hin, _⟩ := wborder_closing w8 win.cursory win.cursorx
  have hold : 0 ≤ win.cursorx ∧ win.cursorx < w8.width ∧ 0 ≤ win.cursory ∧
      win.cursory < w8.height := by
    rw [hcur.1, hcur.2, hb8.1.1, hb8.1.2.1]; omega
  exact ⟨w9, by rw [hrun, hclose], (hin hold).1, (hin hold).2⟩

/-- The statement of C15 at `exampleWindow` with unset edges and ASCII corners. -/
theorem C15_witness :
    (hasShape exampleWindow 2 3 ∧ cursorAt exampleWindow 0 1 ∧ 0 < 2 ∧ 1 < 3) ∧
    ∃ win2, wborder stdCharset exampleLineCodes (some exampleWindow) 0 0 0 0 43 43 43 43 =
        .ok (some win2) ∧
      win2.cursorx = exampleWindow.cursorx ∧ win2.cursory = exampleWindow.cursory :=
  ⟨⟨by decide, by decide, by decide, by decide⟩,
    C15_border_restores_cursor stdCharset exampleLineCodes exampleWindow 2 3 0 1
      (by decide) (by decide) (by decide) (by decide) 0 0 0 0 43 43 43 43⟩

/-- C16: `create` (`newwin`) returns the null handle exactly when `y < 0` or
`x < 0`; for `height > 0`, `width > 0`, `y ≥ 0`, `x ≥ 0` it returns a window
with origin `(x, y)`, exactly `height` lines of exactly `width` cells that all
equal the default blank cell, cursor (0,0), foreground 8, background black and
content flag false. -/
theorem C16_create_window (TERMX TERMY nlines ncols begin_y begin_x : Int) :
    (newwin TERMX TERMY nlines ncols begin_y begin_x = .ok none ↔
        (begin_y < 0 ∨ begin_x < 0)) ∧
      (0 < nlines → 0 < ncols → 0 ≤ begin_y → 0 ≤ begin_x →
        ∃ win, newwin TERMX TERMY nlines ncols begin_y begin_x = .ok (some win) ∧
          win.x = begin_x ∧ win.y = begin_y ∧ win.width = ncols ∧ win.height = nlines ∧
          win.line.length = nlines.toNat ∧
          (∀ l ∈ win.line, l.chars.length = ncols.toNat ∧
            ∀ cell ∈ l.chars, cell = cursecell.default) ∧
          hasShape win nlines.toNat ncols.toNat ∧
          win.cursorx = 0 ∧ win.cursory = 0 ∧ win.FG = 8 ∧ win.BG = black ∧
          win.draw = false) := by
  constructor
  · constructor
    · intro h
      by_contra hn
      simp only [newwin, hn, if_false] at h
      split_ifs at h <;> simp at h
    · intro h
      simp [newwin, h]
  · intro hl hc hy hx
    have h1 : ¬ (begin_y < 0 ∨ begin_x < 0) := by omega
    have h2 : ¬ (ncols = 0) := by omega
    have h3 : ¬ (nlines = 0) := by omega
    have h4 : ¬ (nlines < 0 ∨ ncols < 0) := by omega
    refine ⟨_, by simp only [newwin, h1, h2, h3, h4, if_false]; rfl, rfl, rfl, rfl, rfl,
      by simp, ?_, ?_, rfl, rfl, rfl, rfl, rfl⟩
    · intro l hlmem
      simp only [List.mem_replicate] at hlmem
      obtain ⟨_, rfl⟩ := hlmem
      refine ⟨by simp, ?_⟩
      intro cell hcell
      simp only [List.mem_replicate] at hcell
      exact hcell.2
    · refine ⟨by simp; omega, by simp; omega, by simp, ?_⟩
      intro l hlmem
      simp only [List.mem_replicate] at hlmem
      obtain ⟨_, rfl⟩ := hlmem
      simp

/-- The statement of C16 for 2 lines of 3 columns at the origin and for the
origin row -1. -/
theorem C16_witness :
    (newwin 80 24 2 3 (-1) 0 = .ok none ↔ ((-1 : Int) < 0 ∨ (0 : Int) < 0)) ∧
    ((0 : Int) < 2 ∧ (0 : Int) < 3 ∧ (0 : Int) ≤ 0) ∧
    ∃ win, newwin 80 24 2 3 0 0 = .ok (some win) ∧
      win.x = 0 ∧ win.y = 0 ∧ win.width = 3 ∧ win.height = 2 ∧
      win.line.length = (2 : Int).toNat ∧
      (∀ l ∈ win.line, l.chars.length = (3 : Int).toNat ∧
        ∀ cell ∈ l.chars, cell = cursecell.default) ∧
      hasShape win (2 : Int).toNat (3 : Int).toNat ∧
      win.cursorx = 0 ∧ win.cursory = 0 ∧ win.FG = 8 ∧ win.BG = black ∧
      win.draw = false :=
  ⟨(C16_create_window 80 24 2 3 (-1) 0).1, ⟨by decide, by decide, by decide⟩,
    (C16_create_window 80 24 2 3 0 0).2 (by decide) (by decide) (by decide) (by decide)⟩

/-- C17: on a window whose grid has exactly `height` lines of exactly `width`
cells and whose cursor satisfies `0 ≤ cursory < height` and
`0 ≤ cursorx ≤ width`, `printstring` returns for every byte string and every
character set: no line or cell access leaves the grid (such an access is the
fault `out_of_range` of the embedding) and the loop ends; the window keeps its
size and stays well-formed. -/
theorem C17_write_stays_inside_the_grid (cs : Charset) (win : WINDOW) (text : List Nat)
    (hwf : wellFormed win) (hy0 : 0 ≤ win.cursory) (hy : win.cursory < win.height)
    (hx0 : 0 ≤ win.cursorx) (_hx : win.cursorx ≤ win.width) :
    ∃ win2, printstring cs win text = .ok win2 ∧
      wprintw cs (some win) text = .ok (some win2) ∧ wellFormed win2 ∧
      win2.width = win.width ∧ win2.height = win.height := by
  have hs := (wellFormed_iff_hasShape win).1 hwf
  have hc : cursorAt win win.cursory.toNat win.cursorx.toNat :=
    ⟨(Int.toNat_of_nonneg hy0).symm, (Int.toNat_of_nonneg hx0).symm⟩
  have hY : win.cursory.toNat < win.height.toNat := by omega
  obtain ⟨win2, _, _, hrun, _, he, _, _, _⟩ := printstring_gen cs hs hc hY text
  refine ⟨win2, hrun, by simp [wprintw, hrun, Except.map], hasShape_wellFormed he.shape,
    he.frame.2.2.1, he.frame.2.2.2.1⟩

/-- The statement of C17 at `exampleWindow` for a text with an invalid byte, a
newline, a wide glyph and a tabulator. -/
theorem C17_witness :
    (wellFormed exampleWindow ∧ 0 ≤ exampleWindow.cursory ∧
      exampleWindow.cursory < exampleWindow.height ∧ 0 ≤ exampleWindow.cursorx ∧
      exampleWindow.cursorx ≤ exampleWindow.width) ∧
    ∃ win2, printstring stdCharset exampleWindow [0xFF, 10, 0xE4, 0xB8, 0xAD, 9] = .ok win2 ∧
      wprintw stdCharset (some exampleWindow) [0xFF, 10, 0xE4, 0xB8, 0xAD, 9] =
        .ok (some win2) ∧
      wellFormed win2 ∧ win2.width = exampleWindow.width ∧
      win2.height = exampleWindow.height :=
  ⟨⟨by decide, by decide, by decide, by decide, by decide⟩,
    C17_write_stays_inside_the_grid stdCharset exampleWindow [0xFF, 10, 0xE4, 0xB8, 0xAD, 9]
      (by decide) (by decide) (by decide) (by decide) (by decide)⟩

/-- C18: `wborder` on a window of 3 columns and 2 rows (every cell is on the
perimeter) with the eight glyphs unset, once drawing with foreground 4 and
background 1 and once with foreground 5 and background 2: after the call every
cell carries the colours that were current before the call (4 and 1, resp. 5
and 2), so the cells do not carry colours fixed by a border attribute. -/
theorem C18_border_keeps_current_colours :
    ∃ win1 win2,
      wborder stdCharset exampleLineCodes (some exampleWindow) 0 0 0 0 0 0 0 0 =
        .ok (some win1) ∧
      wborder stdCharset exampleLineCodes (some { exampleWindow with FG := 5, BG := 2 })
        0 0 0 0 0 0 0 0 = .ok (some win2) ∧
      cellColours win1 = [[(4, 1), (4, 1), (4, 1)], [(4, 1), (4, 1), (4, 1)]] ∧
      cellColours win2 = [[(5, 2), (5, 2), (5, 2)], [(5, 2), (5, 2), (5, 2)]] :=
  ⟨_, _, rfl, rfl, rfl, rfl⟩

/-- C19 (amended): for a width function with values from -1 to 2, `fill`
returns on every input that is not empty. When the first code point is a
control character, the unit is one space of width 1 and the input advances by
that code point only. Otherwise the unit and the remaining input make up the
input, the unit is made of whole code points (at least the first one), none of
them a control character and at most one of them of a positive width, and the
returned width is the sum of their widths: 0, 1 or 2, and 0 only when no code
point of the unit has a positive width. The unit ends at the end of the input,
before a control character, or before a second code point of positive width. -/
theorem C19_fill_takes_one_unit (cs : Charset)
    (hw : ∀ ch, -1 ≤ cs.mk_wcwidth ch ∧ cs.mk_wcwidth ch ≤ 2) (fmt : List Nat)
    (hne : fmt ≠ []) :
    ∃ dlen target rest, fill cs fmt = .ok (dlen, target, rest) ∧
      (codeWidth cs (cs.UTF8_getch fmt).1 = -1 →
        dlen = 1 ∧ target = [0x20] ∧ rest = fmt.drop (cs.UTF8_getch fmt).2) ∧
      (codeWidth cs (cs.UTF8_getch fmt).1 ≠ -1 →
        target ++ rest = fmt ∧
        ∃ codes, decodeCodes cs codes fmt = some rest ∧
          codes.head? = some (cs.UTF8_getch fmt).1 ∧
          (∀ ch ∈ codes, 0 ≤ codeWidth cs ch) ∧
          codes.countP (fun ch => decide (0 < codeWidth cs ch)) ≤ 1 ∧
          (dlen = 0 → codes.countP (fun ch => decide (0 < codeWidth cs ch)) = 0) ∧
          dlen = (codes.map (codeWidth cs)).sum ∧ 0 ≤ dlen ∧ dlen ≤ 2 ∧
          (rest = [] ∨ codeWidth cs (cs.UTF8_getch rest).1 = -1 ∨
            (0 < codeWidth cs (cs.UTF8_getch rest).1 ∧ 0 < dlen))) := by
  cases fmt with
  | nil => exact absurd rfl hne
  | cons b bs =>
    have hk1 := cs.advance_pos (b :: bs) (by simp)
    have hk2 := cs.advance_le (b :: bs)
    have hdrop : ((b :: bs).drop (cs.UTF8_getch (b :: bs)).2).length < (b :: bs).length := by
      rw [List.length_drop]; simp only [List.length_cons] at hk2 ⊢; omega
    have hrange := codeWidth_range cs hw (cs.UTF8_getch (b :: bs)).1
    simp only [fill, List.length_cons, fillLoop]
    generalize hcw : (if (cs.UTF8_getch (b :: bs)).1 = UNKNOWN_UNICODE then (1 : Int)
      else cs.mk_wcwidth (cs.UTF8_getch (b :: bs)).1) = cw
    have hcw2 : codeWidth cs (cs.UTF8_getch (b :: bs)).1 = cw := hcw
    rw [hcw2] at hrange ⊢
    have c1 : ¬ (cw > 0 ∧ (0 : Int) > 0) := by omega
    rw [if_neg c1]
    by_cases c2 : cw = -1
    · have c2' : cw = -1 ∧ True := ⟨c2, trivial⟩
      rw [if_pos c2']
      exact ⟨_, _, _, rfl, fun _ => ⟨rfl, rfl, rfl⟩, fun hn => absurd c2 hn⟩
    · have c2' : ¬ (cw = -1 ∧ True) := fun hh => c2 hh.1
      rw [if_neg c2', if_neg c2]
      have hfirst : ([] : List Nat) ++ (b :: bs).take (cs.UTF8_getch (b :: bs)).2 ≠ [] := by
        intro hnil
        have hl := congrArg List.length hnil
        simp only [List.nil_append, List.length_take, List.length_cons, List.length_nil] at hl hk2
        omega
      have hu1 : unitCodes cs [(cs.UTF8_getch (b :: bs)).1] (0 + cw) := by
        refine ⟨?_, ?_, ?_, ?_, by omega, by omega⟩
        · intro ch hch
          simp only [List.mem_singleton] at hch
          rw [hch, hcw2]; omega
        · exact (List.countP_le_length _).trans (by simp)
        · intro hz
          have hc0 : ¬ (0 < cw) := by omega
          simp [List.countP_cons, hcw2, hc0]
        · simp [hcw2]
      obtain ⟨d, t, r, codes2, hrun, happ2, hdec2, hpre, hu3, hstop⟩ :=
        fillLoop_unit cs hw (b :: bs) bs.length
          ([] ++ (b :: bs).take (cs.UTF8_getch (b :: bs)).2)
          ((b :: bs).drop (cs.UTF8_getch (b :: bs)).2) (0 + cw)
          [(cs.UTF8_getch (b :: bs)).1]
          (by simp only [List.length_cons] at hdrop; omega)
          hfirst
          (by rw [List.nil_append, List.take_append_drop])
          (decodeCodes_append cs _ [] (b :: bs) (b :: bs) rfl (by simp) rfl)
          hu1
      refine ⟨d, t, r, hrun, fun hc => absurd hc c2, fun _ => ⟨happ2, codes2, hdec2, ?_,
        hu3.nonneg, hu3.one, hu3.zero, hu3.sum, hu3.lo, hu3.hi, hstop⟩⟩
      obtain ⟨more, hmore⟩ := hpre
      rw [← hmore]
      rfl

/-- The statement of C19 at the standard character set for a combining mark, the
letter "a", a second combining mark and the letter "b". -/
theorem C19_witness :
    ((∀ ch, -1 ≤ stdCharset.mk_wcwidth ch ∧ stdCharset.mk_wcwidth ch ≤ 2) ∧
      [0xCC, 0x81, 0x61, 0xCC, 0x81, 0x62] ≠ ([] : List Nat)) ∧
    ∃ dlen target rest,
      fill stdCharset [0xCC, 0x81, 0x61, 0xCC, 0x81, 0x62] = .ok (dlen, target, rest) ∧
      (codeWidth stdCharset
          (stdCharset.UTF8_getch [0xCC, 0x81, 0x61, 0xCC, 0x81, 0x62]).1 = -1 →
        dlen = 1 ∧ target = [0x20] ∧
          rest = ([0xCC, 0x81, 0x61, 0xCC, 0x81, 0x62] : List Nat).drop
            (stdCharset.UTF8_getch [0xCC, 0x81, 0x61, 0xCC, 0x81, 0x62]).2) ∧
      (codeWidth stdCharset
          (stdCharset.UTF8_getch [0xCC, 0x81, 0x61, 0xCC, 0x81, 0x62]).1 ≠ -1 →
        target ++ rest = [0xCC, 0x81, 0x61, 0xCC, 0x81, 0x62] ∧
        ∃ codes, decodeCodes stdCharset codes [0xCC, 0x81, 0x61, 0xCC, 0x81, 0x62] = some rest ∧
          codes.head? = some (stdCharset.UTF8_getch [0xCC, 0x81, 0x61, 0xCC, 0x81, 0x62]).1 ∧
          (∀ ch ∈ codes, 0 ≤ codeWidth stdCharset ch) ∧
          codes.countP (fun ch => decide (0 < codeWidth stdCharset ch)) ≤ 1 ∧
          (dlen = 0 → codes.countP (fun ch => decide (0 < codeWidth stdCharset ch)) = 0) ∧
          dlen = (codes.map (codeWidth stdCharset)).sum ∧ 0 ≤ dlen ∧ dlen ≤ 2 ∧
          (rest = [] ∨ codeWidth stdCharset (stdCharset.UTF8_getch rest).1 = -1 ∨
            (0 < codeWidth stdCharset (stdCharset.UTF8_getch rest).1 ∧ 0 < dlen))) :=
  ⟨⟨fun ch => by
      show -1 ≤ std_wcwidth ch ∧ std_wcwidth ch ≤ 2
      unfold std_wcwidth
      split_ifs <;> omega, by decide⟩,
    C19_fill_takes_one_unit stdCharset (fun ch => by
      show -1 ≤ std_wcwidth ch ∧ std_wcwidth ch ≤ 2
      unfold std_wcwidth
      split_ifs <;> omega) [0xCC, 0x81, 0x61, 0xCC, 0x81, 0x62] (by decide)⟩

/-- C19 as stated fails: the combining mark U+0301 (bytes CC 81) is no control
character and has width 0, and `fill` returns the width 0 for it, with a unit
that holds no code point of a positive width; before the letter "a" the mark
is taken into the unit of the letter, and after the wide glyph U+4E2D it is
taken into the unit of the glyph. -/
theorem C19_counterexample :
    codeWidth stdCharset (stdCharset.UTF8_getch [0xCC, 0x81]).1 = 0 ∧
    fill stdCharset [0xCC, 0x81] = .ok (0, [0xCC, 0x81], []) ∧
    fill stdCharset [0xCC, 0x81, 0x61] = .ok (1, [0xCC, 0x81, 0x61], []) ∧
    fill stdCharset [0xE4, 0xB8, 0xAD, 0xCC, 0x81, 0x62] =
      .ok (2, [0xE4, 0xB8, 0xAD, 0xCC, 0x81], [0x62]) :=
  ⟨by decide, rfl, rfl, rfl⟩

/-- C20: on a well-formed window of width at least 2 and height at least 1
whose cursor satisfies `0 ≤ cursory < height`, `0 ≤ cursorx ≤ width` and
`cursorx = width` only when `cursory = height - 1`, each of `move`, `write`
(any text), `writeAt`, `erase` and `border` returns a window of the same shape
whose cursor satisfies the same conditions. -/
theorem C20_cursor_range_invariant (cs : Charset) (lc : LineCodes) (win : WINDOW) (h w : Nat)
    (hwin : hasShape win h w) (hw : 2 ≤ w) (hh : 1 ≤ h) (hinv : cursorInvariant win) :
    (∀ y x, ∃ win2, wmove (some win) y x = some win2 ∧
      hasShape win2 h w ∧ cursorInvariant win2) ∧
    (∀ text, ∃ win2, wprintw cs (some win) text = .ok (some win2) ∧
      hasShape win2 h w ∧ cursorInvariant win2) ∧
    (∀ y x text, ∃ win2, mvwprintw cs (some win) y x text = .ok (some win2) ∧
      hasShape win2 h w ∧ cursorInvariant win2) ∧
    (∃ win2, werase (some win) = .ok (some win2) ∧
      hasShape win2 h w ∧ cursorInvariant win2) ∧
    (∀ ls rs ts bs tl tr bl br, ∃ win2,
      wborder cs lc (some win) ls rs ts bs tl tr bl br = .ok (some win2) ∧
      hasShape win2 h w ∧ cursorInvariant win2) := by
  refine ⟨?_, ?_, ?_, ?_, ?_⟩
  · intro y x
    rcases wmove_internal_cases win y x with hf | ⟨hin, hok⟩
    · exact ⟨win, by simp only [wmove, hf, if_true], hwin, hinv⟩
    · refine ⟨{ win with cursorx := x, cursory := y }, ?_, hwin, cursorInvariant_inside hin⟩
      simp only [wmove, hok]
      rfl
  · intro text
    obtain ⟨win2, hrun, hs, hi⟩ := printstring_invariant cs hwin hw hinv text
    exact ⟨win2, by simp only [wprintw, hrun, Except.map], hs, hi⟩
  · intro y x text
    rcases wmove_internal_cases win y x with hf | ⟨hin, hok⟩
    · exact ⟨win, by simp only [mvwprintw, hf, if_true], hwin, hinv⟩
    · have hs1 : hasShape { win with cursorx := x, cursory := y } h w := hwin
      obtain ⟨win2, hrun, hs, hi⟩ :=
        printstring_invariant cs hs1 hw (cursorInvariant_inside hin) text
      refine ⟨win2, ?_, hs, hi⟩
      simp only [mvwprintw, hok, hrun, Except.map]
      rfl
  · exact werase_invariant hwin (by omega) hh
  · intro ls rs ts bs tl tr bl br
    obtain ⟨w8, Y8, X8, hrun, hb8, hc8, hY8, hr8, _⟩ :=
      wborder_spec cs lc hwin hh (by omega) ls rs ts bs tl tr bl br
    obtain ⟨w9, hclose, hline, hwd, hht, _, _, hin, hout⟩ :=
      wborder_closing w8 win.cursory win.cursorx
    have hs9 : hasShape w9 h w := by
      refine ⟨hht.trans hb8.1.1, hwd.trans hb8.1.2.1, ?_, ?_⟩
      · rw [hline]; exact hb8.1.2.2.1
      · rw [hline]; exact hb8.1.2.2.2
    refine ⟨w9, by rw [hrun, hclose], hs9, ?_⟩
    by_cases hold : 0 ≤ win.cursorx ∧ win.cursorx < w8.width ∧ 0 ≤ win.cursory ∧
        win.cursory < w8.height
    · obtain ⟨e1, e2⟩ := hin hold
      unfold cursorInvariant
      rw [e1, e2, hwd, hht]
      refine ⟨hold.2.2.1, hold.2.2.2, hold.1, by omega, fun hx => by omega⟩
    · obtain ⟨e1, e2⟩ := hout hold
      have hi8 : cursorInvariant w8 := cursorInvariant_of_range hb8.1 hc8 hY8 (hr8 hw)
      unfold cursorInvariant at hi8 ⊢
      rw [e1, e2, hwd, hht]
      exact hi8

/-- The statement of C20 at `exampleWindow`. -/
theorem C20_witness :
    (hasShape exampleWindow 2 3 ∧ 2 ≤ 3 ∧ 1 ≤ 2 ∧ cursorInvariant exampleWindow) ∧
    ((∀ y x, ∃ win2, wmove (some exampleWindow) y x = some win2 ∧
      hasShape win2 2 3 ∧ cursorInvariant win2) ∧
    (∀ text, ∃ win2, wprintw stdCharset (some exampleWindow) text = .ok (some win2) ∧
      hasShape win2 2 3 ∧ cursorInvariant win2) ∧
    (∀ y x text, ∃ win2, mvwprintw stdCharset (some exampleWindow) y x text = .ok (some win2) ∧
      hasShape win2 2 3 ∧ cursorInvariant win2) ∧
    (∃ win2, werase (some exampleWindow) = .ok (some win2) ∧
      hasShape win2 2 3 ∧ cursorInvariant win2) ∧
    (∀ ls rs ts bs tl tr bl br, ∃ win2,
      wborder stdCharset exampleLineCodes (some exampleWindow) ls rs ts bs tl tr bl br =
        .ok (some win2) ∧
      hasShape win2 2 3 ∧ cursorInvariant win2)) :=
  ⟨⟨by decide, by decide, by decide, by decide⟩,
    C20_cursor_range_invariant stdCharset exampleLineCodes exampleWindow 2 3
      (by decide) (by decide) (by decide) (by decide)⟩

/-- C21: on a well-formed window with the cursor inside the grid at row `y0`,
`write` (`wprintw`) returns for every text and every character set; every cell
in a row with index below `y0` is as before (text, colours and style), the
touched flags of those rows are as before, and the cursor row after the call
is at least `y0`. -/
theorem C21_writes_only_go_forward (cs : Charset) (win : WINDOW) (h w y0 x0 : Nat)
    (hwin : hasShape win h w) (hcur : cursorAt win y0 x0) (hy : y0 < h) (_hx : x0 < w)
    (text : List Nat) :
    ∃ win2, wprintw cs (some win) text = .ok (some win2) ∧
      (∀ r c, r < y0 → cellAt win2 r c = cellAt win r c) ∧
      (∀ r, r < y0 → touchedAt win2 r = touchedAt win r) ∧
      (y0 : Int) ≤ win2.cursory := by
  obtain ⟨win2, Y2, X2, hrun, hc2, he, hle, _, _⟩ := printstring_gen cs hwin hcur hy text
  refine ⟨win2, by simp only [wprintw, hrun, Except.map], ?_, ?_, ?_⟩
  · intro r c hr
    exact he.cells_above r c hr
  · intro r hr
    exact he.touched_above r hr
  · rw [hc2.1]
    exact_mod_cast hle

/-- The statement of C21 at `exampleLastCell` (cursor on the last cell of row 1)
for a text with a wide glyph, a newline, an invalid byte and a letter. -/
theorem C21_witness :
    (hasShape exampleLastCell 2 3 ∧ cursorAt exampleLastCell 1 2 ∧ 1 < 2 ∧ 2 < 3) ∧
    ∃ win2, wprintw stdCharset (some exampleLastCell) [0xE4, 0xB8, 0xAD, 10, 0xFF, 0x61] =
        .ok (some win2) ∧
      (∀ r c, r < 1 → cellAt win2 r c = cellAt exampleLastCell r c) ∧
      (∀ r, r < 1 → touchedAt win2 r = touchedAt exampleLastCell r) ∧
      ((1 : Nat) : Int) ≤ win2.cursory :=
  ⟨⟨by decide, by decide, by decide, by decide⟩,
    C21_writes_only_go_forward stdCharset exampleLastCell 2 3 1 2
      (by decide) (by decide) (by decide) (by decide) [0xE4, 0xB8, 0xAD, 10, 0xFF, 0x61]⟩

end cata_cursesport
